import Mathlib

/-!
Verification of the WOUDC Extended CSV engine (`woudc-extcsv`).

This file is a shallow embedding of `woudc_extcsv/__init__.py` and
`woudc_extcsv/util.py`.  Python strings are modelled as `List Char`
(`Str`), restricted to the ASCII inputs the properties concern.
`csv.reader` / `csv.writer` are modelled on quote-free text: one row
per line, cells separated by commas.  Diagnostics are modelled as the
ordered list of numeric codes submitted to `_add_to_report`.
-/

namespace Woudc

/-- Python strings, modelled as character lists (ASCII scope). -/
abbrev Str := List Char

/-- Python `str.strip()`: remove leading and trailing whitespace
(ASCII whitespace model). -/
def pyStrip (s : Str) : Str :=
  ((s.dropWhile Char.isWhitespace).reverse.dropWhile Char.isWhitespace).reverse

/-- Python `str.lstrip(c)` for a single stripped character. -/
def pyLstripChar (c : Char) (s : Str) : Str := s.dropWhile (· = c)

/-- Python `str.rstrip(chars)`: drop trailing characters from the set
`chars` (used as `table.rstrip('0123456789_')`). -/
def pyRstripSet (cs : List Char) (s : Str) : Str :=
  (s.reverse.dropWhile (fun c => cs.contains c)).reverse

/-- Python `str.lower()` (ASCII model). -/
def pyLower (s : Str) : Str := s.map Char.toLower

/-- Python `str.split(sep)` for a one-character separator.  Like Python,
the result always has at least one piece: `''.split(':') == ['']`. -/
def pySplitChar (sep : Char) : Str → List Str
  | [] => [[]]
  | c :: rest =>
    match pySplitChar sep rest with
    | [] => [[c]]
    | p :: ps => if c = sep then [] :: p :: ps else (c :: p) :: ps

/-- Python `sep.join(pieces)` for a one-character separator. -/
def pyJoinChar (sep : Char) : List Str → Str
  | [] => []
  | [p] => p
  | p :: ps => p ++ sep :: pyJoinChar sep ps

/-- Python `pat in s` (substring containment; `'' in s` is true). -/
def strContains (pat : Str) : Str → Bool
  | [] => pat.isEmpty
  | c :: rest => pat.isPrefixOf (c :: rest) || strContains pat rest

/-- Python `s.replace(pat, rep)`: left-to-right, non-overlapping.  The
source only calls it with non-empty `pat`; an empty `pat` is treated as
a no-op here. -/
def pyReplace (pat rep : Str) (s : Str) : Str :=
  match s with
  | [] => []
  | c :: rest =>
    if h : pat ≠ [] ∧ pat.isPrefixOf (c :: rest) then
      rep ++ pyReplace pat rep ((c :: rest).drop pat.length)
    else
      c :: pyReplace pat rep rest
termination_by s.length
decreasing_by
  · simp only [List.length_drop, List.length_cons]
    have : pat.length ≠ 0 := fun hl => h.1 (List.eq_nil_of_length_eq_zero hl)
    omega
  · simp

/-- The `\w` character class of Python `re` (ASCII model): letters,
digits and underscore.  The source patterns use `[^\w\d]` etc.;
`\d ⊆ \w`, so the class reduces to "not a word character". -/
def isWordChar (c : Char) : Bool := c.isAlphanum || c = '_'

/-- Digit-string value (callers guarantee all characters are digits). -/
def digitsVal (s : Str) : Nat :=
  s.foldl (fun a c => 10 * a + (c.toNat - 48)) 0

/-- Body accepted by Python `int()` after sign removal: a non-empty
digit sequence with single underscores strictly between digits. -/
def intDigitsOk : Str → Bool
  | [] => false
  | [c] => c.isDigit
  | c :: d :: rest =>
    if d = '_' then c.isDigit && intDigitsOk rest
    else c.isDigit && intDigitsOk (d :: rest)

/-- Model of Python `int(str)`: strip whitespace, optional sign, digit
run (underscores between digits allowed). -/
def pyIntParse (s : Str) : Option Int :=
  match pyStrip s with
  | [] => none
  | c :: rest =>
    if c = '+' then
      if intDigitsOk rest then some (digitsVal (rest.filter (· ≠ '_')) : Int) else none
    else if c = '-' then
      if intDigitsOk rest then some (-(digitsVal (rest.filter (· ≠ '_')) : Int)) else none
    else
      if intDigitsOk (c :: rest) then
        some (digitsVal ((c :: rest).filter (· ≠ '_')) : Int)
      else none

/-- Model of Python `float(str)` on plain decimal forms
(optional sign, digits, optional single `.`): the only forms the
engine's typecasting of cell values exercises.  Exponent, infinity and
NaN forms are outside the inputs the claims concern. -/
def pyFloatParse (s : Str) : Option ℚ :=
  let t := pyStrip s
  let (sgn, body) : ℚ × Str :=
    match t with
    | '+' :: rest => (1, rest)
    | '-' :: rest => (-1, rest)
    | rest => (1, rest)
  match pySplitChar '.' body with
  | [ip] =>
    if ip ≠ [] ∧ ip.all Char.isDigit then some (sgn * digitsVal ip) else none
  | [ip, fp] =>
    if (ip ++ fp) ≠ [] ∧ ip.all Char.isDigit ∧ fp.all Char.isDigit then
      some (sgn * ((digitsVal ip : ℚ) + (digitsVal fp : ℚ) / (10 ^ fp.length : ℚ)))
    else none
  | _ => none

/-- A typed cell value, the codomain of `ExtendedCSV.typecast_value`
(Python's dynamically-typed cell becomes this sum; Python `None` is
`null`, a Python `float` is carried as a rational). -/
inductive Value where
  | null : Value
  | vInt (z : Int) : Value
  | vFloat (q : ℚ) : Value
  | vStr (s : Str) : Value
  | vTime (h m s : Nat) : Value
  | vDate (y m d : Nat) : Value
deriving DecidableEq, Repr

/-- Modelled from the spec: severity of each diagnostic code.  The
repository's severity table `woudc_extcsv/errors-backfilling.csv` is
loaded at import time but is not among the provided sources, so the
Warning/Error split is taken from the spec's descriptions (delimiter,
capitalization, padding and carry corrections are warnings; missing
tables/fields/values, unparseable components and out-of-range
components are errors; codes 102, 210, 220 are the fatal "not an
Extended CSV file" / unresolvable-schema errors).  `true` means the
code is an Error, i.e. `_add_to_report` returns `False`. -/
def severe (code : Nat) : Bool :=
  code ∈ [102, 112, 113, 114, 201, 203, 204, 206, 208, 210,
          213, 214, 215, 216, 220, 301, 302, 303, 304, 305, 335]

/-- Diagnostics-accumulation state: the ordered code list of every
report submitted so far, and the `success` flag threaded through the
source's methods (`success = False` once any severe report occurs). -/
structure RState where
  codes : List Nat
  ok : Bool
deriving DecidableEq, Repr

/-- `self._add_to_report(code, ...)` combined with the source's
`if not self._add_to_report(...): success = False` idiom. -/
def report (code : Nat) (st : RState) : RState :=
  { codes := st.codes ++ [code], ok := st.ok && !(severe code) }

def RState.initial : RState := { codes := [], ok := true }

/-- Model of the `datetime.time(h, m, s)` constructor: raises
`ValueError` (here `Except.error`) outside the valid ranges. -/
def pyTimeMk (h m s : Int) : Except Unit (Nat × Nat × Nat) :=
  if 0 ≤ h ∧ h < 24 ∧ 0 ≤ m ∧ m < 60 ∧ 0 ≤ s ∧ s < 60 then
    .ok (h.toNat, m.toNat, s.toNat)
  else .error ()

/-- The carry loops of `parse_timestamp`
(`while x >= 60: x -= 60; carry += 1`). -/
def carryUnit (x c : Int) : Int × Int :=
  if h : 60 ≤ x then carryUnit (x - 60) (c + 1) else (x, c)
termination_by x.toNat
decreasing_by omega

/-- Net effect of the separator-replacement loop of `parse_timestamp`
(each distinct character matching `[^\w\d]` other than `:` is replaced
everywhere by `:`; the replacement character `:` is itself never
rewritten, so the loop equals this pointwise map). -/
def fixTimeSeps (s : Str) : Str :=
  s.map (fun c => if isWordChar c then c else ':')

/-- The distinct bad separators found by `parse_timestamp` (one code
109 report per element). -/
def timeBadSeps (s : Str) : List Char :=
  (s.filter (fun c => ¬ isWordChar c ∧ c ≠ ':')).dedup

/-- Tail of `ExtendedCSV.parse_timestamp` (lines 726-763) once the
three components have parsed as integers: 12-hour adjustment, the
seconds and minutes carry loops, the final hour range check, and the
`datetime.time` construction. -/
def timestampFinish (noonInd : Option Str) (st0 : RState) (h0 m0 s0 : Int) :
    List Nat × Except Unit (Nat × Nat × Nat) :=
  let a1 : RState × Int :=
    if noonInd = some ['a', 'm'] ∧ h0 = 12 then (report 110 st0, 0)
    else if noonInd = some ['p', 'm'] ∧ h0 ≠ 12 then (report 110 st0, h0 + 12)
    else (st0, h0)
  let a2 : RState × Int × Int :=
    if 0 ≤ s0 ∧ s0 < 60 then (a1.1, s0, m0)
    else (report 340 a1.1, (carryUnit s0 m0).1, (carryUnit s0 m0).2)
  let a3 : RState × Int × Int :=
    if 0 ≤ a2.2.2 ∧ a2.2.2 < 60 then (a2.1, a2.2.2, a1.2)
    else (report 340 a2.1, (carryUnit a2.2.2 a1.2).1, (carryUnit a2.2.2 a1.2).2)
  let st := if 0 ≤ a3.2.2 ∧ a3.2.2 < 24 then a3.1 else report 340 a3.1
  if ¬ st.ok then (st.codes, .error ())
  else (st.codes, pyTimeMk a3.2.2 a3.2.1 a2.2.1)

/-- `ExtendedCSV.parse_timestamp` (lines 661-763).  Returns the report
codes it submitted and either the parsed time-of-day or an error
(`ValueError` in the source; a failed `datetime.time` construction at
the final line also surfaces as an error).  The `table` / `line_num`
reporting arguments only feed message text and are omitted. -/
def parseTimestamp (ts0 : Str) : List Nat × Except Unit (Nat × Nat × Nat) :=
  -- timestamp[-2:] in ['am', 'pm']
  let last2 := ts0.drop (ts0.length - 2)
  let noonInd : Option Str :=
    if last2 = ['a', 'm'] ∨ last2 = ['p', 'm'] then some last2 else none
  let ts1 := if noonInd.isSome then pyStrip (ts0.take (ts0.length - 2)) else ts0
  let st := (timeBadSeps ts1).foldl (fun st _ => report 109 st) RState.initial
  let v := fixTimeSeps ts1
  let toks := pySplitChar ':' v
  let pick (i : Nat) : Str :=
    let t := toks.getD i []
    if t = [] then ['0', '0'] else t
  let hN := pyIntParse (pick 0)
  let mN := pyIntParse (pick 1)
  let sN := pyIntParse (pick 2)
  let st := if hN = none then report 301 st else st
  let st := if mN = none then report 301 st else st
  let st := if sN = none then report 301 st else st
  if ¬ st.ok then (st.codes, .error ()) else
  match hN, mN, sN with
  | some h0, some m0, some s0 => timestampFinish noonInd st h0 m0 s0
  | _, _, _ => (st.codes, .error ())

/-- Net effect of the separator replacement of `parse_datestamp`
(every character matching `[^\w\d]` other than `-` is replaced by `-`;
`-` itself is preserved, so the loop equals this pointwise map). -/
def fixDateSeps (s : Str) : Str :=
  s.map (fun c => if isWordChar c ∨ c = '-' then c else '-')

/-- The distinct bad separators found by `parse_datestamp` (one code
111 report per element). -/
def dateBadSeps (s : Str) : List Char :=
  (s.filter (fun c => ¬ isWordChar c ∧ c ≠ '-')).dedup

/-- A month token accepted by CPython `strptime`'s `%m` directive
(`1[0-2]|0[1-9]|[1-9]`), which must here consume the whole token since
a literal `-` follows in the format. -/
def monthTokOk (ms : Str) : Bool :=
  ms.all Char.isDigit && 1 ≤ digitsVal ms &&
    ((ms.length = 1 && digitsVal ms ≤ 9) || (ms.length = 2 && digitsVal ms ≤ 12))

/-- A day token accepted by CPython `strptime`'s `%d` directive
(`3[01]|[12]\d|0[1-9]|[1-9]`), consuming the whole token. -/
def dayTokOk (ds : Str) : Bool :=
  ds.all Char.isDigit && 1 ≤ digitsVal ds &&
    ((ds.length = 1 && digitsVal ds ≤ 9) || (ds.length = 2 && digitsVal ds ≤ 31))

/-- Gregorian leap-year rule (as used by `datetime`). -/
def isLeap (y : Nat) : Bool := y % 4 = 0 && (y % 100 ≠ 0 || y % 400 = 0)

/-- Days in a month per `datetime`'s calendar. -/
def daysInMonth (y m : Nat) : Nat :=
  if m = 2 then (if isLeap y then 29 else 28)
  else if m ∈ [4, 6, 9, 11] then 30
  else 31

/-- Model of `datetime.strptime(s, '%Y-%m-%d').date()`: `%Y` is exactly
four digits in CPython, `%m` / `%d` are the token classes above, the
dashes are literal, the whole string must be consumed, and the final
`datetime` construction enforces calendar validity (raising
`ValueError`, here `Except.error`, e.g. for February 30). -/
def strptimeYmd (s : Str) : Except Unit (Nat × Nat × Nat) :=
  match pySplitChar '-' s with
  | [ys, ms, ds] =>
    if ys.length = 4 ∧ ys.all Char.isDigit ∧ monthTokOk ms ∧ dayTokOk ds then
      let y := digitsVal ys
      let m := digitsVal ms
      let d := digitsVal ds
      if d ≤ daysInMonth y m then .ok (y, m, d) else .error ()
    else .error ()
  | _ => .error ()

/-- `ExtendedCSV.parse_datestamp` (lines 765-850).  `presentYear`
stands for `datetime.now().year`.  Returns the submitted report codes
and either the parsed calendar date or an error (`ValueError` in the
source, including one escaping from the final `strptime` call). -/
def parseDatestamp (presentYear : Nat) (ds0 : Str) : List Nat × Except Unit (Nat × Nat × Nat) :=
  let st := (dateBadSeps ds0).foldl (fun st _ => report 111 st) RState.initial
  let v := fixDateSeps ds0
  let toks := pySplitChar '-' v
  let st := if toks.length = 1 then report 112 st else st
  let st :=
    if toks.length < 3 then report 113 st
    else if toks.length > 3 then report 114 st
    else st
  if ¬ st.ok then (st.codes, .error ()) else
  let yN := pyIntParse (toks.getD 0 [])
  let mN := pyIntParse (toks.getD 1 [])
  let dN := pyIntParse (toks.getD 2 [])
  let st := if yN = none then report 302 st else st
  let st := if mN = none then report 302 st else st
  let st := if dN = none then report 302 st else st
  let st :=
    match yN with
    | some y => if 1924 ≤ y ∧ y ≤ (presentYear : Int) then st else report 303 st
    | none => st
  let st :=
    match mN with
    | some m => if 1 ≤ m ∧ m ≤ 12 then st else report 303 st
    | none => st
  let st :=
    match dN with
    | some d => if 1 ≤ d ∧ d ≤ 31 then st else report 304 st
    | none => st
  if ¬ st.ok then (st.codes, .error ())
  else (st.codes, strptimeYmd v)

/-- The delimiter class `[^-\+\w\d]` of `parse_utcoffset`'s pattern. -/
def isOffDelim (c : Char) : Bool := ¬ (c = '-' ∨ c = '+' ∨ isWordChar c)

/-- Net effect of the separator replacement of `parse_utcoffset`
(every character matching `[^-\+\w\d]` other than `:` becomes `:`; the
`:` is preserved, so the loop equals this pointwise map). -/
def fixOffSeps (s : Str) : Str :=
  s.map (fun c => if isOffDelim c then ':' else c)

/-- The distinct bad separators found by `parse_utcoffset` (one code
115 report per element). -/
def offBadSeps (s : Str) : List Char :=
  (s.filter (fun c => isOffDelim c ∧ c ≠ ':')).dedup

/-- The sign alternation `(\+|-|\+-)?` of `parse_utcoffset`'s pattern:
candidate (group, remainder) pairs in the regex engine's backtracking
order (`+`, `-`, `+-`, then the empty group). -/
def signCands (s : Str) : List (Str × Str) :=
  (match s with
   | '+' :: '-' :: rest => [(['+'], '-' :: rest), (['+', '-'], rest)]
   | '+' :: rest => [(['+'], rest)]
   | '-' :: rest => [(['-'], rest)]
   | _ => []) ++ [([], s)]

/-- The mandatory place `([\d]{1,2})`: greedy, so two digits are tried
before one. -/
def digits12 (s : Str) : List (Str × Str) :=
  (match s with
   | c1 :: c2 :: rest => if c1.isDigit ∧ c2.isDigit then [([c1, c2], rest)] else []
   | _ => []) ++
  (match s with
   | c1 :: rest => if c1.isDigit then [([c1], rest)] else []
   | [] => [])

/-- `[\d]{0,2}`, greedy (two digits, one digit, none). -/
def digits02 (s : Str) : List (Str × Str) := digits12 s ++ [([], s)]

/-- The optional place `([^-\+\w\d]([\d]{0,2}))?`: the group is tried
(greedily) before being skipped; an unmatched group yields `''` like
an unmatched group in `re.findall`. -/
def optPlace (s : Str) : List (Str × Str) :=
  (match s with
   | d :: rest => if isOffDelim d then digits02 rest else []
   | [] => []) ++ [([], s)]

/-- Backtracking matcher for `parse_utcoffset`'s main anchored pattern
`^(\+|-|\+-)?([\d]{1,2})(delim([\d]{0,2}))?(delim([\d]{0,2}))?$`,
returning the `(sign, hour, minute, second)` groups of the match found
first in the engine's exploration order, if any. -/
def matchOffset (s : Str) : Option (Str × Str × Str × Str) :=
  ((signCands s).flatMap (fun sg =>
    (digits12 sg.2).flatMap (fun hr =>
      (optPlace hr.2).flatMap (fun mn =>
        (optPlace mn.2).filterMap (fun sc =>
          if sc.2 = [] then some (sg.1, hr.1, mn.1, sc.1) else none))))).head?

/-- Matcher for the all-zeros fallback pattern
`^(\+|-|\+-)?[0]+(delim)?[0]*(delim)?[0]*$`: after the optional sign,
the remainder matches iff it starts with `0`, every character is `0`
or a delimiter, and there are at most two delimiter characters. -/
def matchZeros (s : Str) : Bool :=
  (signCands s).any (fun sg =>
    match sg.2 with
    | '0' :: rest =>
      rest.all (fun c => c = '0' ∨ isOffDelim c) &&
        (('0' :: rest).filter (fun c => isOffDelim c)).length ≤ 2
    | _ => false)

/-- `str.rjust(2, '0')`. -/
def rjust2 (s : Str) : Str :=
  if s.length < 2 then List.replicate (2 - s.length) '0' ++ s else s

/-- Two-digit zero-padded rendering (as in Python `str(time(...))`). -/
def pad2 (n : Nat) : Str :=
  if n < 10 then ['0'] ++ (Nat.toDigits 10 n) else Nat.toDigits 10 n

/-- `str(datetime.time(h, m, s))` for whole-second times. -/
def renderTimeStr (h m s : Nat) : Str :=
  pad2 h ++ ':' :: pad2 m ++ ':' :: pad2 s

/-- `ExtendedCSV.parse_utcoffset` (lines 852-957).  Returns the
submitted report codes and either the canonical `±HH:MM:SS` string or
an error (`ValueError` in the source). -/
def parseUTCOffset (u0 : Str) : List Nat × Except Unit Str :=
  let st := (offBadSeps u0).foldl (fun st _ => report 115 st) RState.initial
  let v := fixOffSeps u0
  match matchOffset v with
  | some (sg0, hr0, mn0, sc0) =>
    let (st, hr) :=
      if hr0.length < 2 then (report 116 st, rjust2 hr0) else (st, hr0)
    let (st, mn) :=
      if mn0 = [] then (report 117 st, ['0', '0'])
      else if mn0.length < 2 then (report 116 st, rjust2 mn0) else (st, mn0)
    let (st, sc) :=
      if sc0 = [] then (report 117 st, ['0', '0'])
      else if sc0.length < 2 then (report 116 st, rjust2 sc0) else (st, sc0)
    let (st, sg) :=
      if hr = ['0', '0'] ∧ mn = ['0', '0'] ∧ sc = ['0', '0'] then
        (if sg0 ≠ ['+'] then (report 119 st, ['+']) else (st, sg0))
      else if sg0 = [] then (report 118 st, ['+'])
      else if sg0 = ['+', '-'] then (report 119 st, ['-'])
      else (st, sg0)
    if ¬ st.ok then (st.codes, .error ()) else
    match pyIntParse hr, pyIntParse mn, pyIntParse sc with
    | some h, some m, some s =>
      match pyTimeMk h m s with
      | .ok (h, m, s) => (st.codes, .ok (sg ++ renderTimeStr h m s))
      | .error _ => ((report 305 st).codes, .error ())
    | _, _, _ => ((report 305 st).codes, .error ())
  | none =>
    if matchZeros v then
      let st := report 120 st
      if severe 120 then (st.codes, .error ())
      else (st.codes, .ok ['+', '0', '0', ':', '0', '0', ':', '0', '0'])
    else ((report 305 st).codes, .error ())

/-! ### Helper lemmas about the string primitives -/

theorem dropWhile_eq_self_of_all {p : Char → Bool} :
    ∀ {s : Str}, (∀ c ∈ s, ¬ p c) → s.dropWhile p = s := by
  intro s h
  cases s with
  | nil => rfl
  | cons c rest =>
    have hc : ¬ p c := h c (List.mem_cons_self c rest)
    simp [List.dropWhile, hc]

theorem pyStrip_eq_self {s : Str} (h : ∀ c ∈ s, ¬ c.isWhitespace) : pyStrip s = s := by
  unfold pyStrip
  rw [dropWhile_eq_self_of_all h, dropWhile_eq_self_of_all, List.reverse_reverse]
  intro c hc
  exact h c (List.mem_reverse.mp hc)

theorem isDigit_not_ws {c : Char} (h : c.isDigit) : ¬ c.isWhitespace := by
  intro hw
  simp only [Char.isWhitespace, Bool.or_eq_true, decide_eq_true_eq] at hw
  rcases hw with ((h1 | h1) | h1) | h1 <;> subst h1 <;> simp [Char.isDigit] at h

theorem intDigitsOk_of_digits :
    ∀ {s : Str}, s ≠ [] → (∀ c ∈ s, c.isDigit) → intDigitsOk s = true := by
  intro s
  induction s with
  | nil => intro h; exact absurd rfl h
  | cons c rest ih =>
    intro _ hd
    cases rest with
    | nil => simpa [intDigitsOk] using hd c (by simp)
    | cons d rest2 =>
      have hdd : d.isDigit := hd d (by simp)
      have hcd : c.isDigit := hd c (by simp)
      have hdu : d ≠ '_' := by
        intro he; subst he; simp [Char.isDigit] at hdd
      rw [intDigitsOk, if_neg hdu, hcd, Bool.true_and]
      exact ih (by simp) (fun x hx => hd x (List.mem_cons_of_mem c hx))

theorem pyIntParse_digits {s : Str} (h1 : s ≠ []) (h2 : ∀ c ∈ s, c.isDigit) :
    pyIntParse s = some ((digitsVal s : Int)) := by
  have hstrip : pyStrip s = s :=
    pyStrip_eq_self (fun c hc => isDigit_not_ws (h2 c hc))
  have hfilter : s.filter (· ≠ '_') = s := by
    apply List.filter_eq_self.mpr
    intro c hc
    have := h2 c hc
    simp only [decide_eq_true_eq]
    intro he; subst he; simp [Char.isDigit] at this
  unfold pyIntParse
  rw [hstrip]
  cases s with
  | nil => exact absurd rfl h1
  | cons c rest =>
    have hc : c.isDigit := h2 c (by simp)
    have hcp : c ≠ '+' := by intro he; subst he; simp [Char.isDigit] at hc
    have hcm : c ≠ '-' := by intro he; subst he; simp [Char.isDigit] at hc
    simp only [if_neg hcp, if_neg hcm,
      intDigitsOk_of_digits (List.cons_ne_nil c rest) h2, if_true, hfilter]

theorem pySplitChar_ne_nil (sep : Char) (s : Str) : pySplitChar sep s ≠ [] := by
  cases s with
  | nil => simp [pySplitChar]
  | cons c rest =>
    rw [pySplitChar]
    rcases hs : pySplitChar sep rest with _ | ⟨p, ps⟩
    · simp
    · by_cases hc : c = sep <;> simp [hc]

theorem pySplitChar_no_sep {sep : Char} :
    ∀ {s : Str}, sep ∉ s → pySplitChar sep s = [s] := by
  intro s
  induction s with
  | nil => intro _; rfl
  | cons c rest ih =>
    intro h
    have hc : c ≠ sep := fun he => h (he ▸ List.mem_cons_self c rest)
    have hr : sep ∉ rest := fun hm => h (List.mem_cons_of_mem c hm)
    rw [pySplitChar, ih hr]
    simp [hc]

theorem pySplitChar_append {sep : Char} {b : Str} :
    ∀ {a : Str}, sep ∉ a →
      pySplitChar sep (a ++ sep :: b) = a :: pySplitChar sep b := by
  intro a
  induction a with
  | nil =>
    intro _
    rw [List.nil_append, pySplitChar]
    rcases hs : pySplitChar sep b with _ | ⟨p, ps⟩
    · exact absurd hs (pySplitChar_ne_nil sep b)
    · simp
  | cons c a2 ih =>
    intro h
    have hc : c ≠ sep := fun he => h (he ▸ List.mem_cons_self c a2)
    have ha : sep ∉ a2 := fun hm => h (List.mem_cons_of_mem c hm)
    rw [List.cons_append, pySplitChar, ih ha]
    simp [hc]

theorem fixTimeSeps_eq_self :
    ∀ {s : Str}, (∀ c ∈ s, isWordChar c ∨ c = ':') → fixTimeSeps s = s := by
  intro s
  induction s with
  | nil => intro _; rfl
  | cons c rest ih =>
    intro h
    have hrest := ih (fun x hx => h x (List.mem_cons_of_mem c hx))
    unfold fixTimeSeps at hrest ⊢
    rcases h c (by simp) with hw | hc
    · simp [hw, hrest]
    · subst hc; simp [hrest, ite_self]

theorem timeBadSeps_nil {s : Str} (h : ∀ c ∈ s, isWordChar c ∨ c = ':') :
    timeBadSeps s = [] := by
  unfold timeBadSeps
  have : s.filter (fun c => ¬ isWordChar c ∧ c ≠ ':') = [] := by
    apply List.filter_eq_nil_iff.mpr
    intro c hc
    rcases h c hc with hw | hco
    · simp [hw]
    · simp [hco]
  rw [this, List.dedup_nil]

theorem fixDateSeps_eq_self :
    ∀ {s : Str}, (∀ c ∈ s, isWordChar c ∨ c = '-') → fixDateSeps s = s := by
  intro s
  induction s with
  | nil => intro _; rfl
  | cons c rest ih =>
    intro h
    have hrest := ih (fun x hx => h x (List.mem_cons_of_mem c hx))
    unfold fixDateSeps at hrest ⊢
    rcases h c (by simp) with hw | hc
    · simp [hw, hrest]
    · subst hc; simp [hrest]

theorem carryUnit_mod_div : ∀ (n : Nat) (x c : Int), x.toNat = n → 0 ≤ x →
    carryUnit x c = (x % 60, c + x / 60) := by
  intro n
  induction n using Nat.strong_induction_on with
  | _ n ih =>
    intro x c hn hx
    rw [carryUnit]
    by_cases h : 60 ≤ x
    · rw [dif_pos h, ih (x - 60).toNat (by omega) _ _ rfl (by omega)]
      have h1 : (x - 60) % 60 = x % 60 := by omega
      have h2 : c + 1 + (x - 60) / 60 = c + x / 60 := by omega
      rw [h1, h2]
    · rw [dif_neg h]
      have h1 : x % 60 = x := by omega
      have h2 : x / 60 = 0 := by omega
      rw [h1, h2, add_zero]

deriving instance DecidableEq for Except

/-! ### C7: tolerant UTC-offset parsing examples -/

/-- C7: `parse_utcoffset` maps `"+-08:00:00"` to `"-08:00:00"` (the
`+-` sign corrected to `-`), `"00:00:00"` to `"+00:00:00"` (sign forced
to `+` for a zero magnitude), and `"+13::"` to `"+13:00:00"` (missing
minute and second defaulted to `00`), in each case without raising. -/
theorem c7_parse_utcoffset_examples :
    (parseUTCOffset ("+-08:00:00".toList)).2 = .ok ("-08:00:00".toList) ∧
    (parseUTCOffset ("00:00:00".toList)).2 = .ok ("+00:00:00".toList) ∧
    (parseUTCOffset ("+13::".toList)).2 = .ok ("+13:00:00".toList) := by
  decide

/-! ### C9: datestamp range checks and the final strptime call -/

/-- C9 counterexample: `"2019-02-30"` splits into exactly three integer
components with year, month and day all inside the claimed numeric
ranges (with `datetime.now().year` = 2026), yet `parse_datestamp`
raises instead of succeeding: the final
`datetime.strptime(datestamp, '%Y-%m-%d')` call enforces calendar
correctness, so a day of 30 in February is rejected, contrary to the
claim's "no calendar-correctness check beyond these numeric ranges". -/
theorem c9_counterexample_feb30 :
    (let toks := pySplitChar '-' (fixDateSeps ("2019-02-30".toList))
     toks.length = 3 ∧
       pyIntParse (toks.getD 0 []) = some 2019 ∧
       pyIntParse (toks.getD 1 []) = some 2 ∧
       pyIntParse (toks.getD 2 []) = some 30 ∧
       (1924 ≤ (2019 : Int) ∧ (2019 : Int) ≤ 2026) ∧
       (1 ≤ (2 : Int) ∧ (2 : Int) ≤ 12) ∧ (1 ≤ (30 : Int) ∧ (30 : Int) ≤ 31)) ∧
    (parseDatestamp 2026 ("2019-02-30".toList)).2 = .error () := by
  decide

theorem dateBadSeps_nil {s : Str} (h : ∀ c ∈ s, isWordChar c ∨ c = '-') :
    dateBadSeps s = [] := by
  unfold dateBadSeps
  have : s.filter (fun c => ¬ isWordChar c ∧ c ≠ '-') = [] := by
    apply List.filter_eq_nil_iff.mpr
    intro c hc
    rcases h c hc with hw | hco
    · simp [hw]
    · simp [hco]
  rw [this, List.dedup_nil]

theorem digit_isWordChar {c : Char} (h : c.isDigit) : isWordChar c := by
  simp only [isWordChar, Char.isAlphanum, Bool.or_eq_true]
  exact Or.inl (Or.inr h)

/-- C9 (amended): for inputs already in `Y-M-D` form with non-empty
all-digit components, `parse_datestamp` succeeds exactly when the three
claimed numeric range conditions hold and, additionally, the normalized
string passes `datetime.strptime(..., '%Y-%m-%d')`: a four-digit year
token, month and day tokens inside strptime's one-to-two-digit classes,
and a day that is calendar-valid for the month (so February 30 raises);
in every other case it raises. -/
theorem c9_parse_datestamp_amended (py : Nat) (ys ms ds : Str)
    (hy : ys ≠ []) (hm : ms ≠ []) (hd : ds ≠ [])
    (hdig : ∀ c ∈ ys ++ ms ++ ds, c.isDigit) :
    (parseDatestamp py (ys ++ '-' :: (ms ++ '-' :: ds))).2 =
      (if 1924 ≤ digitsVal ys ∧ digitsVal ys ≤ py ∧
          1 ≤ digitsVal ms ∧ digitsVal ms ≤ 12 ∧
          1 ≤ digitsVal ds ∧ digitsVal ds ≤ 31 then
         (if ys.length = 4 ∧ ys.all Char.isDigit ∧ monthTokOk ms ∧ dayTokOk ds ∧
             digitsVal ds ≤ daysInMonth (digitsVal ys) (digitsVal ms) then
            Except.ok (digitsVal ys, digitsVal ms, digitsVal ds)
          else Except.error ())
       else Except.error ()) := by
  have hyd : ∀ c ∈ ys, c.isDigit := fun c hc => hdig c (by simp [hc])
  have hmd : ∀ c ∈ ms, c.isDigit := fun c hc => hdig c (by simp [hc])
  have hdd : ∀ c ∈ ds, c.isDigit := fun c hc => hdig c (by simp [hc])
  have hall : ∀ c ∈ (ys ++ '-' :: (ms ++ '-' :: ds)), isWordChar c ∨ c = '-' := by
    intro c hc
    by_cases hdash : c = '-'
    · exact Or.inr hdash
    · refine Or.inl (digit_isWordChar ?hdig)
      rcases List.mem_append.mp hc with h1 | h1
      · exact hyd c h1
      · rcases List.mem_cons.mp h1 with h2 | h2
        · exact absurd h2 hdash
        · rcases List.mem_append.mp h2 with h3 | h3
          · exact hmd c h3
          · rcases List.mem_cons.mp h3 with h4 | h4
            · exact absurd h4 hdash
            · exact hdd c h4
  have hnoy : '-' ∉ ys := fun hmem => by simpa [Char.isDigit] using hyd '-' hmem
  have hnom : '-' ∉ ms := fun hmem => by simpa [Char.isDigit] using hmd '-' hmem
  have hnod : '-' ∉ ds := fun hmem => by simpa [Char.isDigit] using hdd '-' hmem
  have hfix : fixDateSeps (ys ++ '-' :: (ms ++ '-' :: ds)) = ys ++ '-' :: (ms ++ '-' :: ds) :=
    fixDateSeps_eq_self hall
  have hbad : dateBadSeps (ys ++ '-' :: (ms ++ '-' :: ds)) = [] := dateBadSeps_nil hall
  have hsplit : pySplitChar '-' (ys ++ '-' :: (ms ++ '-' :: ds)) = [ys, ms, ds] := by
    rw [pySplitChar_append hnoy, pySplitChar_append hnom, pySplitChar_no_sep hnod]
  have hpy : pyIntParse ys = some ((digitsVal ys : Int)) := pyIntParse_digits hy hyd
  have hpm : pyIntParse ms = some ((digitsVal ms : Int)) := pyIntParse_digits hm hmd
  have hpd : pyIntParse ds = some ((digitsVal ds : Int)) := pyIntParse_digits hd hdd
  have hstrp : strptimeYmd (ys ++ '-' :: (ms ++ '-' :: ds)) =
      (if ys.length = 4 ∧ ys.all Char.isDigit ∧ monthTokOk ms ∧ dayTokOk ds then
         (if digitsVal ds ≤ daysInMonth (digitsVal ys) (digitsVal ms) then
            Except.ok (digitsVal ys, digitsVal ms, digitsVal ds)
          else Except.error ())
       else Except.error ()) := by
    unfold strptimeYmd
    rw [hsplit]
  unfold parseDatestamp
  simp only [hbad, hfix, hsplit]
  have e1 : ((1924 : Int) ≤ (digitsVal ys : Int) ∧ (digitsVal ys : Int) ≤ (py : Int)) ↔
      (1924 ≤ digitsVal ys ∧ digitsVal ys ≤ py) := by omega
  have e2 : ((1 : Int) ≤ (digitsVal ms : Int) ∧ (digitsVal ms : Int) ≤ 12) ↔
      (1 ≤ digitsVal ms ∧ digitsVal ms ≤ 12) := by omega
  have e3 : ((1 : Int) ≤ (digitsVal ds : Int) ∧ (digitsVal ds : Int) ≤ 31) ↔
      (1 ≤ digitsVal ds ∧ digitsVal ds ≤ 31) := by omega
  have s303 : severe 303 = true := by decide
  have s304 : severe 304 = true := by decide
  by_cases h1 : 1924 ≤ digitsVal ys ∧ digitsVal ys ≤ py <;>
    by_cases h2 : 1 ≤ digitsVal ms ∧ digitsVal ms ≤ 12 <;>
      by_cases h3 : 1 ≤ digitsVal ds ∧ digitsVal ds ≤ 31 <;>
        by_cases h4 : ys.length = 4 ∧ ys.all Char.isDigit ∧ monthTokOk ms ∧ dayTokOk ds <;>
          by_cases h5 : digitsVal ds ≤ daysInMonth (digitsVal ys) (digitsVal ms) <;>
            simp [hpy, hpm, hpd, hstrp, e1, e2, e3, s303, s304,
              h1, h2, h3, h4, h5, report, RState.initial]

/-- Witness for C9's amended theorem at a concrete valid date (the
spec's own slash-example after normalization). -/
theorem c9_parse_datestamp_amended_witness :
    (parseDatestamp 2026 ("2019-01-24".toList)).2 = .ok (2019, 1, 24) := by
  have h := c9_parse_datestamp_amended 2026 ("2019".toList) ("01".toList) ("24".toList)
    (by decide) (by decide) (by decide) (by decide)
  have hin : ("2019".toList ++ '-' :: ("01".toList ++ '-' :: "24".toList)) =
      "2019-01-24".toList := by decide
  rw [hin] at h
  rw [h]
  decide

/-! ### C8: time-of-day carry normalization -/

theorem timestampFinish_nonneg (hv mv sv : Nat) :
    timestampFinish none RState.initial (hv : Int) (mv : Int) (sv : Int) =
      ((if sv < 60 then [] else [340]) ++
        ((if mv + sv / 60 < 60 then [] else [340]) ++
          (if hv + (mv + sv / 60) / 60 < 24 then [] else [340])),
       if hv + (mv + sv / 60) / 60 < 24 then
         Except.ok (hv + (mv + sv / 60) / 60, (mv + sv / 60) % 60, sv % 60)
       else Except.error ()) := by
  have s340 : severe 340 = false := by decide
  have hnoonA : ¬ ((none : Option Str) = some ['a', 'm'] ∧ (hv : Int) = 12) := by
    rintro ⟨h1, -⟩; exact Option.noConfusion h1
  have hnoonP : ¬ ((none : Option Str) = some ['p', 'm'] ∧ (hv : Int) ≠ 12) := by
    rintro ⟨h1, -⟩; exact Option.noConfusion h1
  unfold timestampFinish
  simp only [if_neg hnoonA, if_neg hnoonP]
  by_cases c1 : sv < 60
  · have i1 : (0 : Int) ≤ (sv : Int) ∧ (sv : Int) < 60 := by omega
    have ed0 : (sv : Int) / 60 = 0 := by omega
    have en0 : sv / 60 = 0 := by omega
    simp only [if_pos i1]
    by_cases c2 : mv + sv / 60 < 60
    · have i2 : (0 : Int) ≤ (mv : Int) ∧ (mv : Int) < 60 := by omega
      simp only [if_pos i2]
      by_cases c3 : hv + (mv + sv / 60) / 60 < 24
      · have i3 : (0 : Int) ≤ (hv : Int) ∧ (hv : Int) < 24 := by omega
        simp only [if_pos i3, RState.initial, pyTimeMk, if_pos c1, if_pos c2, if_pos c3]
        norm_num
        split
        · simp only [Except.ok.injEq, Prod.mk.injEq]
          refine ⟨by omega, by omega, by omega⟩
        · next hcond => exact absurd ⟨by omega, by omega, by omega⟩ hcond
      · have i3 : ¬ ((0 : Int) ≤ (hv : Int) ∧ (hv : Int) < 24) := by omega
        simp only [if_neg i3, RState.initial, report, s340, pyTimeMk, if_pos c1, if_pos c2,
          if_neg c3]
        norm_num
        omega
    · have i2 : ¬ ((0 : Int) ≤ (mv : Int) ∧ (mv : Int) < 60) := by omega
      have hcm := carryUnit_mod_div mv (mv : Int) (hv : Int) (by omega) (by omega)
      simp only [if_neg i2, hcm]
      by_cases c3 : hv + (mv + sv / 60) / 60 < 24
      · have i3 : (0 : Int) ≤ (hv : Int) + (mv : Int) / 60 ∧
            (hv : Int) + (mv : Int) / 60 < 24 := by omega
        simp only [if_pos i3, RState.initial, report, s340, pyTimeMk, if_pos c1, if_neg c2,
          if_pos c3]
        norm_num
        split
        · simp only [Except.ok.injEq, Prod.mk.injEq]
          refine ⟨by omega, by omega, by omega⟩
        · next hcond => exact absurd ⟨by omega, by omega, by omega⟩ hcond
      · have i3 : ¬ ((0 : Int) ≤ (hv : Int) + (mv : Int) / 60 ∧
            (hv : Int) + (mv : Int) / 60 < 24) := by omega
        simp only [if_neg i3, RState.initial, report, s340, pyTimeMk, if_pos c1, if_neg c2,
          if_neg c3]
        norm_num
        omega
  · have i1 : ¬ ((0 : Int) ≤ (sv : Int) ∧ (sv : Int) < 60) := by omega
    have hcs := carryUnit_mod_div sv (sv : Int) (mv : Int) (by omega) (by omega)
    simp only [if_neg i1, hcs]
    by_cases c2 : mv + sv / 60 < 60
    · have i2 : (0 : Int) ≤ (mv : Int) + (sv : Int) / 60 ∧
          (mv : Int) + (sv : Int) / 60 < 60 := by omega
      simp only [if_pos i2]
      by_cases c3 : hv + (mv + sv / 60) / 60 < 24
      · have i3 : (0 : Int) ≤ (hv : Int) ∧ (hv : Int) < 24 := by omega
        simp only [if_pos i3, RState.initial, report, s340, pyTimeMk, if_neg c1, if_pos c2,
          if_pos c3]
        norm_num
        split
        · simp only [Except.ok.injEq, Prod.mk.injEq]
          refine ⟨by omega, by omega, by omega⟩
        · next hcond => exact absurd ⟨by omega, by omega, by omega⟩ hcond
      · have i3 : ¬ ((0 : Int) ≤ (hv : Int) ∧ (hv : Int) < 24) := by omega
        simp only [if_neg i3, RState.initial, report, s340, pyTimeMk, if_neg c1, if_pos c2,
          if_neg c3]
        norm_num
        omega
    · have i2 : ¬ ((0 : Int) ≤ (mv : Int) + (sv : Int) / 60 ∧
          (mv : Int) + (sv : Int) / 60 < 60) := by omega
      have hcm := carryUnit_mod_div (mv + sv / 60) ((mv : Int) + (sv : Int) / 60) (hv : Int)
        (by omega) (by omega)
      simp only [if_neg i2, hcm]
      by_cases c3 : hv + (mv + sv / 60) / 60 < 24
      · have i3 : (0 : Int) ≤ (hv : Int) + ((mv : Int) + (sv : Int) / 60) / 60 ∧
            (hv : Int) + ((mv : Int) + (sv : Int) / 60) / 60 < 24 := by omega
        simp only [if_pos i3, RState.initial, report, s340, pyTimeMk, if_neg c1, if_neg c2,
          if_pos c3]
        norm_num
        split
        · simp only [Except.ok.injEq, Prod.mk.injEq]
          refine ⟨by omega, by omega, by omega⟩
        · next hcond => exact absurd ⟨by omega, by omega, by omega⟩ hcond
      · have i3 : ¬ ((0 : Int) ≤ (hv : Int) + ((mv : Int) + (sv : Int) / 60) / 60 ∧
            (hv : Int) + ((mv : Int) + (sv : Int) / 60) / 60 < 24) := by omega
        simp only [if_neg i3, RState.initial, report, s340, pyTimeMk, if_neg c1, if_neg c2,
          if_neg c3]
        norm_num
        omega

end Woudc

namespace Woudc

/-- C8: on `H:M:S` inputs with non-empty all-digit components,
`parse_timestamp` normalizes out-of-range seconds and minutes by
carrying overflow into the next-larger unit, cascading across units,
reporting one (warning-severity) code 340 per carried unit, and errors
exactly when the hour after all carries is outside 0-23 (the failure
surfacing from the final `datetime.time` construction, after a further
340 report for the hour). -/
theorem c8_parse_timestamp_carry (hs ms ss : Str)
    (hh : hs ≠ []) (hm : ms ≠ []) (hs2 : ss ≠ [])
    (hdig : ∀ c ∈ hs ++ ms ++ ss, c.isDigit) :
    parseTimestamp (hs ++ ':' :: (ms ++ ':' :: ss)) =
      ((if digitsVal ss < 60 then [] else [340]) ++
        ((if digitsVal ms + digitsVal ss / 60 < 60 then [] else [340]) ++
          (if digitsVal hs + (digitsVal ms + digitsVal ss / 60) / 60 < 24 then []
           else [340])),
       if digitsVal hs + (digitsVal ms + digitsVal ss / 60) / 60 < 24 then
         Except.ok (digitsVal hs + (digitsVal ms + digitsVal ss / 60) / 60,
                    (digitsVal ms + digitsVal ss / 60) % 60,
                    digitsVal ss % 60)
       else Except.error ()) := by
  have hyd : ∀ c ∈ hs, c.isDigit := fun c hc => hdig c (by simp [hc])
  have hmd : ∀ c ∈ ms, c.isDigit := fun c hc => hdig c (by simp [hc])
  have hsd : ∀ c ∈ ss, c.isDigit := fun c hc => hdig c (by simp [hc])
  have hall2 : ∀ c ∈ (hs ++ ':' :: (ms ++ ':' :: ss)), c.isDigit ∨ c = ':' := by
    intro c hc
    by_cases hcol : c = ':'
    · exact Or.inr hcol
    · refine Or.inl ?hd
      rcases List.mem_append.mp hc with h1 | h1
      · exact hyd c h1
      · rcases List.mem_cons.mp h1 with h2 | h2
        · exact absurd h2 hcol
        · rcases List.mem_append.mp h2 with h3 | h3
          · exact hmd c h3
          · rcases List.mem_cons.mp h3 with h4 | h4
            · exact absurd h4 hcol
            · exact hsd c h4
  have hall : ∀ c ∈ (hs ++ ':' :: (ms ++ ':' :: ss)), isWordChar c ∨ c = ':' := by
    intro c hc
    rcases hall2 c hc with h1 | h1
    · exact Or.inl (digit_isWordChar h1)
    · exact Or.inr h1
  have hnoh : ':' ∉ hs := fun hmem => by simpa [Char.isDigit] using hyd ':' hmem
  have hnom : ':' ∉ ms := fun hmem => by simpa [Char.isDigit] using hmd ':' hmem
  have hnos : ':' ∉ ss := fun hmem => by simpa [Char.isDigit] using hsd ':' hmem
  have hnoon : ¬ ((hs ++ ':' :: (ms ++ ':' :: ss)).drop
        ((hs ++ ':' :: (ms ++ ':' :: ss)).length - 2) = ['a', 'm'] ∨
      (hs ++ ':' :: (ms ++ ':' :: ss)).drop
        ((hs ++ ':' :: (ms ++ ':' :: ss)).length - 2) = ['p', 'm']) := by
    intro hcase
    have hmem : 'm' ∈ (hs ++ ':' :: (ms ++ ':' :: ss)) := by
      apply List.drop_subset ((hs ++ ':' :: (ms ++ ':' :: ss)).length - 2)
      rcases hcase with he | he <;> rw [he] <;> simp
    rcases hall2 'm' hmem with h1 | h1 <;> simp [Char.isDigit] at h1
  have hfix : fixTimeSeps (hs ++ ':' :: (ms ++ ':' :: ss)) =
      hs ++ ':' :: (ms ++ ':' :: ss) := fixTimeSeps_eq_self hall
  have hbad : timeBadSeps (hs ++ ':' :: (ms ++ ':' :: ss)) = [] := timeBadSeps_nil hall
  have hsplit : pySplitChar ':' (hs ++ ':' :: (ms ++ ':' :: ss)) = [hs, ms, ss] := by
    rw [pySplitChar_append hnoh, pySplitChar_append hnom, pySplitChar_no_sep hnos]
  have hph : pyIntParse hs = some ((digitsVal hs : Int)) := pyIntParse_digits hh hyd
  have hpm : pyIntParse ms = some ((digitsVal ms : Int)) := pyIntParse_digits hm hmd
  have hps : pyIntParse ss = some ((digitsVal ss : Int)) := pyIntParse_digits hs2 hsd
  have houter : parseTimestamp (hs ++ ':' :: (ms ++ ':' :: ss)) =
      timestampFinish none RState.initial (digitsVal hs) (digitsVal ms) (digitsVal ss) := by
    unfold parseTimestamp
    simp only [if_neg hnoon, Option.isSome_none, Bool.false_eq_true, if_false,
      hfix, hbad, hsplit, List.foldl_nil, List.getD_cons_zero, List.getD_cons_succ,
      if_neg hh, if_neg hm, if_neg hs2, hph, hpm, hps]
    simp [RState.initial]
  rw [houter, timestampFinish_nonneg]

/-- Witness for C8 at the spec's example: `"08:84:150"` parses to
09:26:30 with one carry warning per out-of-range unit. -/
theorem c8_parse_timestamp_carry_witness :
    parseTimestamp ("08:84:150".toList) = ([340, 340], .ok (9, 26, 30)) := by
  have h := c8_parse_timestamp_carry ("08".toList) ("84".toList) ("150".toList)
    (by decide) (by decide) (by decide) (by decide)
  have hin : ("08".toList ++ ':' :: ("84".toList ++ ':' :: "150".toList)) =
      "08:84:150".toList := by decide
  rw [hin] at h
  rw [h]
  decide

/-! ### The document model: `self.extcsv` and friends -/

/-- A column of `self.extcsv[table]`: before collimation a list of raw
cell strings; after collimation either a list of typed values
(multi-row tables) or a bare scalar (one-row tables; Python `None`
becomes `Value.null`). -/
inductive Col where
  | raws (ls : List Str) : Col
  | typed (vs : List Value) : Col
  | scalar (v : Value) : Col
deriving DecidableEq, Repr

/-- One table body: the reserved `comments` entry (always created first
by `init_table`, so Python's `keys()[1:]` is exactly `cols`), then the
field columns in insertion order. -/
structure Table where
  comments : List Str
  cols : List (Str × Col)
deriving DecidableEq, Repr

/-- The `ExtendedCSV` instance state touched by the claims:
`self.extcsv` (insertion-ordered), `self._table_count`,
`self._line_num`, `self.file_comments` (the constructor appends whole
rows), and the accumulated diagnostics.  The constructor's local
`success` flag always equals `rstate.ok`, because the state starts
with no diagnostics and flips exactly on the first severe report. -/
structure Doc where
  tables : List (Str × Table)
  tableCount : List (Str × Nat)
  lineNums : List (Str × Nat)
  fileComments : List (List Str)
  rstate : RState
deriving DecidableEq, Repr

def Doc.empty : Doc :=
  { tables := [], tableCount := [], lineNums := [], fileComments := [],
    rstate := RState.initial }

/-- `d[k]` lookup in an insertion-ordered Python dict. -/
def alistGet {α : Type} (k : Str) : List (Str × α) → Option α
  | [] => none
  | p :: ps => if p.1 = k then some p.2 else alistGet k ps

/-- Python dict assignment `d[k] = v`: overwrite in place if the key
exists (keeping its position), else append. -/
def alistSet {α : Type} (k : Str) (v : α) : List (Str × α) → List (Str × α)
  | [] => [(k, v)]
  | p :: ps => if p.1 = k then (k, v) :: ps else p :: alistSet k v ps

/-- Python `k in d`. -/
def alistHas {α : Type} (k : Str) (l : List (Str × α)) : Bool :=
  l.any (fun p => p.1 = k)

/-- Python `del d[k]` / `d.pop(k)` (on unique-keyed dicts). -/
def alistRemove {α : Type} (k : Str) (l : List (Str × α)) : List (Str × α) :=
  l.filter (fun p => ¬ p.1 = k)

/-- `util._table_index(table, index)`. -/
def tableIndexName (table : Str) (index : Nat) : Str :=
  if index > 1 then table ++ '_' :: Nat.toDigits 10 index else table

/-- One step of `init_table`'s field loop: a stripped field named
`comments` resets the comments entry, any other becomes an empty
column. -/
def initTableStep (b : Table) (f : Str) : Table :=
  let fn := pyStrip f
  if fn = ("comments".toList) then { b with comments := [] }
  else { b with cols := alistSet fn (Col.raws []) b.cols }

/-- `ExtendedCSV.init_table` (lines 372-403): bump the occurrence
count, suffix repeat tables with `_count`, record the header line,
create the `comments` entry and one empty column per stripped field
name.  Returns the updated document and the final table name.  (A field
literally named `comments` re-assigns the comments entry, like the
Python dict assignment would.) -/
def initTable (d : Doc) (tableName : Str) (fields : List Str) (lineNum : Nat) :
    Doc × Str :=
  let (newCount, finalName) :=
    match alistGet tableName d.tableCount with
    | none => (1, tableName)
    | some c => (c + 1, tableName ++ '_' :: Nat.toDigits 10 (c + 1))
  let body : Table := fields.foldl initTableStep { comments := [], cols := [] }
  ({ d with
      tableCount := alistSet tableName newCount d.tableCount,
      tables := alistSet finalName body d.tables,
      lineNums := alistSet finalName lineNum d.lineNums },
   finalName)

/-- `ExtendedCSV.add_field_to_table` (lines 405-436): skip silently if
the indexed table is not in `self._line_num`; otherwise add an empty
column (stripped name) for every field not already a key of the table,
returning the (unstripped) names of the fields actually added. -/
def addFieldToTable (d : Doc) (tableName : Str) (fields : List Str) (index : Nat) :
    Doc × List Str :=
  let tn := tableIndexName tableName index
  if ¬ alistHas tn d.lineNums then (d, []) else
  fields.foldl
    (fun (acc : Doc × List Str) field =>
      match alistGet tn acc.1.tables with
      | none => acc  -- unreachable from the source's call sites (KeyError in Python)
      | some t =>
        let keyss := ("comments".toList) :: t.cols.map (·.1)
        if field ∈ keyss then acc
        else
          let fn := pyStrip field
          let t2 := if fn = ("comments".toList) then { t with comments := [] }
                    else { t with cols := alistSet fn (Col.raws []) t.cols }
          ({ acc.1 with tables := alistSet tn t2 acc.1.tables }, acc.2 ++ [field]))
    (d, [])

/-- `list.append(v)` on a column (Python appends the raw string even to
an already-typed list; appending to a scalar raises
`AttributeError`). -/
def appendCell (c : Col) (v : Str) : Option Col :=
  match c with
  | .raws l => some (.raws (l ++ [v]))
  | .typed l => some (.typed (l ++ [.vStr v]))
  | .scalar _ => none

/-- The `for field, value in zip(...)` append loops of
`add_values_to_table`, writing into `self.extcsv[tableName]` (note:
the *unindexed* name, as in the source).  `strip` selects the
horizontal loop's `value.strip()`.  Errors are Python exceptions
(missing table or field, or append on a scalar). -/
def appendPairs (d : Doc) (tableName : Str) (strip : Bool) :
    List (Str × Str) → Except Unit Doc
  | [] => .ok d
  | (f, v) :: rest =>
    match alistGet tableName d.tables with
    | none => .error ()
    | some t =>
      let v2 := if strip then pyStrip v else v
      if f = ("comments".toList) then
        let t2 := { t with comments := t.comments ++ [v2] }
        appendPairs { d with tables := alistSet tableName t2 d.tables } tableName strip rest
      else
        match alistGet f t.cols with
        | none => .error ()
        | some c =>
          match appendCell c v2 with
          | none => .error ()
          | some c2 =>
            let t2 := { t with cols := alistSet f c2 t.cols }
            appendPairs { d with tables := alistSet tableName t2 d.tables } tableName strip rest

/-- `ExtendedCSV.add_values_to_table` (lines 438-485).  Returns the
updated document and the source's `success` flag, or an error where
the source would raise.  In the horizontal no-field-list branch, a row
longer than the field count reports code 212 and is then truncated to
the field count; a shorter row is right-padded with `''`. -/
def addValuesToTable (d : Doc) (tableName : Str) (values : List Str) (lineNum : Nat)
    (fieldsOpt : Option (List Str)) (index : Nat) (horizontal : Bool) :
    Except Unit (Doc × Bool) :=
  let tn := tableIndexName tableName index
  match alistGet tn d.tables with
  | none => .error ()
  | some tTn =>
    if horizontal then
      match fieldsOpt with
      | some fields0 =>
        let allFields := tTn.cols.map (·.1)
        let fv :=
          allFields.foldl
            (fun (fv : List Str × List Str) f =>
              if f ∈ fv.1 then fv else (fv.1 ++ [f], fv.2 ++ [[]]))
            (fields0, values)
        (appendPairs d tableName true (fv.1.zip fv.2)).map (fun d2 => (d2, true))
      | none =>
        let fields := tTn.cols.map (·.1)
        let fillins : Int := (fields.length : Int) - values.length
        let (d, success) :=
          if fillins < 0 then
            ({ d with rstate := report 212 d.rstate }, !(severe 212))
          else (d, true)
        let values2 := (values ++ List.replicate fillins.toNat []).take fields.length
        (appendPairs d tableName true (fields.zip values2)).map (fun d2 => (d2, success))
    else
      match fieldsOpt with
      | none => .error ()  -- the source's vertical path always receives fields
      | some fields =>
        let pairs :=
          if fields.length = 1 then values.map (fun v => (fields.headD [], v))
          else fields.zip values
        (appendPairs d tableName false pairs).map (fun d2 => (d2, true))

/-! ### The constructor's parse loop (`ExtendedCSV.__init__`, lines 200-278) -/

def startsWithHash (s : Str) : Bool := s.head? = some '#'

def startsWithStar (s : Str) : Bool := s.head? = some '*'

/-- Model of one `csv.reader` row on quote-free text: a blank line
yields the empty row `[]`, any other line splits on commas. -/
def csvSplitLine (s : Str) : List Str :=
  if s = [] then [] else pySplitChar ',' s

/-- `util.non_content_line` (util.py lines 51-66). -/
def nonContentLine (row : List Str) : Bool :=
  match row with
  | [] => true
  | [first] => (pyStrip first).length = 0 || startsWithStar (pyStrip first)
  | first :: _ :: _ => startsWithStar (pyStrip first)

/-- The bad delimiters scanned for in `__init__` (line 234), in source
order. -/
def badSepList : List Str :=
  [[':', ':'], [';'], ['$'], ['%'], ['|'], ['\\']]

/-- One iteration of the separator-correction loop (lines 238-243):
replace the separator in the current first cell by a comma and re-read
the row with `next(csv.reader(StringIO(comma_separated)))`, then
report code 104.  When a previous replacement has left the first cell
empty, the replaced text is empty too, `csv.reader` over the empty
buffer yields no row, and `next` raises `StopIteration` — which
`__init__` does not catch here, so parsing aborts (the error case).  A
non-empty replaced cell always yields exactly one row, its
comma-split. -/
def fixRowStep (acc : Except Unit (List Str × RState)) (sep : Str) :
    Except Unit (List Str × RState) :=
  match acc with
  | .error e => .error e
  | .ok rs =>
    let cs := pyReplace sep [','] (rs.1.headD [])
    if cs = [] then .error ()
    else .ok (pySplitChar ',' cs, report 104 rs.2)

/-- The separator-correction loop of `__init__` (lines 233-243): the
separators present in the original first cell are collected, then each
is replaced in turn; an empty first cell aborts with the uncaught
`StopIteration` (see `fixRowStep`). -/
def fixRowSeps (row : List Str) (st : RState) : Except Unit (List Str × RState) :=
  let seps := badSepList.filter
    (fun sep => ¬ nonContentLine row ∧ strContains sep (row.headD []))
  seps.foldl fixRowStep (.ok (row, st))

/-- The parse loop's control state: either dispatching normally with
the current `parent_table`, or inside the
`while non_content_line(fields)` scan that follows a table marker
(lines 250-255), still owing the marker's table name and line
number. -/
inductive PMode where
  | normal (parent : Option Str) : PMode
  | seekHeader (pendingName : Str) (markerLn : Nat) : PMode
deriving DecidableEq, Repr

/-- The row-dispatch loop of `__init__` (lines 232-275), one enumerated
comma-split row at a time.  The `next(lines)` calls that consume the
field-header line (and any blank lines before it, each a code 103
report) are modelled by the `seekHeader` state; reaching the end of
input in that state is the `StopIteration` handler reporting code 206.
The constructor's local `success` flag coincides with `d.rstate.ok`
throughout, since the state starts with no reports. -/
def parseRows (rows : List (Nat × List Str)) (d : Doc) (mode : PMode) :
    Except Unit Doc :=
  match rows with
  | [] =>
    match mode with
    | .seekHeader _ _ => .ok { d with rstate := report 206 d.rstate }
    | .normal _ => .ok d
  | (ln, row0) :: rest =>
    match mode with
    | .seekHeader name markerLn =>
      -- the header row comes raw from the reader: no separator correction here
      if nonContentLine row0 then
        parseRows rest { d with rstate := report 103 d.rstate } (.seekHeader name markerLn)
      else
        let p := initTable d name row0 markerLn
        parseRows rest p.1 (.normal (some p.2))
    | .normal parent =>
      match fixRowSeps row0 d.rstate with
      | .error _ => .error ()  -- uncaught StopIteration from line 240: __init__ aborts
      | .ok pr =>
        let row := pr.1
        let d := { d with rstate := pr.2 }
        if row.length = 1 ∧ startsWithHash (row.headD []) then
          let parent0 := pyStrip (pyLstripChar '#' (row.headD []))
          parseRows rest d (.seekHeader parent0 ln)
        else if row.length > 0 ∧ startsWithStar (row.headD []) then
          parseRows rest { d with fileComments := d.fileComments ++ [row] } mode
        else if nonContentLine row then
          parseRows rest d mode
        else
          match parent with
          | some p =>
            match addValuesToTable d p row ln none 1 true with
            | .ok r => parseRows rest r.1 mode
            | .error _ => .error ()  -- a missing parent table would be a KeyError
          | none =>
            parseRows rest { d with rstate := report 211 d.rstate } mode

/-- How `ExtendedCSV.__init__` can fail: the `NonStandardDataError`
raised at line 277 when a severe report occurred, or the uncaught
`StopIteration` escaping from the separator-correction loop (line
240). -/
inductive PErr where
  | nonStandard (errors : List Nat) : PErr
  | stopIteration : PErr
deriving DecidableEq, Repr

/-- `ExtendedCSV.__init__` on a list of input lines: enumerate from 1,
split each line as `csv.reader` does, run the dispatch loop, and raise
`NonStandardDataError(self.errors)` if any severe report occurred.
(`self.errors` holds the severe reports, `self.warnings` the rest.) -/
def parseECSV (lines : List Str) : Except PErr Doc :=
  let rows := (lines.map csvSplitLine).enum.map (fun p => (p.1 + 1, p.2))
  match parseRows rows Doc.empty (.normal none) with
  | .error _ => .error .stopIteration
  | .ok d =>
    if ¬ d.rstate.ok then .error (.nonStandard (d.rstate.codes.filter severe))
    else .ok d

/-! ### Schema model and the structural validator -/

/-- A schema range entry as loaded from YAML: an integer (`rows: 1`) or
a range string (`occurrences: "1-3"`, `"2+"`). -/
inductive RangeVal where
  | num (n : Int) : RangeVal
  | rng (s : Str) : RangeVal
deriving DecidableEq, Repr

/-- `str(range_value)` as applied by the validator before parsing. -/
def RangeVal.asStr : RangeVal → Str
  | .num n => (toString n).toList
  | .rng s => s

/-- One table definition of the schema configuration: required and
optional field names, occurrence range and row range.  A purely
optional table has no `required_fields` entry (`hasRequired = false`,
matching the source's `.get('required_fields', ())`). -/
structure TableDef where
  hasRequired : Bool
  requiredFields : List Str
  optionalFields : List Str
  occurrences : RangeVal
  rows : RangeVal
deriving DecidableEq, Repr

/-- `util.parse_integer_range` (util.py lines 69-87); `none` as upper
bound is `float('inf')`.  The schema strings are validated at load
time, so the `int()` calls cannot fail; a malformed string falls back
to bound 0 here. -/
def parseIntegerRange (s : Str) : Int × Option Int :=
  if s.getLast? = some '+' then
    ((pyIntParse (s.dropLast)).getD 0, none)
  else if (s.filter (· = '-')).length = 1 then
    match pySplitChar '-' s with
    | [a, b] => ((pyIntParse a).getD 0, some ((pyIntParse b).getD 0))
    | _ => (0, some 0)
  else
    let v := (pyIntParse s).getD 0
    (v, some v)

/-- Characters stripped by `table.rstrip('0123456789_')`. -/
def suffixChars : List Char := "0123456789_".toList

/-- `table_name.rstrip('0123456789_')`: the base type of a table. -/
def baseOf (name : Str) : Str := pyRstripSet suffixChars name

def Doc.tableCountOf (d : Doc) (t : Str) : Nat := (alistGet t d.tableCount).getD 0

/-- `ExtendedCSV.check_table_occurrences` (lines 1017-1046): reports
213/214 for table types occurring fewer/more times than the schema's
occurrence range allows.  Returns the updated diagnostics and the
`success` flag. -/
def checkTableOccurrences (d : Doc) (schema : List (Str × TableDef)) : Doc × Bool :=
  schema.foldl
    (fun (acc : Doc × Bool) entry =>
      let (tType, defn) := entry
      if tType = ("data_table".toList) then acc
      else
        let count : Int := acc.1.tableCountOf tType
        let lu := parseIntegerRange defn.occurrences.asStr
        let acc :=
          if count < lu.1 then
            ({ acc.1 with rstate := report 213 acc.1.rstate }, acc.2 && !(severe 213))
          else acc
        match lu.2 with
        | none => acc
        | some upper =>
          if count > upper then
            ({ acc.1 with rstate := report 214 acc.1.rstate }, acc.2 && !(severe 214))
          else acc)
    (d, true)

/-- `ExtendedCSV.check_table_height` (lines 1048-1085). -/
def checkTableHeight (d : Doc) (defn : TableDef) (numRows : Nat) : Doc × Bool :=
  let lu := parseIntegerRange defn.rows.asStr
  let isRequired := (parseIntegerRange defn.occurrences.asStr).1
  if numRows = 0 ∧ lu.1 ≠ 0 then
    if isRequired ≠ 0 then
      ({ d with rstate := report 208 d.rstate }, !(severe 208))
    else
      ({ d with rstate := report 209 d.rstate }, !(severe 209))
  else if (numRows : Int) < lu.1 then
    ({ d with rstate := report 215 d.rstate }, !(severe 215))
  else
    match lu.2 with
    | none => (d, true)
    | some upper =>
      if (numRows : Int) > upper then
        ({ d with rstate := report 216 d.rstate }, !(severe 216))
      else (d, true)

/-- A `{key.lower(): key for key in keys}` comprehension: later keys
overwrite earlier ones. -/
def caseMap (keys : List Str) : List (Str × Str) :=
  keys.foldl (fun m k => alistSet (pyLower k) k m) []

/-- Membership of `''` in a Python column (`'' in column`): only list
columns are tested, and `''` equals only the empty raw or typed
string. -/
def colHasEmpty (c : Col) : Bool :=
  match c with
  | .raws l => l.contains []
  | .typed l => l.contains (.vStr [])
  | .scalar _ => false

/-- `ExtendedCSV.check_field_validity` (lines 1087-1175): rename
case-mismatched required fields in place (a dict `pop` plus assignment,
which moves the column to the end), insert a null column for missing
required fields (sized by `next(iter(...))`, which is the `comments`
entry, hence `len(comments)`), canonicalize or drop non-required
fields, and report empty required values.  The pathological case of a
schema field case-matching the reserved `comments` entry does not occur
in any schema and is left as a plain rename here. -/
def checkFieldValidity (d : Doc) (table : Str) (defn : TableDef) : Doc × Bool :=
  match alistGet table d.tables with
  | none => (d, true)  -- unreachable from the validators (KeyError in Python)
  | some t0 =>
    let required := defn.requiredFields
    let optionall := defn.optionalFields
    let provided := ("comments".toList) :: t0.cols.map (·.1)
    let requiredCase := caseMap required
    let optionalCase := caseMap optionall
    let providedCase := caseMap provided
    let missingFields := required.filter (fun f => ¬ f ∈ provided)
    let extraFields := provided.filter (fun f => ¬ alistHas (pyLower f) requiredCase)
    let numRows := t0.comments.length
    let nullValue : List Str := List.replicate numRows []
    -- required missing fields: rename a case-insensitive match, else null column
    let step1 :=
      missingFields.foldl
        (fun (acc : Doc × Bool) missing =>
          match alistGet table acc.1.tables with
          | none => acc
          | some t =>
            match alistGet (pyLower missing) providedCase with
            | some matched =>
              let col := (alistGet matched t.cols).getD (Col.raws [])
              let t2 := { t with cols := alistRemove matched t.cols ++ [(missing, col)] }
              ({ acc.1 with
                  tables := alistSet table t2 acc.1.tables,
                  rstate := report 105 acc.1.rstate },
               acc.2 && !(severe 105))
            | none =>
              let t2 := { t with cols := t.cols ++ [(missing, Col.raws nullValue)] }
              ({ acc.1 with
                  tables := alistSet table t2 acc.1.tables,
                  rstate := report 203 acc.1.rstate },
               acc.2 && !(severe 203)))
        (d, true)
    -- extra fields: canonicalize optional-field case, drop unknown fields
    let step2 :=
      extraFields.foldl
        (fun (acc : Doc × Bool) extra =>
          match alistGet table acc.1.tables with
          | none => acc
          | some t =>
            match alistGet (pyLower extra) optionalCase with
            | some matched =>
              if extra ≠ matched then
                let col := (alistGet extra t.cols).getD (Col.raws [])
                let t2 := { t with cols := alistRemove extra t.cols ++ [(matched, col)] }
                ({ acc.1 with
                    tables := alistSet table t2 acc.1.tables,
                    rstate := report 105 acc.1.rstate },
                 acc.2 && !(severe 105))
              else acc
            | none =>
              if extra ≠ ("comments".toList) then
                let t2 := { t with cols := alistRemove extra t.cols }
                ({ acc.1 with
                    tables := alistSet table t2 acc.1.tables,
                    rstate := report 250 acc.1.rstate },
                 acc.2 && !(severe 250))
              else acc)
        step1
    -- required fields must have no empty values
    required.foldl
      (fun (acc : Doc × Bool) field =>
        match alistGet table acc.1.tables with
        | none => acc
        | some t =>
          let col := (alistGet field t.cols).getD (Col.raws [])
          if colHasEmpty col then
            ({ acc.1 with rstate := report 204 acc.1.rstate }, acc.2 && !(severe 204))
          else acc)
      step2

/-! ### Value typecasting and collimation -/

/-- `ExtendedCSV.typecast_value` (lines 621-659) on a raw cell string:
empty cell to `None`; `Time` / `Date` / `UTCOffset` fields through
their tolerant normalizers (a raised `ValueError` is caught at line
646, reported as code 335, and the raw string kept); otherwise float
when a `.` is present, leading-zero digit strings kept verbatim, else
integer, falling back to the raw string.  Returns the report codes the
call submitted and the resulting value.  `py` is
`datetime.now().year`. -/
def typecastValue (py : Nat) (field : Str) (v : Str) : List Nat × Value :=
  if v = [] then ([], .null)
  else
    let lf := pyLower field
    if lf = ("time".toList) then
      match parseTimestamp v with
      | (codes, .ok (h, m, s)) => (codes, .vTime h m s)
      | (codes, .error _) => (codes ++ [335], .vStr v)
    else if lf = ("date".toList) then
      match parseDatestamp py v with
      | (codes, .ok (y, m, dd)) => (codes, .vDate y m dd)
      | (codes, .error _) => (codes ++ [335], .vStr v)
    else if lf = ("utcoffset".toList) then
      match parseUTCOffset v with
      | (codes, .ok s) => (codes, .vStr s)
      | (codes, .error _) => (codes ++ [335], .vStr v)
    else if v.contains '.' then
      match pyFloatParse v with
      | some q => ([], .vFloat q)
      | none => ([], .vStr v)
    else if v.length > 1 ∧ v.headD ' ' = '0' then ([], .vStr v)
    else
      match pyIntParse v with
      | some z => ([], .vInt z)
      | none => ([], .vStr v)

/-- `typecast_value` applied to an already-typed cell, as happens when
collimation runs twice.  A typed string re-enters the raw-string path
verbatim.  Any non-string value raises a `TypeError` inside one of the
`try` blocks: on `Time`/`Date`/`UTCOffset` fields the catch at line
646 reports code 335 and returns the value; on other fields the catch
at line 658 silently returns the value. -/
def typecastAgain (py : Nat) (field : Str) (v : Value) : List Nat × Value :=
  match v with
  | .vStr s => typecastValue py field s
  | other =>
    let lf := pyLower field
    if lf = ("time".toList) ∨ lf = ("date".toList) ∨ lf = ("utcoffset".toList) then
      ([335], other)
    else ([], other)

/-- Iterating a column inside `collimate_tables`'s list comprehension:
lists yield their cells; a Python string scalar yields its characters
as one-character strings; any other scalar raises `TypeError`. -/
def iterateCol (py : Nat) (field : Str) (c : Col) :
    Except Unit (List (List Nat × Value)) :=
  match c with
  | .raws l => .ok (l.map (typecastValue py field))
  | .typed l => .ok (l.map (typecastAgain py field))
  | .scalar (.vStr s) => .ok (s.map (fun ch => typecastValue py field [ch]))
  | .scalar _ => .error ()

/-- One iteration of `collimate_tables`'s field loop: typecast every
iterated cell (accumulating the reported codes), then store either the
unwrapped scalar (`rows == 1`, `None` when empty) or the converted
list back into the column. -/
def collimateStep (py : Nat) (defn : TableDef)
    (acc : Except Unit (Table × RState)) (entry : Str × Col) :
    Except Unit (Table × RState) :=
  match acc with
  | .error e => .error e
  | .ok (tAcc, st) =>
    match iterateCol py entry.1 entry.2 with
    | .error _ => .error ()
    | .ok converted =>
      let st2 := converted.foldl (fun s cv => cv.1.foldl (fun s2 c => report c s2) s) st
      let vals := converted.map (·.2)
      let newCol :=
        if defn.rows = RangeVal.num 1 then Col.scalar (vals.headD Value.null)
        else Col.typed vals
      .ok ({ tAcc with cols := alistSet entry.1 newCol tAcc.cols }, st2)

/-- `ExtendedCSV.collimate_tables` (lines 983-1015): for every listed
table, map `typecast_value` over each non-`comments` column; when the
schema declares exactly one row, unwrap the single-element result to a
bare scalar (`None` when the column was empty).  Errors are the
uncaught Python exceptions (a `KeyError` for a table type outside
`schema`, or the `TypeError` from enumerating a non-string scalar). -/
def collimateTables (py : Nat) (d : Doc) (tableNames : List Str)
    (schema : List (Str × TableDef)) : Except Unit Doc :=
  match tableNames with
  | [] => .ok d
  | name :: rest =>
    let tType := baseOf name
    match alistGet tType schema with
    | none => .error ()
    | some defn =>
      match alistGet name d.tables with
      | none => .error ()
      | some t =>
        let step := t.cols.foldl (collimateStep py defn) (.ok (t, d.rstate))
        match step with
        | .error _ => .error ()
        | .ok (t2, st2) =>
          collimateTables py
            { d with tables := alistSet name t2 d.tables, rstate := st2 } rest schema

/-- The two exception types raised by the validators:
`NonStandardDataError(self.errors)` and
`MetadataValidationError(msg, self.errors)`, plus uncaught Python
exceptions. -/
inductive VErr where
  | nonStandard (errors : List Nat) : VErr
  | metadataInvalid (errors : List Nat) : VErr
  | pyError : VErr
deriving DecidableEq, Repr

/-- Python `len()` of a column value: lists and strings have a length,
any other scalar raises `TypeError` (`none`). -/
def pyLenCol (c : Col) : Option Nat :=
  match c with
  | .raws l => some l.length
  | .typed l => some l.length
  | .scalar (.vStr s) => some s.length
  | .scalar _ => none

/-- Outcome of the per-table loop of `validate_metadata_tables`:
an early `return` (already-collimated guard), normal completion with
the final `success` flag, or an uncaught Python exception. -/
inductive MetaLoopOut where
  | earlyRet (d : Doc) : MetaLoopOut
  | done (d : Doc) (success : Bool) : MetaLoopOut
  | crash : MetaLoopOut
deriving Repr

/-- The `for table in present_tables` loop of `validate_metadata_tables`
(lines 1235-1253): fetch the first data column (`list(body.items())[1]`),
return early if `len()` of it raises `TypeError` (already collimated),
otherwise run `check_field_validity` (whose failure short-circuits
`check_table_height`, as the source's `or` does) and fill in absent
optional fields with `[''] * num_rows`. -/
def validateTablesLoop (d : Doc) (schema : List (Str × TableDef)) :
    List Str → Bool → MetaLoopOut
  | [], success => .done d success
  | table :: rest, success =>
    match alistGet (baseOf table) schema with
    | none => .crash  -- KeyError; unreachable: present tables have their base in schema
    | some defn =>
      match alistGet table d.tables with
      | none => .crash
      | some body =>
        match body.cols.head? with
        | none => .crash  -- IndexError on list(body.items())[1]
        | some fc =>
          match pyLenCol fc.2 with
          | none => .earlyRet d
          | some numRows =>
            let r1 := checkFieldValidity d table defn
            let (d2, success2) :=
              if ¬ r1.2 then (r1.1, false)
              else
                let r2 := checkTableHeight r1.1 defn numRows
                (r2.1, success && r2.2)
            let d3 :=
              defn.optionalFields.foldl
                (fun dAcc field =>
                  match alistGet table dAcc.tables with
                  | none => dAcc
                  | some t =>
                    if alistHas field (("comments".toList, Col.raws []) :: t.cols) then dAcc
                    else
                      let t2 : Table :=
                        { t with cols :=
                            t.cols ++ [(field, Col.raws (List.replicate numRows []))] }
                      { dAcc with tables := alistSet table t2 dAcc.tables })
                d2
            validateTablesLoop d3 schema rest success2

/-- Continuation of `validate_metadata_tables` after the
missing/present checks: occurrence validation, the per-table loop, and
final collimation or `MetadataValidationError`. -/
def validateMetadataRest (py : Nat) (d : Doc) (schema : List (Str × TableDef))
    (presentTables : List Str) (success0 : Bool) : Except VErr Doc :=
  let occ := checkTableOccurrences d schema
  match validateTablesLoop occ.1 schema presentTables (success0 && occ.2) with
  | .earlyRet d2 => .ok d2
  | .crash => .error .pyError
  | .done d2 success =>
    if success then
      match collimateTables py d2 presentTables schema with
      | .ok d3 => .ok d3
      | .error _ => .error .pyError
    else .error (.metadataInvalid (d2.rstate.codes.filter severe))

/-- `ExtendedCSV.validate_metadata_tables` (lines 1207-1259) against a
schema parameter standing for `DOMAINS['Common']`.  Follows the source:
the fatal 102 report and `NonStandardDataError` when no schema table is
present; 201 reports for missing tables and `MetadataValidationError`
if severe; occurrence checks; then per present table, the
already-collimated guard (a `TypeError` from `len()` of a non-string
non-list first column returns early), field validity (short-circuiting
the height check, as `or` does), height check, optional-field fill-in;
finally collimation on success or `MetadataValidationError`. -/
def validateMetadataTables (py : Nat) (d : Doc) (schema : List (Str × TableDef)) :
    Except VErr Doc :=
  let missingTables := (schema.map (·.1)).filter (fun t => ¬ alistHas t d.tables)
  let presentTables := (d.tables.map (·.1)).filter (fun t => alistHas (baseOf t) schema)
  if presentTables.length = 0 then
    let d := { d with rstate := report 102 d.rstate }
    if severe 102 then .error (.nonStandard (d.rstate.codes.filter severe))
    else validateMetadataRest py d schema presentTables true
  else if missingTables.length > 0 then
    let start :=
      missingTables.foldl
        (fun (acc : Doc × Bool) missing =>
          let _ := missing
          ({ acc.1 with rstate := report 201 acc.1.rstate }, acc.2 && !(severe 201)))
        (d, true)
    if ¬ start.2 then .error (.metadataInvalid (start.1.rstate.codes.filter severe))
    else validateMetadataRest py start.1 schema presentTables start.2
  else validateMetadataRest py d schema presentTables true

/-- Modelled from the spec: `DOMAINS['Common']`, the metadata-table
schema loaded from `woudc_extcsv/tables-backfilling.yml`, which is not
among the provided sources.  Table names follow the spec's section 3
and the field lists the writer template (source lines 1570-1576); the
proofs below depend only on the table-name key set. -/
def commonSchema : List (Str × TableDef) :=
  [(("CONTENT".toList),
    { hasRequired := true,
      requiredFields := ["Class".toList, "Category".toList, "Level".toList, "Form".toList],
      optionalFields := [], occurrences := .num 1, rows := .num 1 }),
   (("DATA_GENERATION".toList),
    { hasRequired := true,
      requiredFields := ["Date".toList, "Agency".toList, "Version".toList,
                         "ScientificAuthority".toList],
      optionalFields := [], occurrences := .num 1, rows := .num 1 }),
   (("PLATFORM".toList),
    { hasRequired := true,
      requiredFields := ["Type".toList, "ID".toList, "Name".toList, "Country".toList],
      optionalFields := ["GAW_ID".toList], occurrences := .num 1, rows := .num 1 }),
   (("INSTRUMENT".toList),
    { hasRequired := true,
      requiredFields := ["Name".toList, "Model".toList, "Number".toList],
      optionalFields := [], occurrences := .num 1, rows := .num 1 }),
   (("LOCATION".toList),
    { hasRequired := true,
      requiredFields := ["Latitude".toList, "Longitude".toList, "Height".toList],
      optionalFields := [], occurrences := .num 1, rows := .num 1 }),
   (("TIMESTAMP".toList),
    { hasRequired := true,
      requiredFields := ["UTCOffset".toList, "Date".toList, "Time".toList],
      optionalFields := [], occurrences := .num 1, rows := .num 1 })]

/-! ### C2: what actually happens on marker-free input -/

theorem report_ok_warning {c : Nat} {st : RState} (h : severe c = false) :
    (report c st).ok = st.ok := by
  simp [report, h]

theorem report_filter_warning {c : Nat} {st : RState} (h : severe c = false) :
    (report c st).codes.filter severe = st.codes.filter severe := by
  simp [report, List.filter_append, h]

theorem csvSplitLine_head {line : Str} (h : line.head? ≠ some '#') :
    ((csvSplitLine line).headD []).head? ≠ some '#' := by
  unfold csvSplitLine
  by_cases he : line = []
  · simp [he]
  · rw [if_neg he]
    cases line with
    | nil => exact absurd rfl he
    | cons c rest =>
      rw [pySplitChar]
      rcases hs : pySplitChar ',' rest with _ | ⟨p, ps⟩
      · exact absurd hs (pySplitChar_ne_nil ',' rest)
      · by_cases hc : c = ','
        · simp [hc]
        · simpa [hc] using h

theorem pyReplace_head {pat s : Str} (h : s.head? ≠ some '#') :
    (pyReplace pat [','] s).head? ≠ some '#' := by
  cases s with
  | nil => rw [pyReplace]; simp
  | cons c rest =>
    rw [pyReplace]
    by_cases hp : pat ≠ [] ∧ pat.isPrefixOf (c :: rest)
    · rw [dif_pos hp]
      simp
    · rw [dif_neg hp]
      simpa using h

/-- Once a step has raised the modelled `StopIteration`, the rest of
the separator fold keeps the error. -/
theorem foldl_fixRowStep_error :
    ∀ (l : List Str), l.foldl fixRowStep (.error ()) = .error () := by
  intro l
  induction l with
  | nil => rfl
  | cons s rest ih => rw [List.foldl_cons]; exact ih

/-- The separator-correction fold either aborts with the uncaught
`StopIteration` or preserves the invariant: the first cell never
starts with `#`, the success flag is untouched and no severe code is
added (104 is a warning). -/
theorem fixRowSeps_inv {row : List Str} {st : RState}
    (h : (row.headD []).head? ≠ some '#') :
    fixRowSeps row st = .error () ∨
    ∃ row2 st2, fixRowSeps row st = .ok (row2, st2) ∧
      ((row2.headD []).head? ≠ some '#') ∧
      st2.ok = st.ok ∧
      st2.codes.filter severe = st.codes.filter severe := by
  have s104 : severe 104 = false := by decide
  unfold fixRowSeps
  generalize badSepList.filter (fun sep => ¬ nonContentLine row ∧
    strContains sep (row.headD [])) = seps
  induction seps generalizing row st with
  | nil => exact .inr ⟨row, st, rfl, h, rfl, rfl⟩
  | cons sep rest ih =>
    rw [List.foldl_cons]
    by_cases hcs : pyReplace sep [','] (row.headD []) = []
    · have hstep : fixRowStep (.ok (row, st)) sep = .error () := by
        simp only [fixRowStep]
        rw [if_pos hcs]
      rw [hstep, foldl_fixRowStep_error]
      exact .inl rfl
    · have hstep : fixRowStep (.ok (row, st)) sep =
          .ok (pySplitChar ',' (pyReplace sep [','] (row.headD [])), report 104 st) := by
        simp only [fixRowStep]
        rw [if_neg hcs]
      have hcsv : ((csvSplitLine (pyReplace sep [','] (row.headD []))).headD []).head? ≠
          some '#' := csvSplitLine_head (pyReplace_head h)
      have hsplit : csvSplitLine (pyReplace sep [','] (row.headD [])) =
          pySplitChar ',' (pyReplace sep [','] (row.headD [])) := by
        unfold csvSplitLine
        rw [if_neg hcs]
      rw [hsplit] at hcsv
      rcases @ih (pySplitChar ',' (pyReplace sep [','] (row.headD []))) (report 104 st) hcsv
        with he | ⟨row2, st2, heq, hh, hok, hflt⟩
      · rw [hstep]
        exact .inl he
      · rw [hstep]
        refine .inr ⟨row2, st2, heq, hh, ?_, ?_⟩
        · rw [hok, report_ok_warning s104]
        · rw [hflt, report_filter_warning s104]

theorem mem_enumFrom_snd {α : Type} :
    ∀ (l : List α) (n : Nat) (p : Nat × α), p ∈ List.enumFrom n l → p.2 ∈ l := by
  intro l
  induction l with
  | nil => intro n p h; simp [List.enumFrom] at h
  | cons x xs ih =>
    intro n p h
    rw [List.enumFrom] at h
    rcases List.mem_cons.mp h with h1 | h1
    · subst h1; simp
    · exact List.mem_cons_of_mem x (ih (n + 1) p h1)

/-- On rows whose first cell never starts `#`, the dispatch loop either
aborts with the uncaught `StopIteration` of the separator loop, or ends
without creating a table, without flipping `success`, and without
adding a severe report. -/
theorem parseRows_nomarker :
    ∀ (rows : List (Nat × List Str)) (d : Doc),
      (∀ r ∈ rows, ((r.2.headD []) : Str).head? ≠ some '#') →
      parseRows rows d (.normal none) = .error () ∨
      ∃ d2, parseRows rows d (.normal none) = .ok d2 ∧
        d2.tables = d.tables ∧
        d2.tableCount = d.tableCount ∧
        d2.rstate.ok = d.rstate.ok ∧
        d2.rstate.codes.filter severe = d.rstate.codes.filter severe := by
  intro rows
  induction rows with
  | nil => intro d _; exact .inr ⟨d, rfl, rfl, rfl, rfl, rfl⟩
  | cons r rest ih =>
    intro d hmem
    obtain ⟨ln, row0⟩ := r
    have h0 : ((row0.headD []) : Str).head? ≠ some '#' := hmem (ln, row0) (by simp)
    have hrest : ∀ r2 ∈ rest, ((r2.2.headD []) : Str).head? ≠ some '#' :=
      fun r2 hr2 => hmem r2 (List.mem_cons_of_mem _ hr2)
    have s211 : severe 211 = false := by decide
    rcases @fixRowSeps_inv row0 d.rstate h0 with herr | ⟨row2, st2, heq, hh, hok2, hflt2⟩
    · left
      rw [parseRows.eq_def]
      dsimp only
      rw [herr]
    · rw [parseRows.eq_def]
      dsimp only
      rw [heq]
      dsimp only
      have hnomark : ¬ (row2.length = 1 ∧ startsWithHash (row2.headD [])) := by
        rintro ⟨-, hsh⟩
        simp only [startsWithHash, decide_eq_true_eq] at hsh
        exact hh hsh
      rw [if_neg hnomark]
      by_cases hstar : row2.length > 0 ∧ startsWithStar (row2.headD [])
      · rw [if_pos hstar]
        rcases ih { d with fileComments := d.fileComments ++ [row2], rstate := st2 } hrest
          with he | ⟨d2, heq2, ht, hc, ho, hf⟩
        · exact .inl he
        · exact .inr ⟨d2, heq2, ht, hc, ho.trans hok2, hf.trans hflt2⟩
      · rw [if_neg hstar]
        by_cases hnc : nonContentLine row2
        · rw [if_pos hnc]
          rcases ih { d with rstate := st2 } hrest with he | ⟨d2, heq2, ht, hc, ho, hf⟩
          · exact .inl he
          · exact .inr ⟨d2, heq2, ht, hc, ho.trans hok2, hf.trans hflt2⟩
        · rw [if_neg hnc]
          rcases ih { d with rstate := report 211 st2 } hrest
            with he | ⟨d2, heq2, ht, hc, ho, hf⟩
          · exact .inl he
          · refine .inr ⟨d2, heq2, ht, hc, ?_, ?_⟩
            · exact ho.trans ((report_ok_warning s211).trans hok2)
            · exact hf.trans ((report_filter_warning s211).trans hflt2)

/-- C2 counterexample: parsing the marker-free text `"hello"` does not
report a fatal error and does not abort: the constructor returns
normally with a zero-table document and an empty error list (just the
undiagnosed-content warning, code 211) — contrary to the claim that a
fatal "not an Extended-CSV file" error is raised during parsing and
that a partial document with zero tables is never returned. -/
theorem c2_counterexample :
    parseECSV ["hello".toList] =
      .ok { tables := [], tableCount := [], lineNums := [], fileComments := [],
            rstate := { codes := [211], ok := true } } := by
  decide

/-- C2 (amended): on input in which no line begins with `#`, the
constructor never raises the fatal code 102 "not an Extended-CSV file"
error.  Either it returns a document with zero tables and an empty
error list — and code 102 is only raised afterwards, by
`validate_metadata_tables`, as a `NonStandardDataError` carrying the
accumulated error set — or, when a separator replacement empties a
line's first cell (concretely on the line `";a|b"`), it aborts with
the uncaught `StopIteration` of line 240 before any diagnosis. -/
theorem c2_amended_no_marker (lines : List Str)
    (h : ∀ line ∈ lines, line.head? ≠ some '#') :
    ((∃ d, parseECSV lines = .ok d ∧ d.tables = [] ∧
        d.rstate.codes.filter severe = [] ∧
        ∀ py, validateMetadataTables py d commonSchema =
          .error (.nonStandard [102])) ∨
      parseECSV lines = .error PErr.stopIteration) ∧
    parseECSV [";a|b".toList] = .error PErr.stopIteration := by
  have hfx : fixRowSeps [";a|b".toList] Doc.empty.rstate = .error () := by
    unfold fixRowSeps
    have hseps : badSepList.filter
        (fun sep => ¬ nonContentLine [";a|b".toList] ∧
          strContains sep (([";a|b".toList] : List Str).headD [])) =
        [";".toList, "|".toList] := by decide
    rw [hseps]
    rw [List.foldl_cons, List.foldl_cons, List.foldl_nil]
    have hrep1 : pyReplace ";".toList [','] (([";a|b".toList] : List Str).headD []) =
        ",a|b".toList := by
      simp [pyReplace]
    have hstep1 : fixRowStep (.ok ([";a|b".toList], Doc.empty.rstate)) ";".toList =
        .ok (pySplitChar ',' ",a|b".toList, report 104 Doc.empty.rstate) := by
      simp only [fixRowStep]
      rw [hrep1]
      rw [if_neg (by decide)]
    have hstep2 : fixRowStep
        (.ok (pySplitChar ',' ",a|b".toList, report 104 Doc.empty.rstate)) "|".toList =
        .error () := by
      have hhead : ((pySplitChar ',' ",a|b".toList : List Str)).headD [] = [] := by decide
      have hrep2 : pyReplace "|".toList [','] ([] : Str) = [] := by rw [pyReplace]
      simp only [fixRowStep]
      rw [hhead, hrep2]
      rw [if_pos rfl]
    rw [hstep1, hstep2]
  have hpr : parseRows [(1, [";a|b".toList])] Doc.empty (.normal none) = .error () := by
    rw [parseRows.eq_def]
    dsimp only
    rw [hfx]
  have hcrash : parseECSV [";a|b".toList] = .error PErr.stopIteration := by
    have hrows : (([";a|b".toList].map csvSplitLine).enum.map
        (fun p => (p.1 + 1, p.2))) = [(1, [";a|b".toList])] := by decide
    simp only [parseECSV]
    rw [hrows, hpr]
  refine ⟨?_, hcrash⟩
  have hmem : ∀ r ∈ ((lines.map csvSplitLine).enum.map (fun p => (p.1 + 1, p.2))),
      ((r.2.headD []) : Str).head? ≠ some '#' := by
    intro r hr
    rcases List.mem_map.mp hr with ⟨p, hp, hre⟩
    have hsnd : p.2 ∈ lines.map csvSplitLine := mem_enumFrom_snd _ 0 p hp
    rcases List.mem_map.mp hsnd with ⟨line, hline, hcl⟩
    have : ((csvSplitLine line).headD []).head? ≠ some '#' :=
      csvSplitLine_head (h line hline)
    rw [← hre]
    simpa [hcl] using this
  rcases parseRows_nomarker _ Doc.empty hmem with herr | ⟨d, heq, htab0, -, hok0, hflt0⟩
  · right
    simp only [parseECSV]
    rw [herr]
  · left
    have htab : d.tables = [] := htab0
    have hflt : d.rstate.codes.filter severe = [] := hflt0
    have hok : d.rstate.ok = true := hok0
    refine ⟨d, ?_, htab, hflt, ?_⟩
    · simp only [parseECSV]
      rw [heq]
      dsimp only
      rw [if_neg (fun hc => hc hok)]
    · intro py
      unfold validateMetadataTables
      rw [htab]
      simp only [List.map_nil, List.filter_nil, List.length_nil]
      rw [if_pos trivial, if_pos (by decide : severe 102 = true)]
      simp [report, List.filter_append, hflt]
      decide

/-- Witness for C2's amended theorem at the concrete marker-free input
`"hello"`. -/
theorem c2_amended_no_marker_witness :
    ((∃ d, parseECSV ["hello".toList] = .ok d ∧ d.tables = [] ∧
        d.rstate.codes.filter severe = [] ∧
        ∀ py, validateMetadataTables py d commonSchema =
          .error (.nonStandard [102])) ∨
      parseECSV ["hello".toList] = .error PErr.stopIteration) ∧
    parseECSV [";a|b".toList] = .error PErr.stopIteration :=
  c2_amended_no_marker ["hello".toList] (by decide)

/-! ### Association-list lemmas -/

theorem alistGet_set_self {α : Type} (k : Str) (v : α) :
    ∀ (l : List (Str × α)), alistGet k (alistSet k v l) = some v := by
  intro l
  induction l with
  | nil => rw [alistSet, alistGet]; simp
  | cons p ps ih =>
    rw [alistSet]
    by_cases hp : p.1 = k
    · rw [if_pos hp, alistGet]; simp
    · rw [if_neg hp, alistGet, if_neg hp]
      exact ih

theorem alistGet_set_ne {α : Type} {k k2 : Str} (v : α) (h : k2 ≠ k) :
    ∀ (l : List (Str × α)), alistGet k2 (alistSet k v l) = alistGet k2 l := by
  intro l
  have hk : ¬ (k = k2) := fun he => h he.symm
  induction l with
  | nil =>
    rw [alistSet, alistGet]
    simp [hk, alistGet]
  | cons p ps ih =>
    rw [alistSet]
    by_cases hp : p.1 = k
    · rw [if_pos hp, alistGet, alistGet]
      have : ¬ (p.1 = k2) := by rw [hp]; exact hk
      rw [if_neg hk, if_neg this]
    · rw [if_neg hp, alistGet, alistGet]
      by_cases hp2 : p.1 = k2
      · rw [if_pos hp2, if_pos hp2]
      · rw [if_neg hp2, if_neg hp2]
        exact ih

theorem alistSet_set {α : Type} (k : Str) (v1 v2 : α) :
    ∀ (l : List (Str × α)), alistSet k v2 (alistSet k v1 l) = alistSet k v2 l := by
  intro l
  induction l with
  | nil => rw [alistSet, alistSet, alistSet]; simp
  | cons p ps ih =>
    rw [alistSet]
    by_cases hp : p.1 = k
    · rw [if_pos hp, alistSet, alistSet]
      simp [hp]
    · rw [if_neg hp, alistSet, if_neg hp, alistSet, if_neg hp, ih]

theorem alistGet_append_first {α : Type} {k : Str} {c : α} {rest : List (Str × α)} :
    ∀ {pre : List (Str × α)}, k ∉ pre.map (·.1) →
      alistGet k (pre ++ (k, c) :: rest) = some c := by
  intro pre
  induction pre with
  | nil =>
    intro _
    simp only [List.nil_append]
    rw [alistGet, if_pos rfl]
  | cons p ps ih =>
    intro h
    simp only [List.map_cons, List.mem_cons, not_or] at h
    have hp : ¬ (p.1 = k) := fun he => h.1 he.symm
    rw [List.cons_append, alistGet, if_neg hp]
    exact ih h.2

theorem alistSet_append_first {α : Type} {k : Str} {v c : α} {rest : List (Str × α)} :
    ∀ {pre : List (Str × α)}, k ∉ pre.map (·.1) →
      alistSet k v (pre ++ (k, c) :: rest) = pre ++ (k, v) :: rest := by
  intro pre
  induction pre with
  | nil =>
    intro _
    simp only [List.nil_append]
    rw [alistSet, if_pos rfl]
  | cons p ps ih =>
    intro h
    simp only [List.map_cons, List.mem_cons, not_or] at h
    have hp : ¬ (p.1 = k) := fun he => h.1 he.symm
    rw [List.cons_append, alistSet, if_neg hp, ih h.2]
    rfl

theorem alistSet_get_self {α : Type} {k : Str} {v : α} :
    ∀ {l : List (Str × α)}, alistGet k l = some v → alistSet k v l = l := by
  intro l
  induction l with
  | nil => intro h; rw [alistGet] at h; exact Option.noConfusion h
  | cons p ps ih =>
    intro h
    rw [alistGet] at h
    by_cases hp : p.1 = k
    · rw [if_pos hp] at h
      rw [alistSet, if_pos hp]
      obtain ⟨k1, v1⟩ := p
      simp only at hp
      injection h with h2
      simp only at h2
      rw [hp, h2]
    · rw [if_neg hp] at h
      rw [alistSet, if_neg hp, ih h]

/-! ### C3 / C10: column lengths under the table-mutating operations -/

/-- Length of a column (a one-row scalar counts as one cell). -/
def colSize : Col → Nat
  | .raws l => l.length
  | .typed l => l.length
  | .scalar _ => 1

/-- Appending one raw cell to a raw-string column. -/
def colAppendRaw (c : Col) (v : Str) : Col :=
  match c with
  | .raws l => .raws (l ++ [v])
  | c => c

/-- The claimed invariant: all non-`comments` columns of a table have
equal length. -/
def eqColumnLengthsB (t : Table) : Bool :=
  match t.cols with
  | [] => true
  | c :: cs => cs.all (fun p => colSize p.2 = colSize c.2)

/-- Effect of the horizontal zip-append loop on a table whose columns
are raw lists: with unique field names and one value per column, every
column receives exactly its (stripped) value, in place. -/
theorem appendPairs_zip :
    ∀ (cols : List (Str × Col)) (pre : List (Str × Col)) (d : Doc) (tn : Str)
      (cm : List Str) (vals : List Str) (strip : Bool),
      alistGet tn d.tables = some { comments := cm, cols := pre ++ cols } →
      (((pre ++ cols).map (·.1)).Nodup) →
      (("comments".toList) ∉ cols.map (·.1)) →
      vals.length = cols.length →
      (∀ p ∈ cols, ∃ l, p.2 = Col.raws l) →
      appendPairs d tn strip ((cols.map (·.1)).zip vals) =
        .ok { d with
              tables :=
                alistSet tn
                  (Table.mk cm
                    (pre ++ (cols.zip vals).map (fun pv =>
                      (pv.1.1,
                       colAppendRaw pv.1.2 (if strip then pyStrip pv.2 else pv.2)))))
                  d.tables } := by
  intro cols
  induction cols with
  | nil =>
    intro pre d tn cm vals strip hget hnodup hcom hlen hraws
    have hv : vals = [] := List.eq_nil_of_length_eq_zero (by simpa using hlen)
    subst hv
    rw [List.map_nil, List.zip_nil_right, appendPairs]
    rw [List.zip_nil_right, List.map_nil, List.append_nil]
    rw [List.append_nil] at hget
    rw [alistSet_get_self hget]
  | cons fc cols2 ih =>
    intro pre d tn cm vals strip hget hnodup hcom hlen hraws
    obtain ⟨f, c⟩ := fc
    cases vals with
    | nil => simp at hlen
    | cons v vals2 =>
      obtain ⟨l, hl⟩ := hraws (f, c) (by simp)
      simp only at hl
      subst hl
      have hnames : ((pre ++ (f, Col.raws l) :: cols2).map (·.1)) =
          pre.map (·.1) ++ f :: cols2.map (·.1) := by simp
      rw [hnames] at hnodup
      rcases List.nodup_append.mp hnodup with ⟨hnp, hnc, hdisj⟩
      have hfpre : f ∉ pre.map (·.1) :=
        fun hmem => hdisj hmem (List.mem_cons_self f _)
      have hfcols : f ∉ cols2.map (·.1) := (List.nodup_cons.mp hnc).1
      simp only [List.map_cons, List.mem_cons, not_or] at hcom
      have hfc : ¬ (f = ("comments".toList)) := fun he => hcom.1 he.symm
      have hgetf : alistGet f (pre ++ (f, Col.raws l) :: cols2) = some (Col.raws l) :=
        alistGet_append_first hfpre
      have hsetf : alistSet f (Col.raws (l ++ [if strip then pyStrip v else v]))
          (pre ++ (f, Col.raws l) :: cols2) =
          pre ++ (f, Col.raws (l ++ [if strip then pyStrip v else v])) :: cols2 :=
        alistSet_append_first hfpre
      rw [List.map_cons, List.zip_cons_cons, appendPairs, hget]
      simp only [if_neg hfc, hgetf, appendCell, hsetf]
      have hih := ih (pre ++ [(f, Col.raws (l ++ [if strip then pyStrip v else v]))])
          { d with
            tables :=
              alistSet tn
                (Table.mk cm
                  (pre ++ (f, Col.raws (l ++ [if strip then pyStrip v else v])) :: cols2))
                d.tables }
          tn cm vals2 strip ?hget2 ?hnodup2 ?hcom2 ?hlen2 ?hraws2
      case hget2 =>
        show alistGet tn (alistSet tn _ d.tables) = _
        rw [alistGet_set_self]
        rw [List.append_assoc, List.singleton_append]
      case hnodup2 =>
        have he2 : (((pre ++ [(f, Col.raws (l ++ [if strip then pyStrip v else v]))]) ++
            cols2).map (·.1)) = pre.map (·.1) ++ f :: cols2.map (·.1) := by simp
        rw [he2]
        exact hnodup
      case hcom2 => exact hcom.2
      case hlen2 => simpa using hlen
      case hraws2 => exact fun p hp => hraws p (List.mem_cons_of_mem _ hp)
      rw [hih]
      rw [List.zip_cons_cons, List.map_cons]
      simp only [colAppendRaw, alistSet_set, List.append_assoc, List.singleton_append]

theorem tableIndexName_one (t : Str) : tableIndexName t 1 = t := by
  unfold tableIndexName
  simp

theorem zipAppend_sizes :
    ∀ (cols : List (Str × Col)) (vals : List Str),
      cols.length ≤ vals.length → (∀ p ∈ cols, ∃ l, p.2 = Col.raws l) →
      ((cols.zip vals).map (fun pv => colSize (colAppendRaw pv.1.2 (pyStrip pv.2)))) =
        cols.map (fun p => colSize p.2 + 1) := by
  intro cols
  induction cols with
  | nil => intro vals _ _; simp
  | cons p ps ih =>
    intro vals hlen hraws
    cases vals with
    | nil => simp at hlen
    | cons v vs =>
      obtain ⟨l, hl⟩ := hraws p (by simp)
      rw [List.zip_cons_cons, List.map_cons, List.map_cons,
        ih vs (by simpa using hlen) (fun q hq => hraws q (List.mem_cons_of_mem _ hq))]
      rw [hl]
      simp [colAppendRaw, colSize]

/-- C10: horizontal row insertion without an explicit field list, when
the row holds strictly more values than the table has fields:
`add_values_to_table` records the code 212 mismatch diagnostic (a
warning, so the call still reports success), silently truncates the row
to the field count, appends the stripped i-th value to the i-th column
(so each non-`comments` column grows by exactly one), and the excess
values influence nothing: the stored tables equal those produced by
inserting the pre-truncated row. -/
theorem c10_add_values_truncation (d : Doc) (tn : Str) (cm : List Str)
    (cols : List (Str × Col)) (values : List Str) (ln : Nat)
    (hget : alistGet tn d.tables = some (Table.mk cm cols))
    (hnodup : (cols.map (·.1)).Nodup)
    (hcom : ("comments".toList) ∉ cols.map (·.1))
    (hraws : ∀ p ∈ cols, ∃ l, p.2 = Col.raws l)
    (hlong : cols.length < values.length) :
    (addValuesToTable d tn values ln none 1 true =
      .ok ({ d with
             rstate := report 212 d.rstate,
             tables :=
               alistSet tn
                 (Table.mk cm
                   ((cols.zip (values.take cols.length)).map (fun pv =>
                     (pv.1.1, colAppendRaw pv.1.2 (pyStrip pv.2)))))
                 d.tables },
            true)) ∧
    (((cols.zip (values.take cols.length)).map (fun pv =>
        (pv.1.1, colAppendRaw pv.1.2 (pyStrip pv.2)))).map (fun p => colSize p.2) =
      cols.map (fun p => colSize p.2 + 1)) ∧
    ((addValuesToTable d tn values ln none 1 true).map (fun r => r.1.tables) =
      (addValuesToTable d tn (values.take cols.length) ln none 1 true).map
        (fun r => r.1.tables)) := by
  have htk : (values.take cols.length).length = cols.length :=
    List.length_take_of_le (le_of_lt hlong)
  have hz := appendPairs_zip cols [] { d with rstate := report 212 d.rstate } tn cm
    (values.take cols.length) true (by simpa using hget) (by simpa using hnodup)
    hcom htk hraws
  have hz0 := appendPairs_zip cols [] d tn cm
    (values.take cols.length) true (by simpa using hget) (by simpa using hnodup)
    hcom htk hraws
  have hfill : ((cols.map (·.1)).length : Int) - (values.length : Int) < 0 := by
    simp only [List.length_map]
    omega
  have hfill2 : ¬ (((cols.map (·.1)).length : Int) -
      ((values.take cols.length).length : Int) < 0) := by
    simp only [List.length_map, htk]
    omega
  have hmain : addValuesToTable d tn values ln none 1 true =
      .ok ({ d with
             rstate := report 212 d.rstate,
             tables :=
               alistSet tn
                 (Table.mk cm
                   ((cols.zip (values.take cols.length)).map (fun pv =>
                     (pv.1.1, colAppendRaw pv.1.2 (pyStrip pv.2)))))
                 d.tables },
            true) := by
    simp only [addValuesToTable, tableIndexName_one, hget]
    rw [if_pos hfill]
    have hc0 : ((((cols.map (·.1)).length : Int)) - ((values.length : Int))).toNat = 0 := by
      simp only [List.length_map]
      omega
    rw [hc0, List.replicate_zero, List.append_nil]
    simp only [List.length_map]
    rw [hz]
    have hs : severe 212 = false := by decide
    simp [hs]
    rfl
  refine ⟨hmain, ?_, ?_⟩
  · rw [List.map_map]
    exact zipAppend_sizes cols (values.take cols.length) (le_of_eq htk.symm) hraws
  rw [hmain]
  have hmain2 : addValuesToTable d tn (values.take cols.length) ln none 1 true =
      .ok ({ d with
             tables :=
               alistSet tn
                 (Table.mk cm
                   ((cols.zip (values.take cols.length)).map (fun pv =>
                     (pv.1.1, colAppendRaw pv.1.2 (pyStrip pv.2)))))
                 d.tables },
            true) := by
    simp only [addValuesToTable, tableIndexName_one, hget]
    rw [if_neg hfill2]
    have h0 : ((((cols.map (·.1)).length : Int)) -
        (((values.take cols.length).length : Int))).toNat = 0 := by
      simp only [List.length_map, htk]
      omega
    rw [h0, List.replicate_zero, List.append_nil]
    simp only [List.length_map]
    have htt : (values.take cols.length).take cols.length = values.take cols.length := by
      rw [List.take_take, min_self]
    rw [htt, hz0]
    rfl
  rw [hmain2]
  rfl

/-- A concrete two-field table receiving a three-value row. -/
def c10Cols : List (Str × Col) :=
  [("A".toList, Col.raws []), ("B".toList, Col.raws [])]

/-- A document holding only the table `T` with fields `A` and `B`. -/
def c10Doc : Doc :=
  { Doc.empty with tables := [("T".toList, Table.mk [] c10Cols)] }

/-- A row one value too long for `c10Cols`. -/
def c10Vals : List Str := ["1".toList, " 2 ".toList, "3".toList]

/-- Witness for C10: inserting the three-value row `1, 2 , 3` into the
two-field table `T` satisfies every hypothesis of the truncation theorem,
and the theorem's conclusion holds there. -/
theorem c10_add_values_truncation_witness :
    (alistGet ("T".toList) c10Doc.tables = some (Table.mk [] c10Cols)) ∧
    ((c10Cols.map (·.1)).Nodup) ∧
    (("comments".toList) ∉ c10Cols.map (·.1)) ∧
    (∀ p ∈ c10Cols, ∃ l, p.2 = Col.raws l) ∧
    (c10Cols.length < c10Vals.length) ∧
    (addValuesToTable c10Doc ("T".toList) c10Vals 4 none 1 true =
      .ok ({ c10Doc with
             rstate := report 212 c10Doc.rstate,
             tables :=
               alistSet ("T".toList)
                 (Table.mk []
                   ((c10Cols.zip (c10Vals.take c10Cols.length)).map (fun pv =>
                     (pv.1.1, colAppendRaw pv.1.2 (pyStrip pv.2)))))
                 c10Doc.tables },
            true)) ∧
    (((c10Cols.zip (c10Vals.take c10Cols.length)).map (fun pv =>
        (pv.1.1, colAppendRaw pv.1.2 (pyStrip pv.2)))).map (fun p => colSize p.2) =
      c10Cols.map (fun p => colSize p.2 + 1)) ∧
    ((addValuesToTable c10Doc ("T".toList) c10Vals 4 none 1 true).map
        (fun r => r.1.tables) =
      (addValuesToTable c10Doc ("T".toList) (c10Vals.take c10Cols.length) 4 none 1
          true).map (fun r => r.1.tables)) := by
  have hraws : ∀ p ∈ c10Cols, ∃ l, p.2 = Col.raws l := by
    intro p hp
    simp only [c10Cols, List.mem_cons, List.not_mem_nil, or_false] at hp
    rcases hp with h | h <;> subst h <;> exact ⟨[], rfl⟩
  have h := c10_add_values_truncation c10Doc ("T".toList) [] c10Cols c10Vals 4
    (by decide) (by decide) (by decide) hraws (by decide)
  exact ⟨by decide, by decide, by decide, hraws, by decide, h.1, h.2.1, h.2.2⟩

/-! ### C3: the equal-column-lengths invariant -/

theorem alistSet_mem {α : Type} {k : Str} {v : α} :
    ∀ {l : List (Str × α)} {p : Str × α}, p ∈ alistSet k v l → p.2 = v ∨ p ∈ l := by
  intro l
  induction l with
  | nil =>
    intro p hp
    rw [alistSet] at hp
    rcases List.mem_cons.mp hp with h | h
    · left; rw [h]
    · exact absurd h (List.not_mem_nil p)
  | cons q qs ih =>
    intro p hp
    rw [alistSet] at hp
    by_cases hq : q.1 = k
    · rw [if_pos hq] at hp
      rcases List.mem_cons.mp hp with h | h
      · left; rw [h]
      · right; exact List.mem_cons_of_mem _ h
    · rw [if_neg hq] at hp
      rcases List.mem_cons.mp hp with h | h
      · right; rw [h]; exact List.mem_cons_self _ _
      · rcases ih h with h2 | h2
        · left; exact h2
        · right; exact List.mem_cons_of_mem _ h2

theorem initTableStep_cols (b : Table) (f : Str)
    (hb : ∀ p ∈ b.cols, p.2 = Col.raws ([] : List Str)) :
    ∀ p ∈ (initTableStep b f).cols, p.2 = Col.raws ([] : List Str) := by
  intro p hp
  simp only [initTableStep] at hp
  by_cases hc : pyStrip f = ("comments".toList)
  · rw [if_pos hc] at hp
    exact hb p hp
  · rw [if_neg hc] at hp
    rcases alistSet_mem hp with h | h
    · exact h
    · exact hb p h

theorem foldl_initTableStep_cols :
    ∀ (fields : List Str) (b : Table),
      (∀ p ∈ b.cols, p.2 = Col.raws ([] : List Str)) →
      ∀ p ∈ (fields.foldl initTableStep b).cols, p.2 = Col.raws ([] : List Str) := by
  intro fields
  induction fields with
  | nil => intro b hb; exact hb
  | cons f fs ih =>
    intro b hb
    rw [List.foldl_cons]
    exact ih _ (initTableStep_cols b f hb)

theorem eqColumnLengthsB_of_const (t : Table) (m : Nat)
    (h : ∀ p ∈ t.cols, colSize p.2 = m) : eqColumnLengthsB t = true := by
  unfold eqColumnLengthsB
  cases hc : t.cols with
  | nil => rfl
  | cons c cs =>
    rw [List.all_eq_true]
    intro p hp
    have h1 := h p (by rw [hc]; exact List.mem_cons_of_mem _ hp)
    have h2 := h c (by rw [hc]; exact List.mem_cons_self _ _)
    rw [h1, h2]
    simp

/-- Counterexample to C3: start from the empty document, create table
`T` with fields `A` and `B`, insert the row `1,2` (each column now one
cell long), then call the public `add_field_to_table` with the new
field `C`.  The resulting table has column lengths 1, 1, 0: the
claimed invariant fails right after a public mutating operation,
because `add_field_to_table` creates the new column empty and pads
nothing. -/
theorem c3_counterexample :
    (addValuesToTable (initTable Doc.empty ("T".toList) ["A".toList, "B".toList] 1).1
        ("T".toList) ["1".toList, "2".toList] 2 none 1 true).map (fun r =>
      (alistGet ("T".toList)
          (addFieldToTable r.1 ("T".toList) ["C".toList] 1).1.tables).map
        (fun t => (eqColumnLengthsB t, t.cols.map (fun q => (q.1, colSize q.2))))) =
    .ok (some (false,
      [("A".toList, 1), ("B".toList, 1), ("C".toList, 0)])) := by
  decide

/-- C3 (amended): the invariant holds after `init_table` (every column
is created empty) and after a horizontal `add_values_to_table` row of
matching width (every column grows by exactly one), but not after
every public mutating operation: `add_field_to_table` on a populated
table breaks it, as the separate counterexample shows. -/
theorem c3_amended_invariant (d : Doc) (tn : Str) (cm : List Str)
    (cols : List (Str × Col)) (values : List Str) (ln n : Nat)
    (hget : alistGet tn d.tables = some (Table.mk cm cols))
    (hnodup : (cols.map (·.1)).Nodup)
    (hcom : ("comments".toList) ∉ cols.map (·.1))
    (hraws : ∀ p ∈ cols, ∃ l, p.2 = Col.raws l)
    (hsz : ∀ p ∈ cols, colSize p.2 = n)
    (hlen : values.length = cols.length) :
    (∀ (d0 : Doc) (t0 : Str) (fields : List Str) (ln0 : Nat),
      ∃ body : Table,
        alistGet (initTable d0 t0 fields ln0).2
          (initTable d0 t0 fields ln0).1.tables = some body ∧
        (∀ p ∈ body.cols, colSize p.2 = 0) ∧
        eqColumnLengthsB body = true) ∧
    (∃ d2 : Doc,
      addValuesToTable d tn values ln none 1 true = .ok (d2, true) ∧
      ∃ t2 : Table, alistGet tn d2.tables = some t2 ∧
        (∀ p ∈ t2.cols, colSize p.2 = n + 1) ∧
        eqColumnLengthsB t2 = true) := by
  constructor
  · intro d0 t0 fields ln0
    have hcols : ∀ p ∈ (fields.foldl initTableStep
        (Table.mk [] [] : Table)).cols, p.2 = Col.raws ([] : List Str) :=
      foldl_initTableStep_cols fields (Table.mk [] [])
        (fun p hp => absurd hp (List.not_mem_nil p))
    have hsz0 : ∀ p ∈ (fields.foldl initTableStep
        (Table.mk [] [] : Table)).cols, colSize p.2 = 0 := by
      intro p hp
      rw [hcols p hp]
      rfl
    refine ⟨fields.foldl initTableStep (Table.mk [] []), ?_, hsz0,
      eqColumnLengthsB_of_const _ 0 hsz0⟩
    rcases hcnt : alistGet t0 d0.tableCount with _ | c <;>
      simp only [initTable, hcnt] <;>
      exact alistGet_set_self _ _ _
  · have hz := appendPairs_zip cols [] d tn cm values true
      (by simpa using hget) (by simpa using hnodup) hcom hlen hraws
    have hfill : ¬ (((cols.map (·.1)).length : Int) - (values.length : Int) < 0) := by
      simp only [List.length_map]
      omega
    have h0 : (((cols.map (·.1)).length : Int) - ((values.length : Int))).toNat = 0 := by
      simp only [List.length_map]
      omega
    have hmain : addValuesToTable d tn values ln none 1 true =
        .ok ({ d with
               tables :=
                 alistSet tn
                   (Table.mk cm
                     ((cols.zip values).map (fun pv =>
                       (pv.1.1, colAppendRaw pv.1.2 (pyStrip pv.2)))))
                   d.tables },
              true) := by
      simp only [addValuesToTable, tableIndexName_one, hget]
      rw [if_neg hfill]
      rw [h0, List.replicate_zero, List.append_nil]
      simp only [List.length_map]
      have htt : values.take cols.length = values := by
        rw [← hlen, List.take_length]
      rw [htt, hz]
      rfl
    have hsz2 : ∀ p ∈ ((cols.zip values).map (fun pv =>
        (pv.1.1, colAppendRaw pv.1.2 (pyStrip pv.2)))), colSize p.2 = n + 1 := by
      intro p hp
      simp only [List.mem_map] at hp
      obtain ⟨pv, hpv, hpe⟩ := hp
      obtain ⟨l, hl⟩ := hraws pv.1 (List.of_mem_zip hpv).1
      have hn := hsz pv.1 (List.of_mem_zip hpv).1
      rw [hl] at hn
      rw [← hpe]
      simp only [hl, colAppendRaw, colSize, List.length_append, List.length_singleton]
      simp only [colSize] at hn
      omega
    refine ⟨_, hmain, Table.mk cm ((cols.zip values).map (fun pv =>
      (pv.1.1, colAppendRaw pv.1.2 (pyStrip pv.2)))), ?_, hsz2,
      eqColumnLengthsB_of_const _ (n + 1) hsz2⟩
    exact alistGet_set_self _ _ _

/-- A two-field table whose columns already hold one cell each. -/
def c3Cols : List (Str × Col) :=
  [("A".toList, Col.raws ["x".toList]), ("B".toList, Col.raws ["y".toList])]

/-- A document holding only the table `T` with the populated `c3Cols`. -/
def c3Doc : Doc :=
  { Doc.empty with tables := [("T".toList, Table.mk [] c3Cols)] }

/-- A row exactly as wide as `c3Cols`. -/
def c3Vals : List Str := ["1".toList, "2".toList]

/-- Witness for the amended C3: inserting the matching-width row `1,2`
into the one-cell-per-column table `T` satisfies every hypothesis, and
the amended invariant conclusion holds there. -/
theorem c3_amended_invariant_witness :
    (alistGet ("T".toList) c3Doc.tables = some (Table.mk [] c3Cols)) ∧
    ((c3Cols.map (·.1)).Nodup) ∧
    (("comments".toList) ∉ c3Cols.map (·.1)) ∧
    (∀ p ∈ c3Cols, ∃ l, p.2 = Col.raws l) ∧
    (∀ p ∈ c3Cols, colSize p.2 = 1) ∧
    (c3Vals.length = c3Cols.length) ∧
    ((∀ (d0 : Doc) (t0 : Str) (fields : List Str) (ln0 : Nat),
      ∃ body : Table,
        alistGet (initTable d0 t0 fields ln0).2
          (initTable d0 t0 fields ln0).1.tables = some body ∧
        (∀ p ∈ body.cols, colSize p.2 = 0) ∧
        eqColumnLengthsB body = true) ∧
    (∃ d2 : Doc,
      addValuesToTable c3Doc ("T".toList) c3Vals 2 none 1 true = .ok (d2, true) ∧
      ∃ t2 : Table, alistGet ("T".toList) d2.tables = some t2 ∧
        (∀ p ∈ t2.cols, colSize p.2 = 1 + 1) ∧
        eqColumnLengthsB t2 = true)) := by
  have hraws : ∀ p ∈ c3Cols, ∃ l, p.2 = Col.raws l := by
    intro p hp
    simp only [c3Cols, List.mem_cons, List.not_mem_nil, or_false] at hp
    rcases hp with h | h <;> subst h <;> exact ⟨_, rfl⟩
  have h := c3_amended_invariant c3Doc ("T".toList) [] c3Cols c3Vals 2 1
    (by decide) (by decide) (by decide) hraws (by decide) (by decide)
  exact ⟨by decide, by decide, by decide, hraws, by decide, by decide, h⟩

/-! ### C5: `number_of_observations` (lines 1177-1205) -/

/-- Python `zip(*cols)` truncated transposition, with fuel bounded by
the first list's length (`zip` stops at the shortest argument, so the
first list's length is always enough fuel). -/
def pyZipRowsAux {α : Type} : Nat → List (List α) → List (List α)
  | 0, _ => []
  | n + 1, cols =>
    match cols.mapM List.head? with
    | none => []
    | some heads => heads :: pyZipRowsAux n (cols.map List.tail)

/-- Python `list(zip(*cols))`: rows of the columns, truncated to the
shortest column; `zip()` of no columns is empty. -/
def pyZipRows {α : Type} (cols : List (List α)) : List (List α) :=
  pyZipRowsAux ((cols.headD []).length) cols

/-- What `zip(*...)` can iterate out of one stored column: lists yield
their cells, a string scalar yields its characters, and any other
scalar raises `TypeError`. -/
def colIterable : Col → Option (List Value)
  | .raws l => some (l.map Value.vStr)
  | .typed l => some l
  | .scalar (.vStr s) => some (s.map (fun ch => Value.vStr [ch]))
  | .scalar _ => none

/-- One iteration of `number_of_observations`'s occurrence loop: look
up the (possibly suffixed) table, gather the non-`comments` columns in
insertion order and zip them into rows. -/
def occRows (d : Doc) (obs : Str) (i : Nat) : Option (List (List Value)) :=
  match alistGet (tableIndexName obs i) d.tables with
  | none => none
  | some t =>
    match t.cols.mapM (fun p => colIterable p.2) with
    | none => none
    | some colls => some (pyZipRows colls)

/-- `ExtendedCSV.number_of_observations` (lines 1177-1205) with the
observations-table name already resolved: `data_rows = set()` grows by
`data_rows.update(rows)` per occurrence and the final answer is
`len(data_rows)`. -/
def numberOfObservations (d : Doc) (obs : Str) : Option Nat :=
  match (List.range ((alistGet obs d.tableCount).getD 0)).mapM
      (fun j => occRows d obs (j + 1)) with
  | none => none
  | some rows =>
    some ((rows.foldl (fun (acc : Finset (List Value)) rs => acc ∪ rs.toFinset) ∅).card)

theorem foldl_union_toFinset {α : Type} [DecidableEq α] :
    ∀ (ls : List (List α)) (acc : Finset α),
      ls.foldl (fun a l => a ∪ l.toFinset) acc = acc ∪ ls.flatten.toFinset := by
  intro ls
  induction ls with
  | nil => intro acc; simp
  | cons l rest ih =>
    intro acc
    rw [List.foldl_cons, ih, List.flatten_cons, List.toFinset_append,
      Finset.union_assoc]

/-- C5: whenever the occurrence loop of `number_of_observations`
resolves every (suffixed) occurrence of the observations table to its
row lists, the returned count is the number of *distinct* rows across
all occurrences: the cardinality of the set of all rows, equivalently
the length of the duplicate-free concatenation.  Duplicate rows
collapse to one (set semantics, not list semantics). -/
theorem c5_number_of_observations (d : Doc) (obs : Str)
    (rowLists : List (List (List Value)))
    (hrows : (List.range ((alistGet obs d.tableCount).getD 0)).mapM
      (fun j => occRows d obs (j + 1)) = some rowLists) :
    numberOfObservations d obs = some (rowLists.flatten.toFinset.card) ∧
    rowLists.flatten.toFinset.card = rowLists.flatten.dedup.length := by
  constructor
  · simp only [numberOfObservations, hrows]
    rw [foldl_union_toFinset, Finset.empty_union]
  · exact List.card_toFinset _

/-- First occurrence of the `DATA` table: three rows. -/
def c5T1 : Table :=
  Table.mk []
    [("A".toList, Col.raws ["1".toList, "2".toList, "3".toList]),
     ("B".toList, Col.raws ["x".toList, "y".toList, "z".toList])]

/-- Second occurrence of the `DATA` table: two rows, the first
identical to a row of the first occurrence. -/
def c5T2 : Table :=
  Table.mk []
    [("A".toList, Col.raws ["1".toList, "4".toList]),
     ("B".toList, Col.raws ["x".toList, "w".toList])]

/-- A document with two occurrences of the `DATA` table, holding five
rows in total of which two are identical. -/
def c5Doc : Doc :=
  { Doc.empty with
    tables := [("DATA".toList, c5T1), (("DATA".toList ++ ['_', '2']), c5T2)],
    tableCount := [("DATA".toList, 2)] }

/-- The per-occurrence row lists of `c5Doc`. -/
def c5Rows : List (List (List Value)) :=
  [[[Value.vStr "1".toList, Value.vStr "x".toList],
    [Value.vStr "2".toList, Value.vStr "y".toList],
    [Value.vStr "3".toList, Value.vStr "z".toList]],
   [[Value.vStr "1".toList, Value.vStr "x".toList],
    [Value.vStr "4".toList, Value.vStr "w".toList]]]

/-- Witness for C5: on the five rows of `c5Doc` (two identical), the
occurrence loop resolves both occurrences, and the observation count
is 4, as the theorem's distinct-row characterization dictates. -/
theorem c5_number_of_observations_witness :
    ((List.range ((alistGet ("DATA".toList) c5Doc.tableCount).getD 0)).mapM
      (fun j => occRows c5Doc ("DATA".toList) (j + 1)) = some c5Rows) ∧
    (numberOfObservations c5Doc ("DATA".toList) =
      some (c5Rows.flatten.toFinset.card)) ∧
    (c5Rows.flatten.toFinset.card = c5Rows.flatten.dedup.length) ∧
    (c5Rows.flatten.length = 5) ∧
    (numberOfObservations c5Doc ("DATA".toList) = some 4) := by
  have hrows : (List.range ((alistGet ("DATA".toList) c5Doc.tableCount).getD 0)).mapM
      (fun j => occRows c5Doc ("DATA".toList) (j + 1)) = some c5Rows := by decide
  have h := c5_number_of_observations c5Doc ("DATA".toList) c5Rows hrows
  refine ⟨hrows, h.1, h.2, by decide, ?_⟩
  rw [h.1]
  decide

/-! ### C4: `_determine_version` (lines 1296-1340) -/

/-- `uniques[version]` of `_determine_version`: the version's table
names with every other version's table names successively removed (a
Python set, so a `Finset`). -/
def uniquesOf (schema : List (Str × List Str)) (v : Str) : Finset Str :=
  ((schema.filter (fun p => p.1 ≠ v)).map (·.2)).foldl
    (fun u l => u \ l.toFinset)
    ((alistGet v schema).getD []).toFinset

/-- `rating(version)`: how many of the document's table names fall in
the version's unique set, divided by the size of that unique set
(exact rational arithmetic models the Python float division;
`mkRat n d` equals `(n : ℚ) / (d : ℚ)` by `Rat.mkRat_eq_div`, and the
zero-denominator case is fenced off before any rating is computed). -/
def ratingOf (schema : List (Str × List Str)) (docTables : List Str) (v : Str) : ℚ :=
  mkRat ((docTables.filter (fun t => t ∈ uniquesOf schema v)).length)
    ((uniquesOf schema v).card)

/-- `best_match = max(candidate_scores)`; every rating is nonnegative,
so folding `max` from 0 computes the same maximum. -/
def bestScore (schema : List (Str × List Str)) (docTables : List Str) : ℚ :=
  (schema.map (fun p => ratingOf schema docTables p.1)).foldl max 0

/-- `ExtendedCSV._determine_version` (lines 1296-1340): score each
version by its rating, and return the first version whose rating
attains the maximum; an empty schema raises `ValueError` from
`max([])`, an empty unique set raises `ZeroDivisionError` inside
`rating`, and a zero maximum reports 210 and raises
`NonStandardDataError` with the accumulated errors. -/
def determineVersion (schema : List (Str × List Str)) (docTables : List Str)
    (st : RState) : Except VErr Str :=
  if schema = [] then .error .pyError
  else if schema.any (fun p => (uniquesOf schema p.1).card = 0) then .error .pyError
  else if bestScore schema docTables = 0 then
    .error (.nonStandard ((report 210 st).codes.filter severe))
  else
    match schema.find? (fun p =>
        ratingOf schema docTables p.1 = bestScore schema docTables) with
    | some p => .ok p.1
    | none => .error .pyError

theorem foldl_sdiff_mem {α : Type} [DecidableEq α] :
    ∀ (ls : List (List α)) (u : Finset α) (t : α),
      t ∈ ls.foldl (fun acc l => acc \ l.toFinset) u ↔ t ∈ u ∧ ∀ l ∈ ls, t ∉ l := by
  intro ls
  induction ls with
  | nil => intro u t; simp
  | cons l rest ih =>
    intro u t
    rw [List.foldl_cons, ih]
    simp only [Finset.mem_sdiff, List.mem_toFinset, List.mem_cons]
    constructor
    · rintro ⟨⟨h1, h2⟩, h3⟩
      refine ⟨h1, ?_⟩
      intro l2 hl2
      rcases hl2 with h | h
      · rw [h]; exact h2
      · exact h3 l2 h
    · rintro ⟨h1, h2⟩
      exact ⟨⟨h1, h2 l (Or.inl rfl)⟩, fun l2 hl2 => h2 l2 (Or.inr hl2)⟩

theorem alistGet_of_nodup_mem {α : Type} :
    ∀ {schema : List (Str × α)}, (schema.map (·.1)).Nodup →
      ∀ {p : Str × α}, p ∈ schema → alistGet p.1 schema = some p.2 := by
  intro schema
  induction schema with
  | nil => intro _ p hp; exact absurd hp (List.not_mem_nil p)
  | cons q qs ih =>
    intro hnodup p hp
    rw [List.map_cons] at hnodup
    rcases List.nodup_cons.mp hnodup with ⟨hnotin, hrest⟩
    rcases List.mem_cons.mp hp with h | h
    · subst h; rw [alistGet, if_pos rfl]
    · have hq : ¬ (q.1 = p.1) := by
        intro he
        exact hnotin (he ▸ List.mem_map_of_mem (·.1) h)
      rw [alistGet, if_neg hq]
      exact ih hrest h

theorem foldl_max_le {α : Type} [LinearOrder α] :
    ∀ (l : List α) (a : α), (∀ x ∈ l, x ≤ l.foldl max a) ∧ a ≤ l.foldl max a := by
  intro l
  induction l with
  | nil => intro a; exact ⟨fun x hx => absurd hx (List.not_mem_nil x), le_refl a⟩
  | cons x xs ih =>
    intro a
    rw [List.foldl_cons]
    refine ⟨?_, le_trans (le_max_left a x) (ih (max a x)).2⟩
    intro y hy
    rcases List.mem_cons.mp hy with h | h
    · subst h; exact le_trans (le_max_right a y) (ih (max a y)).2
    · exact (ih (max a x)).1 y h

theorem foldl_max_mem {α : Type} [LinearOrder α] :
    ∀ (l : List α) (a : α), l.foldl max a = a ∨ l.foldl max a ∈ l := by
  intro l
  induction l with
  | nil => intro a; left; rfl
  | cons x xs ih =>
    intro a
    rw [List.foldl_cons]
    rcases ih (max a x) with h | h
    · rcases max_choice a x with h2 | h2
      · left; rw [h, h2]
      · right; rw [h, h2]; exact List.mem_cons_self x xs
    · right; exact List.mem_cons_of_mem x h

/-- C4: with at least one version and no version whose unique set is
empty, `_determine_version` computes, for each version, exactly the
table names unique to it (in no sibling version), scores each version
as (document tables in the unique set) / (size of the unique set),
returns a version attaining the maximum score when it is nonzero, and
reports 210 and raises when the maximum is zero. -/
theorem c4_determine_version (schema : List (Str × List Str)) (docTables : List Str)
    (st : RState)
    (hne : schema ≠ [])
    (hnodup : (schema.map (·.1)).Nodup)
    (huniq : ∀ p ∈ schema, (uniquesOf schema p.1).card ≠ 0) :
    (∀ p ∈ schema, ∀ t : Str,
      t ∈ uniquesOf schema p.1 ↔
        (t ∈ p.2 ∧ ∀ q ∈ schema, q.1 ≠ p.1 → t ∉ q.2)) ∧
    (bestScore schema docTables = 0 →
      determineVersion schema docTables st =
        .error (.nonStandard ((report 210 st).codes.filter severe))) ∧
    (bestScore schema docTables ≠ 0 →
      ∃ v, determineVersion schema docTables st = .ok v ∧
        v ∈ schema.map (·.1) ∧
        ratingOf schema docTables v = bestScore schema docTables ∧
        ∀ p ∈ schema, ratingOf schema docTables p.1 ≤ bestScore schema docTables) := by
  have hany : ¬ (schema.any (fun p => (uniquesOf schema p.1).card = 0) = true) := by
    intro hany
    rw [List.any_eq_true] at hany
    obtain ⟨p, hp, hc⟩ := hany
    exact huniq p hp (of_decide_eq_true hc)
  have hbs : bestScore schema docTables =
      (schema.map (fun p => ratingOf schema docTables p.1)).foldl max 0 := rfl
  refine ⟨?_, ?_, ?_⟩
  · intro p hp t
    have hbase : alistGet p.1 schema = some p.2 := alistGet_of_nodup_mem hnodup hp
    rw [uniquesOf, hbase, Option.getD_some, foldl_sdiff_mem, List.mem_toFinset]
    constructor
    · rintro ⟨h1, h2⟩
      refine ⟨h1, ?_⟩
      intro q hq hqe
      exact h2 q.2 (List.mem_map_of_mem _
        (List.mem_filter.mpr ⟨hq, decide_eq_true hqe⟩))
    · rintro ⟨h1, h2⟩
      refine ⟨h1, ?_⟩
      intro l hl
      obtain ⟨q, hq, hql⟩ := List.mem_map.mp hl
      obtain ⟨hqs, hqp⟩ := List.mem_filter.mp hq
      rw [← hql]
      exact h2 q hqs (of_decide_eq_true hqp)
  · intro hb0
    simp only [determineVersion, if_neg hne, if_neg hany, if_pos hb0]
  · intro hbne
    have hratle := foldl_max_le (schema.map (fun p => ratingOf schema docTables p.1)) 0
    rcases foldl_max_mem (schema.map (fun p => ratingOf schema docTables p.1)) 0 with
      h | h
    · rw [← hbs] at h; exact absurd h hbne
    · rw [← hbs] at h
      obtain ⟨p0, hp0, hrp0⟩ := List.mem_map.mp h
      cases hf : schema.find? (fun p =>
          ratingOf schema docTables p.1 = bestScore schema docTables) with
      | none =>
        have hnone := List.find?_eq_none.mp hf p0 hp0
        exact absurd (decide_eq_true hrp0) hnone
      | some pv =>
        refine ⟨pv.1, ?_, ?_, ?_, ?_⟩
        · simp only [determineVersion, if_neg hne, if_neg hany, if_neg hbne, hf]
        · exact List.mem_map_of_mem _ (List.mem_of_find?_eq_some hf)
        · have hfp := List.find?_some hf
          exact of_decide_eq_true hfp
        · intro p hp
          rw [hbs]
          exact hratle.1 (ratingOf schema docTables p.1) (List.mem_map_of_mem _ hp)

/-- A two-version schema node: version 1 has unique table `TB`, version
2 has unique table `TC`, and both share `TA`. -/
def c4Schema : List (Str × List Str) :=
  [("1".toList, ["TA".toList, "TB".toList]),
   ("2".toList, ["TA".toList, "TC".toList])]

/-- A document holding `CONTENT` and `TB`: one table unique to
version 1 and none unique to version 2. -/
def c4Tables : List Str := ["CONTENT".toList, "TB".toList]

/-- Witness for C4: on the two-version schema, both unique sets are
nonempty, version 1 scores 1 and version 2 scores 0, and
`_determine_version` returns version 1. -/
theorem c4_determine_version_witness :
    (c4Schema ≠ []) ∧
    ((c4Schema.map (·.1)).Nodup) ∧
    (∀ p ∈ c4Schema, (uniquesOf c4Schema p.1).card ≠ 0) ∧
    ((∀ p ∈ c4Schema, ∀ t : Str,
      t ∈ uniquesOf c4Schema p.1 ↔
        (t ∈ p.2 ∧ ∀ q ∈ c4Schema, q.1 ≠ p.1 → t ∉ q.2)) ∧
    (bestScore c4Schema c4Tables = 0 →
      determineVersion c4Schema c4Tables RState.initial =
        .error (.nonStandard ((report 210 RState.initial).codes.filter severe))) ∧
    (bestScore c4Schema c4Tables ≠ 0 →
      ∃ v, determineVersion c4Schema c4Tables RState.initial = .ok v ∧
        v ∈ c4Schema.map (·.1) ∧
        ratingOf c4Schema c4Tables v = bestScore c4Schema c4Tables ∧
        ∀ p ∈ c4Schema, ratingOf c4Schema c4Tables p.1 ≤
          bestScore c4Schema c4Tables)) ∧
    (determineVersion c4Schema c4Tables RState.initial = .ok ("1".toList)) := by
  have h := c4_determine_version c4Schema c4Tables RState.initial
    (by decide) (by decide) (by decide)
  exact ⟨by decide, by decide, by decide, h, by decide⟩

/-! ### C6: collimation: mapping, unwrapping and (non-)idempotence -/

/-- The raw cells of a raw-string column. -/
def rawsOf : Col → List Str
  | .raws l => l
  | _ => []

/-- The column `collimate_tables` stores for a raw column with cells
`l`: the typecast values, unwrapped to a scalar (`None` when empty)
when the schema declares exactly one row. -/
def collimatedCol (py : Nat) (defn : TableDef) (field : Str) (l : List Str) : Col :=
  let vals := (l.map (typecastValue py field)).map (·.2)
  if defn.rows = RangeVal.num 1 then Col.scalar (vals.headD Value.null)
  else Col.typed vals

theorem collimate_fold_raws (py : Nat) (defn : TableDef) :
    ∀ (cols pre : List (Str × Col)) (cm : List Str) (st : RState),
      ((pre ++ cols).map (·.1)).Nodup →
      (∀ p ∈ cols, ∃ l, p.2 = Col.raws l) →
      ∃ st2 : RState,
        cols.foldl (collimateStep py defn) (.ok (Table.mk cm (pre ++ cols), st)) =
          .ok (Table.mk cm (pre ++ cols.map (fun p =>
            (p.1, collimatedCol py defn p.1 (rawsOf p.2)))), st2) := by
  intro cols
  induction cols with
  | nil => intro pre cm st _ _; exact ⟨st, rfl⟩
  | cons p0 cols2 ih =>
    intro pre cm st hnodup hraws
    obtain ⟨f, c⟩ := p0
    obtain ⟨l, hl⟩ := hraws (f, c) (List.mem_cons_self _ _)
    simp only at hl
    subst hl
    have hnames : ((pre ++ (f, Col.raws l) :: cols2).map (·.1)) =
        pre.map (·.1) ++ f :: cols2.map (·.1) := by simp
    have hfpre : f ∉ pre.map (·.1) := by
      rw [hnames] at hnodup
      rcases List.nodup_append.mp hnodup with ⟨-, -, hdisj⟩
      exact fun hmem => hdisj hmem (List.mem_cons_self f _)
    have hset := @alistSet_append_first _ f (collimatedCol py defn f l)
      (Col.raws l) cols2 pre hfpre
    rw [List.foldl_cons]
    simp only [collimateStep, iterateCol]
    have hcc : (if defn.rows = RangeVal.num 1 then
        Col.scalar (((l.map (typecastValue py f)).map (fun x => x.2)).headD Value.null)
      else Col.typed ((l.map (typecastValue py f)).map (fun x => x.2))) =
        collimatedCol py defn f l := rfl
    rw [hcc, hset]
    have hnodup2 : (((pre ++ [(f, collimatedCol py defn f l)]) ++ cols2).map (·.1)).Nodup := by
      have he : (((pre ++ [(f, collimatedCol py defn f l)]) ++ cols2).map (·.1)) =
          pre.map (·.1) ++ f :: cols2.map (·.1) := by simp
      rw [he, ← hnames]
      exact hnodup
    obtain ⟨st2, hih⟩ := ih (pre ++ [(f, collimatedCol py defn f l)]) cm
      ((l.map (typecastValue py f)).foldl
        (fun s cv => cv.1.foldl (fun s2 c => report c s2) s) st)
      hnodup2 (fun p hp => hraws p (List.mem_cons_of_mem _ hp))
    refine ⟨st2, ?_⟩
    have he2 : pre ++ (f, collimatedCol py defn f l) :: cols2 =
        (pre ++ [(f, collimatedCol py defn f l)]) ++ cols2 := by simp
    rw [he2, hih]
    simp [List.append_assoc, rawsOf]

theorem foldl_report_nil :
    ∀ (vs : List Value) (st : RState),
      (vs.map (fun v => (([] : List Nat), v))).foldl
        (fun s cv => cv.1.foldl (fun s2 c => report c s2) s) st = st := by
  intro vs
  induction vs with
  | nil => intro st; rfl
  | cons v rest ih => intro st; rw [List.map_cons, List.foldl_cons]; exact ih st

theorem collimate_fold_typed_noop (py : Nat) (defn : TableDef)
    (hrows : ¬ (defn.rows = RangeVal.num 1)) :
    ∀ (cols pre : List (Str × Col)) (cm : List Str) (st : RState),
      ((pre ++ cols).map (·.1)).Nodup →
      (∀ p ∈ cols, ∃ vs, p.2 = Col.typed vs ∧ ∀ v ∈ vs, ∀ s, v ≠ Value.vStr s) →
      (∀ p ∈ cols, ¬ (pyLower p.1 = ("time".toList) ∨
        pyLower p.1 = ("date".toList) ∨ pyLower p.1 = ("utcoffset".toList))) →
      cols.foldl (collimateStep py defn) (.ok (Table.mk cm (pre ++ cols), st)) =
        .ok (Table.mk cm (pre ++ cols), st) := by
  intro cols
  induction cols with
  | nil => intro pre cm st _ _ _; rfl
  | cons p0 cols2 ih =>
    intro pre cm st hnodup htyped hnosp
    obtain ⟨f, c⟩ := p0
    obtain ⟨vs, hvs, hnostr⟩ := htyped (f, c) (List.mem_cons_self _ _)
    simp only at hvs
    subst hvs
    have hnsp := hnosp (f, Col.typed vs) (List.mem_cons_self _ _)
    simp only at hnsp
    have hconv : vs.map (typecastAgain py f) = vs.map (fun v => (([] : List Nat), v)) := by
      apply List.map_congr_left
      intro v hv
      cases v with
      | vStr s => exact absurd rfl (hnostr (Value.vStr s) hv s)
      | null => simp only [typecastAgain]; rw [if_neg hnsp]
      | vInt z => simp only [typecastAgain]; rw [if_neg hnsp]
      | vFloat q => simp only [typecastAgain]; rw [if_neg hnsp]
      | vTime h m s => simp only [typecastAgain]; rw [if_neg hnsp]
      | vDate y m dd => simp only [typecastAgain]; rw [if_neg hnsp]
    have hnames : ((pre ++ (f, Col.typed vs) :: cols2).map (·.1)) =
        pre.map (·.1) ++ f :: cols2.map (·.1) := by simp
    have hfpre : f ∉ pre.map (·.1) := by
      rw [hnames] at hnodup
      rcases List.nodup_append.mp hnodup with ⟨-, -, hdisj⟩
      exact fun hmem => hdisj hmem (List.mem_cons_self f _)
    have hset := @alistSet_append_first _ f (Col.typed vs)
      (Col.typed vs) cols2 pre hfpre
    rw [List.foldl_cons]
    simp only [collimateStep, iterateCol, hconv, foldl_report_nil, if_neg hrows,
      List.map_map]
    have hid : vs.map ((fun x => x.2) ∘ (fun v => (([] : List Nat), v))) = vs := by
      simp
    rw [hid, hset]
    have he2 : pre ++ (f, Col.typed vs) :: cols2 =
        (pre ++ [(f, Col.typed vs)]) ++ cols2 := by simp
    rw [he2]
    have hnodup2 : (((pre ++ [(f, Col.typed vs)]) ++ cols2).map (·.1)).Nodup := by
      have he3 : (((pre ++ [(f, Col.typed vs)]) ++ cols2).map (·.1)) =
          ((pre ++ (f, Col.typed vs) :: cols2).map (·.1)) := by simp
      rw [he3]
      exact hnodup
    rw [ih (pre ++ [(f, Col.typed vs)]) cm st hnodup2
      (fun p hp => htyped p (List.mem_cons_of_mem _ hp))
      (fun p hp => hnosp p (List.mem_cons_of_mem _ hp))]

/-- A one-column table whose single cell is the two-character string
`ab`, under a one-row schema. -/
def c6Doc : Doc :=
  { Doc.empty with
    tables := [("X".toList, Table.mk [] [("F".toList, Col.raws ["ab".toList])])] }

/-- A schema declaring table `X` with exactly one row. -/
def c6Schema : List (Str × TableDef) :=
  [(("X".toList),
    { hasRequired := true, requiredFields := [], optionalFields := [],
      occurrences := RangeVal.num 1, rows := RangeVal.num 1 })]

/-- Counterexample to C6's idempotence: the first collimation of the
one-row table stores the bare scalar string `ab`; a second collimation
does not return early or leave it alone, but iterates the scalar
string character by character and stores the scalar `a`. -/
theorem c6_counterexample :
    ((collimateTables 2024 c6Doc ["X".toList] c6Schema).map (fun d1 =>
        (alistGet ("X".toList) d1.tables).map (fun t =>
          alistGet ("F".toList) t.cols)) =
      .ok (some (some (Col.scalar (Value.vStr "ab".toList))))) ∧
    (((collimateTables 2024 c6Doc ["X".toList] c6Schema).bind (fun d1 =>
        collimateTables 2024 d1 ["X".toList] c6Schema)).map (fun d2 =>
        (alistGet ("X".toList) d2.tables).map (fun t =>
          alistGet ("F".toList) t.cols)) =
      .ok (some (some (Col.scalar (Value.vStr "a".toList))))) := by
  decide

/-- C6 (amended): collimation maps the typecaster over every
non-`comments` column and unwraps one-row tables to scalars (`null`
when empty), as claimed; but it is *not* idempotent in general (see
the counterexample): re-collimation is a no-op only for multi-row
tables whose collimated columns hold non-string values on
non-`Time`/`Date`/`UTCOffset` fields, where the typecaster's
`TypeError` catch returns the value unchanged. -/
theorem c6_amended_collimate (py : Nat) (d : Doc) (name : Str) (cm : List Str)
    (cols : List (Str × Col)) (schema : List (Str × TableDef)) (defn : TableDef)
    (hschema : alistGet (baseOf name) schema = some defn)
    (hget : alistGet name d.tables = some (Table.mk cm cols))
    (hnodup : (cols.map (·.1)).Nodup) :
    ((∀ p ∈ cols, ∃ l, p.2 = Col.raws l) →
      ∃ st2, collimateTables py d [name] schema =
        .ok { d with
              tables := alistSet name
                (Table.mk cm (cols.map (fun p =>
                  (p.1, collimatedCol py defn p.1 (rawsOf p.2))))) d.tables,
              rstate := st2 }) ∧
    (¬ (defn.rows = RangeVal.num 1) →
      (∀ p ∈ cols, ∃ vs, p.2 = Col.typed vs ∧ ∀ v ∈ vs, ∀ s, v ≠ Value.vStr s) →
      (∀ p ∈ cols, ¬ (pyLower p.1 = ("time".toList) ∨
        pyLower p.1 = ("date".toList) ∨ pyLower p.1 = ("utcoffset".toList))) →
      collimateTables py d [name] schema = .ok d) := by
  constructor
  · intro hraws
    obtain ⟨st2, hfold⟩ := collimate_fold_raws py defn cols [] cm d.rstate
      (by simpa using hnodup) hraws
    refine ⟨st2, ?_⟩
    simp only [collimateTables, hschema, hget]
    simp only [List.nil_append] at hfold
    rw [hfold]
  · intro hrows htyped hnosp
    have hfold := collimate_fold_typed_noop py defn hrows cols [] cm d.rstate
      (by simpa using hnodup) htyped hnosp
    simp only [List.nil_append] at hfold
    simp only [collimateTables, hschema, hget]
    rw [hfold]
    show collimateTables py
        { d with
            tables := alistSet name (Table.mk cm cols) d.tables
            rstate := d.rstate } [] schema = .ok d
    rw [alistSet_get_self hget]
    rfl

/-- A raw two-cell column under the one-row schema: the witness table
before collimation. -/
def c6WDoc : Doc :=
  { Doc.empty with
    tables := [("X".toList,
      Table.mk [] [("F".toList, Col.raws ["1".toList, "2".toList])])] }

/-- Witness for the amended C6: collimating the two-cell raw table
under the one-row schema satisfies every hypothesis, the theorem's
conclusion holds, and concretely the column becomes the bare scalar 1
(the *first* typecast value, the rest being dropped by the unwrap). -/
theorem c6_amended_collimate_witness :
    (alistGet (baseOf ("X".toList)) c6Schema =
      some ({ hasRequired := true, requiredFields := [], optionalFields := [],
              occurrences := RangeVal.num 1, rows := RangeVal.num 1 } : TableDef)) ∧
    (alistGet ("X".toList) c6WDoc.tables =
      some (Table.mk [] [("F".toList, Col.raws ["1".toList, "2".toList])])) ∧
    (([("F".toList, Col.raws ["1".toList, "2".toList])].map
        (fun p : Str × Col => p.1)).Nodup) ∧
    ((∀ p ∈ [("F".toList, Col.raws ["1".toList, "2".toList])], ∃ l, p.2 = Col.raws l) →
      ∃ st2, collimateTables 2024 c6WDoc ["X".toList] c6Schema =
        .ok { c6WDoc with
              tables := alistSet ("X".toList)
                (Table.mk [] ([("F".toList, Col.raws ["1".toList, "2".toList])].map
                  (fun p =>
                    (p.1, collimatedCol 2024
                      ({ hasRequired := true, requiredFields := [],
                         optionalFields := [], occurrences := RangeVal.num 1,
                         rows := RangeVal.num 1 } : TableDef) p.1 (rawsOf p.2)))))
                c6WDoc.tables,
              rstate := st2 }) ∧
    ((collimateTables 2024 c6WDoc ["X".toList] c6Schema).map (fun d2 =>
        (alistGet ("X".toList) d2.tables).map (fun t => t.cols)) =
      .ok (some [("F".toList, Col.scalar (Value.vInt 1))])) := by
  have h := c6_amended_collimate 2024 c6WDoc ("X".toList) []
    [("F".toList, Col.raws ["1".toList, "2".toList])] c6Schema
    ({ hasRequired := true, requiredFields := [], optionalFields := [],
       occurrences := RangeVal.num 1, rows := RangeVal.num 1 } : TableDef)
    (by decide) (by decide) (by decide)
  exact ⟨by decide, by decide, by decide, h.1, by decide⟩


/-! ### C1: `Writer.serialize` (lines 1930-1988) and the round trip -/

/-- The serializer's table-name cleanup (lines 1947-1950):
`first_num = [t.isdigit() for t in table].index(True)` then
`table[0: first_num - 1]`; a name whose first digit is its first
character hits the Python negative slice `[0:-1]` and drops the last
character; a digit-free name is written unchanged. -/
def chopName (t : Str) : Str :=
  match t.findIdx? (fun c => c.isDigit) with
  | none => t
  | some 0 => t.dropLast
  | some (i + 1) => t.take i

/-- What `csv.writer` prints for a stored cell value: strings
verbatim, `None` as the empty cell, integers in decimal,
times as `HH:MM:SS` and dates as `YYYY-MM-DD` (their `str()`).  The
shortest-round-trip `repr` of a Python float is not modelled, so
serialization is undefined on float cells; every use below stays on
string cells. -/
def renderValue : Value → Option Str
  | .vStr s => some s
  | .null => some []
  | .vInt z => some ((toString z).toList)
  | .vTime h m s => some (renderTimeStr h m s)
  | .vDate y m d => some ((toString y).toList ++ '-' :: (pad2 m ++ '-' :: pad2 d))
  | .vFloat _ => none

/-- The cell the serializer's row loop appends for column value
`c` at row index `i` (lines 1962-1970): `value[i]` for a list (the
`IndexError` handler appends the empty cell), the value itself for a
scalar. -/
def cellAt (c : Col) (i : Nat) : Option Str :=
  match c with
  | .raws l => some (l.getD i [])
  | .typed l =>
    match l.get? i with
    | some v => renderValue v
    | none => some []
  | .scalar v => renderValue v

/-- Python `len()` of a stored column value: lists and strings have a
length, other scalars raise `TypeError`. -/
def colPyLen : Col → Option Nat
  | .raws l => some l.length
  | .typed l => some l.length
  | .scalar (.vStr s) => some s.length
  | .scalar _ => none

/-- `max_len` (lines 1955-1961): 1 unless the first value is a list,
in which case the length of `max(values, key=len)` — with the
`TypeError` handler falling back to 1 when some value has no `len`.
A zero-field table raises an uncaught `IndexError` at `values[0]`. -/
def isScalarCol : Col → Bool
  | .scalar _ => true
  | _ => false

def maxLenOf (cols : List Col) : Option Nat :=
  match cols with
  | [] => none
  | c0 :: rest =>
    if isScalarCol c0 then some 1
    else if (c0 :: rest).all (fun c => (colPyLen c).isSome) then
      some (((c0 :: rest).map (fun c => (colPyLen c).getD 0)).foldl max 0)
    else some 1

/-- The row cleanup (lines 1972-1977): pop trailing empty cells,
never touching index 0. -/
def trimTrailEmpty (row : List Str) : List Str :=
  match row with
  | [] => []
  | first :: rest => first :: (rest.reverse.dropWhile (fun c => c = [])).reverse

/-- One table block of `Writer.serialize`: the `#NAME` marker with the
chopped name, the comma-joined field header, `max_len` data rows
(trailing empty cells trimmed), then one `* comment` line per table
comment.  (`csv.writer` quoting never triggers on the comma-free cells
used below, matching the parser's quote-free reader model.) -/
def serializeTable (name : Str) (t : Table) : Option (List Str) :=
  match maxLenOf (t.cols.map (fun p => p.2)) with
  | none => none
  | some maxLen =>
    match (List.range maxLen).mapM (fun i => t.cols.mapM (fun p => cellAt p.2 i)) with
    | none => none
    | some dataRows =>
      some (('#' :: chopName name) ::
        pyJoinChar ',' (t.cols.map (fun p => p.1)) ::
        (dataRows.map (fun r => pyJoinChar ',' (trimTrailEmpty r)) ++
          t.comments.map (fun cm => '*' :: ' ' :: cm)))

/-- Table blocks joined by the blank separator line written after
every table except the last (lines 1983-1986). -/
def joinBlocks : List (List Str) → List Str
  | [] => []
  | [b] => b
  | b :: rest => b ++ ([] :: joinBlocks rest)

/-- `Writer.serialize` as a list of output lines: the file-comment
block (each `* comment`, then a blank line) when non-empty, followed
by the table blocks. -/
def serializeLines (d : Doc) : Option (List Str) :=
  match d.tables.mapM (fun nt => serializeTable nt.1 nt.2) with
  | none => none
  | some blocks =>
    some ((if d.fileComments = [] then []
           else (d.fileComments.map (fun c => '*' :: ' ' :: pyJoinChar ',' c)) ++ [[]]) ++
          joinBlocks blocks)

/-- A document holding exactly the given tables. -/
def docOf (ts : List (Str × Table)) : Doc :=
  { Doc.empty with tables := ts }

/-- The enumerated comma-split rows the parser consumes, starting at
line number `k`. -/
def rowsFrom (k : Nat) : List Str → List (Nat × List Str)
  | [] => []
  | s :: rest => (k, csvSplitLine s) :: rowsFrom (k + 1) rest

/-- The column cells of a table given as a field/cells list. -/
def tableOfSpec (cols : List (Str × List Str)) : Table :=
  Table.mk [] (cols.map (fun p => (p.1, Col.raws p.2)))

/-- The hygiene conditions under which a serialized table reparses
verbatim: at least one field; distinct, strip-fixed, nonempty,
comma-free field names other than `comments` not starting with `*`; a
strip-fixed, nonempty, digit-free table name without a leading `#`,
comma-free and free of the bad separators; all columns of one common
length `n ≥ 1`; strip-fixed comma-free cells; first-column cells free
of bad separators and not starting with `#` or `*`, nonempty when the
table has a single field; and nonempty last-column cells (so the
trailing-empty trim is a no-op). -/
def benignSpec (name : Str) (cols : List (Str × List Str)) (n : Nat) : Prop :=
  cols ≠ [] ∧
  ((cols.map (fun p => p.1)).Nodup) ∧
  pyStrip name = name ∧ name ≠ [] ∧ chopName name = name ∧
  name.head? ≠ some '#' ∧
  (∀ sep ∈ badSepList, strContains sep ('#' :: name) = false) ∧
  (',' ∉ name) ∧
  (∀ f ∈ cols.map (fun p => p.1),
    pyStrip f = f ∧ f ≠ [] ∧ (',' ∉ f) ∧ f ≠ ("comments".toList) ∧
    f.head? ≠ some '*') ∧
  1 ≤ n ∧
  (∀ p ∈ cols, p.2.length = n) ∧
  (∀ p ∈ cols, ∀ cell ∈ p.2, pyStrip cell = cell ∧ (',' ∉ cell)) ∧
  (∀ p, cols.head? = some p → ∀ cell ∈ p.2,
    cell.head? ≠ some '#' ∧ cell.head? ≠ some '*' ∧
    (∀ sep ∈ badSepList, strContains sep cell = false) ∧
    (cols.length = 1 → cell ≠ [])) ∧
  (∀ p, cols.getLast? = some p → ∀ cell ∈ p.2, cell ≠ [])

/-- One table of the round-trip family: name, columns (field name with
its cells) and the common column height. -/
structure TSpec where
  name : Str
  cols : List (Str × List Str)
  nrows : Nat
deriving DecidableEq, Repr

/-- The hygiene conditions, per table. -/
def TSpec.benign (t : TSpec) : Prop := benignSpec t.name t.cols t.nrows

/-- The lines `Writer.serialize` emits for one benign table. -/
def TSpec.lines (t : TSpec) : List Str :=
  ('#' :: t.name) :: pyJoinChar ',' (t.cols.map (fun p => p.1)) ::
    (List.range t.nrows).map
      (fun i => pyJoinChar ',' (t.cols.map (fun p => p.2.getD i [])))

/-- The stored table the parser rebuilds for one benign table. -/
def TSpec.table (t : TSpec) : Table := tableOfSpec t.cols

/-- The one-cell document whose value carries a trailing space. -/
def c1Doc : Doc :=
  docOf [(("T".toList), Table.mk [] [("F".toList, Col.raws [['a', ' ']])])]

/-- Counterexample to C1: serializing the document whose single value
is `a␣` (trailing space) and re-parsing does not reproduce the same
values: the parser's `value.strip()` (line 466) drops the space, so
the reparsed document stores `a`.  The round trip is not the identity
on values, even for a perfectly valid document. -/
theorem c1_counterexample :
    (serializeLines c1Doc = some [['#', 'T'], ['F'], ['a', ' ']]) ∧
    ((serializeLines c1Doc).map (fun lines =>
        (parseECSV lines).map (fun d2 => d2.tables)) =
      some (.ok [(("T".toList), Table.mk [] [("F".toList, Col.raws [['a']])])])) ∧
    c1Doc.tables = [(("T".toList), Table.mk [] [("F".toList, Col.raws [['a', ' ']])])] ∧
    ¬ ([(("T".toList), Table.mk [] [("F".toList, Col.raws [['a']])])] =
       [(("T".toList), Table.mk [] [("F".toList, Col.raws [['a', ' ']])])]) := by
  decide


theorem pyJoin_split :
    ∀ {cells : List Str}, cells ≠ [] → (∀ c ∈ cells, ',' ∉ c) →
      pySplitChar ',' (pyJoinChar ',' cells) = cells := by
  intro cells
  induction cells with
  | nil => intro h _; exact absurd rfl h
  | cons c rest ih =>
    intro _ hmem
    cases rest with
    | nil =>
      show pySplitChar ',' (pyJoinChar ',' [c]) = [c]
      rw [pyJoinChar]
      exact pySplitChar_no_sep (hmem c (List.mem_cons_self c []))
    | cons c2 rest2 =>
      show pySplitChar ',' (pyJoinChar ',' (c :: c2 :: rest2)) = c :: c2 :: rest2
      rw [pyJoinChar]
      rw [pySplitChar_append (hmem c (List.mem_cons_self c (c2 :: rest2)))]
      have h1 : c2 :: rest2 ≠ [] := by intro he; exact List.noConfusion he
      have h2 : ∀ x ∈ c2 :: rest2, ',' ∉ x :=
        fun x hx => hmem x (List.mem_cons_of_mem c hx)
      rw [ih h1 h2]
      intro he
      exact List.noConfusion he

theorem alistSet_append_missing {α : Type} {k : Str} {v : α} :
    ∀ {l : List (Str × α)}, k ∉ l.map (fun p => p.1) →
      alistSet k v l = l ++ [(k, v)] := by
  intro l
  induction l with
  | nil => intro _; rfl
  | cons q qs ih =>
    intro h
    rw [List.map_cons] at h
    have hq : ¬ (q.1 = k) := fun he => h (he ▸ List.mem_cons_self q.1 _)
    rw [alistSet, if_neg hq, ih (fun hm => h (List.mem_cons_of_mem _ hm))]
    rfl

theorem alistGet_missing {α : Type} {k : Str} :
    ∀ {l : List (Str × α)}, k ∉ l.map (fun p => p.1) → alistGet k l = none := by
  intro l
  induction l with
  | nil => intro _; rfl
  | cons q qs ih =>
    intro h
    rw [List.map_cons] at h
    have hq : ¬ (q.1 = k) := fun he => h (he ▸ List.mem_cons_self q.1 _)
    rw [alistGet, if_neg hq]
    exact ih (fun hm => h (List.mem_cons_of_mem _ hm))

theorem rowsFrom_append :
    ∀ (l1 l2 : List Str) (k : Nat),
      rowsFrom k (l1 ++ l2) = rowsFrom k l1 ++ rowsFrom (k + l1.length) l2 := by
  intro l1
  induction l1 with
  | nil => intro l2 k; simp [rowsFrom]
  | cons s rest ih =>
    intro l2 k
    rw [List.cons_append, rowsFrom, rowsFrom, ih l2 (k + 1)]
    simp only [List.length_cons, List.cons_append]
    have : k + 1 + rest.length = k + (rest.length + 1) := by omega
    rw [this]

theorem enumFrom_rowsFrom :
    ∀ (lines : List Str) (k : Nat),
      ((lines.map csvSplitLine).enumFrom k).map (fun p => (p.1 + 1, p.2)) =
        rowsFrom (k + 1) lines := by
  intro lines
  induction lines with
  | nil => intro k; rfl
  | cons s rest ih =>
    intro k
    rw [List.map_cons, List.enumFrom, List.map_cons, rowsFrom, ih (k + 1)]

theorem fixRowSeps_noop {row : List Str} {st : RState}
    (h : ∀ sep ∈ badSepList, strContains sep (row.headD []) = false) :
    fixRowSeps row st = .ok (row, st) := by
  unfold fixRowSeps
  have hf : badSepList.filter
      (fun sep => ¬ nonContentLine row ∧ strContains sep (row.headD [])) = [] := by
    rw [List.filter_eq_nil_iff]
    intro sep hsep
    simp only [decide_eq_true_eq, not_and]
    intro _
    rw [h sep hsep]
    exact Bool.false_ne_true
  rw [hf]
  rfl

theorem mapM_option_some {α β : Type} (f : α → Option β) (g : α → β) :
    ∀ (l : List α), (∀ x ∈ l, f x = some (g x)) → l.mapM f = some (l.map g) := by
  intro l
  induction l with
  | nil => intro _; rfl
  | cons x xs ih =>
    intro h
    rw [List.mapM_cons, h x (List.mem_cons_self x xs),
      ih (fun y hy => h y (List.mem_cons_of_mem x hy))]
    rfl

theorem trimTrailEmpty_noop :
    ∀ {row : List Str}, (∀ c, row.getLast? = some c → c ≠ []) →
      trimTrailEmpty row = row := by
  intro row
  match row with
  | [] => intro _; rfl
  | first :: rest =>
    intro h
    rw [trimTrailEmpty]
    cases hrev : rest.reverse with
    | nil =>
      have : rest = [] := by
        have := congrArg List.reverse hrev
        simpa using this
      rw [this]
      rfl
    | cons r rs =>
      have hlast : (first :: rest).getLast? = some r := by
        rw [List.getLast?_eq_head?_reverse, List.reverse_cons, hrev]
        rfl
      have hr : ¬ (r = []) := h r hlast
      rw [List.dropWhile_cons]
      simp only [decide_eq_true_eq, if_neg hr]
      rw [← hrev, List.reverse_reverse]

theorem foldl_max_const :
    ∀ (l : List Nat) (n : Nat), (∀ x ∈ l, x = n) → l.foldl max n = n := by
  intro l
  induction l with
  | nil => intro n _; rfl
  | cons x xs ih =>
    intro n h
    rw [List.foldl_cons, h x (List.mem_cons_self x xs), max_self]
    exact ih n (fun y hy => h y (List.mem_cons_of_mem x hy))

theorem pyLstripChar_cons_self (c : Char) (s : Str) :
    pyLstripChar c (c :: s) = pyLstripChar c s := by
  unfold pyLstripChar
  rw [List.dropWhile_cons]
  simp

theorem pyLstripChar_noop {c : Char} {s : Str} (h : s.head? ≠ some c) :
    pyLstripChar c s = s := by
  unfold pyLstripChar
  cases s with
  | nil => rfl
  | cons c0 rest =>
    rw [List.dropWhile_cons]
    have hc : ¬ (c0 = c) := by
      intro he
      exact h (by rw [he]; rfl)
    simp [hc]


theorem addValues_exact (d : Doc) (tn : Str) (cm : List Str)
    (cols : List (Str × Col)) (values : List Str) (ln : Nat)
    (hget : alistGet tn d.tables = some (Table.mk cm cols))
    (hnodup : (cols.map (fun p => p.1)).Nodup)
    (hcom : ("comments".toList) ∉ cols.map (fun p => p.1))
    (hraws : ∀ p ∈ cols, ∃ l, p.2 = Col.raws l)
    (hlen : values.length = cols.length) :
    addValuesToTable d tn values ln none 1 true =
      .ok ({ d with
             tables :=
               alistSet tn
                 (Table.mk cm
                   ((cols.zip values).map (fun pv =>
                     (pv.1.1, colAppendRaw pv.1.2 (pyStrip pv.2)))))
                 d.tables },
            true) := by
  have hz := appendPairs_zip cols [] d tn cm values true
    (by simpa using hget) (by simpa using hnodup) hcom hlen hraws
  have hfill : ¬ (((cols.map (fun p => p.1)).length : Int) - (values.length : Int) < 0) := by
    simp only [List.length_map]
    omega
  have h0 : (((cols.map (fun p => p.1)).length : Int) - ((values.length : Int))).toNat = 0 := by
    simp only [List.length_map]
    omega
  simp only [addValuesToTable, tableIndexName_one, hget]
  rw [if_neg hfill]
  rw [h0, List.replicate_zero, List.append_nil]
  simp only [List.length_map]
  have htt : values.take cols.length = values := by
    rw [← hlen, List.take_length]
  rw [htt, hz]
  rfl

theorem foldl_initTableStep_append :
    ∀ (fields : List Str) (pre : List (Str × Col)),
      (∀ f ∈ fields, pyStrip f = f ∧ f ≠ ("comments".toList) ∧
        f ∉ pre.map (fun p => p.1)) →
      fields.Nodup →
      fields.foldl initTableStep (Table.mk [] pre) =
        Table.mk [] (pre ++ fields.map (fun f => (f, Col.raws []))) := by
  intro fields
  induction fields with
  | nil => intro pre _ _; simp
  | cons f fs ih =>
    intro pre h hnodup
    obtain ⟨hstrip, hcm, hpre⟩ := h f (List.mem_cons_self f fs)
    rw [List.foldl_cons]
    have hstep : initTableStep (Table.mk [] pre) f =
        Table.mk [] (pre ++ [(f, Col.raws [])]) := by
      simp only [initTableStep, hstrip]
      rw [if_neg hcm, alistSet_append_missing hpre]
    rw [hstep]
    have h2 : ∀ g ∈ fs, pyStrip g = g ∧ g ≠ ("comments".toList) ∧
        g ∉ (pre ++ [(f, Col.raws [])]).map (fun p => p.1) := by
      intro g hg
      obtain ⟨h21, h22, h23⟩ := h g (List.mem_cons_of_mem f hg)
      refine ⟨h21, h22, ?_⟩
      intro hmem
      rw [List.map_append] at hmem
      rcases List.mem_append.mp hmem with hm | hm
      · exact h23 hm
      · have hgf : g = f := by simpa using hm
        exact (List.nodup_cons.mp hnodup).1 (hgf ▸ hg)
    rw [ih (pre ++ [(f, Col.raws [])]) h2 (List.nodup_cons.mp hnodup).2]
    simp

theorem initTable_fresh (d : Doc) (name : Str) (fields : List Str) (ln : Nat)
    (hfresh : alistGet name d.tableCount = none) :
    initTable d name fields ln =
      ({ d with
         tableCount := alistSet name 1 d.tableCount,
         tables := alistSet name (fields.foldl initTableStep (Table.mk [] [])) d.tables,
         lineNums := alistSet name ln d.lineNums }, name) := by
  simp only [initTable, hfresh]


theorem list_getD_mem {α : Type} :
    ∀ (l : List α) (i : Nat), i < l.length → ∀ (d : α), l.getD i d ∈ l := by
  intro l
  induction l with
  | nil => intro i h d; simp at h
  | cons x xs ih =>
    intro i h d
    cases i with
    | zero => rw [List.getD_cons_zero]; exact List.mem_cons_self x xs
    | succ j =>
      rw [List.getD_cons_succ]
      exact List.mem_cons_of_mem x (ih j (by simpa using h) d)

theorem list_getLast?_mem {α : Type} {l : List α} {a : α}
    (h : l.getLast? = some a) : a ∈ l := by
  rw [List.getLast?_eq_head?_reverse] at h
  have hm : a ∈ l.reverse := by
    cases hl : l.reverse with
    | nil => rw [hl] at h; exact Option.noConfusion h
    | cons x xs =>
      rw [hl] at h
      injection h with h2
      rw [h2]
      exact List.mem_cons_self a xs
  exact List.mem_reverse.mp hm

theorem serializeTable_eval (name : Str) (cols : List (Str × List Str)) (n : Nat)
    (hb : benignSpec name cols n) :
    serializeTable name (tableOfSpec cols) = some
      (('#' :: name) :: pyJoinChar ',' (cols.map (fun p => p.1)) ::
        (List.range n).map
          (fun i => pyJoinChar ',' (cols.map (fun p => p.2.getD i [])))) := by
  obtain ⟨hne, hnodup, hstripn, hnn, hchop, hhash, hsepn, hcomma, hfields, hn1, hlen,
    hcells, hfirst, hlast⟩ := hb
  have hcols2 : (tableOfSpec cols).cols.map (fun p => p.2) =
      cols.map (fun p => Col.raws p.2) := by
    simp [tableOfSpec]
  have hcols1 : (tableOfSpec cols).cols.map (fun p => p.1) =
      cols.map (fun p => p.1) := by
    simp [tableOfSpec]
  obtain ⟨p0, ps, hps⟩ : ∃ p0 ps, cols = p0 :: ps := by
    cases cols with
    | nil => exact absurd rfl hne
    | cons a b => exact ⟨a, b, rfl⟩
  have hmax : maxLenOf ((tableOfSpec cols).cols.map (fun p => p.2)) = some n := by
    rw [hcols2, hps, List.map_cons, maxLenOf]
    rw [show isScalarCol (Col.raws p0.2) = false from rfl]
    rw [if_neg Bool.false_ne_true]
    have hall : ((Col.raws p0.2 :: ps.map (fun p => Col.raws p.2)).all
        (fun c => (colPyLen c).isSome)) = true := by
      rw [List.all_eq_true]
      intro c hc
      rcases List.mem_cons.mp hc with h | h
      · rw [h]; rfl
      · obtain ⟨q, hq, hqe⟩ := List.mem_map.mp h
        rw [← hqe]; rfl
    rw [if_pos hall]
    have hlens : ((Col.raws p0.2 :: ps.map (fun p => Col.raws p.2)).map
        (fun c => (colPyLen c).getD 0)) =
        p0.2.length :: ps.map (fun p => p.2.length) := by
      rw [List.map_cons, List.map_map]
      rfl
    rw [hlens]
    have h0 : p0.2.length = n := hlen p0 (by rw [hps]; exact List.mem_cons_self p0 ps)
    have hrest : ∀ x ∈ ps.map (fun p => p.2.length), x = n := by
      intro x hx
      obtain ⟨q, hq, hqe⟩ := List.mem_map.mp hx
      rw [← hqe]
      exact hlen q (by rw [hps]; exact List.mem_cons_of_mem p0 hq)
    rw [List.foldl_cons, h0, Nat.zero_max n, foldl_max_const _ n hrest]
  have hdata : (List.range n).mapM
      (fun i => (tableOfSpec cols).cols.mapM (fun p => cellAt p.2 i)) =
      some ((List.range n).map (fun i => cols.map (fun p => p.2.getD i []))) := by
    apply mapM_option_some
    intro i _
    have hinner : (tableOfSpec cols).cols.mapM (fun p => cellAt p.2 i) =
        some ((tableOfSpec cols).cols.map (fun p => (rawsOf p.2).getD i [])) := by
      apply mapM_option_some
      intro q hq
      simp only [tableOfSpec] at hq
      obtain ⟨p, hp, hpe⟩ := List.mem_map.mp hq
      rw [← hpe]
      rfl
    rw [hinner]
    simp only [tableOfSpec]
    rw [List.map_map]
    rfl
  simp only [serializeTable, hmax, hdata]
  rw [hchop, hcols1]
  have hcm : (tableOfSpec cols).comments = [] := rfl
  rw [hcm]
  have htrim : ((List.range n).map (fun i => cols.map (fun p => p.2.getD i []))).map
      (fun r => pyJoinChar ',' (trimTrailEmpty r)) =
      (List.range n).map (fun i => pyJoinChar ',' (cols.map (fun p => p.2.getD i []))) := by
    rw [List.map_map]
    apply List.map_congr_left
    intro i hi
    have hi2 : i < n := List.mem_range.mp hi
    show pyJoinChar ',' (trimTrailEmpty (cols.map (fun p => p.2.getD i []))) = _
    have hlastrow : ∀ c, (cols.map (fun p => p.2.getD i [])).getLast? = some c →
        c ≠ [] := by
      intro c hc
      rw [List.getLast?_map (fun p => p.2.getD i []) cols] at hc
      cases hgl : cols.getLast? with
      | none =>
        rw [hgl] at hc
        exact absurd hc (by simp)
      | some plast =>
        rw [hgl] at hc
        have hc2 : some (plast.2.getD i []) = some c := hc
        injection hc2 with hc3
        have hql : plast.2.length = n := hlen plast (list_getLast?_mem hgl)
        have hcell : plast.2.getD i [] ∈ plast.2 :=
          list_getD_mem plast.2 i (by omega) []
        rw [← hc3]
        exact hlast plast hgl (plast.2.getD i []) hcell
    rw [trimTrailEmpty_noop hlastrow]
  rw [htrim]
  rw [List.map_nil, List.append_nil]


theorem append_cons_ne_nil {α : Type} (a : List α) (c : α) (l : List α) :
    a ++ c :: l ≠ [] := by
  cases a <;> simp

theorem csvSplit_join (row : List Str) (hne : row ≠ [])
    (hnc : ∀ c ∈ row, ',' ∉ c)
    (hnonempty : row.length = 1 → row.headD [] ≠ []) :
    csvSplitLine (pyJoinChar ',' row) = row := by
  unfold csvSplitLine
  cases row with
  | nil => exact absurd rfl hne
  | cons a rest =>
    cases rest with
    | nil =>
      have ha : a ≠ [] := hnonempty rfl
      show (if pyJoinChar ',' [a] = [] then [] else
        pySplitChar ',' (pyJoinChar ',' [a])) = [a]
      rw [show pyJoinChar ',' [a] = a from rfl, if_neg ha]
      exact pySplitChar_no_sep (hnc a (List.mem_cons_self a []))
    | cons b r =>
      have hjoin : pyJoinChar ',' (a :: b :: r) = a ++ ',' :: pyJoinChar ',' (b :: r) := by
        rw [pyJoinChar]
        intro he
        exact List.noConfusion he
      rw [hjoin, if_neg (append_cons_ne_nil a ',' (pyJoinChar ',' (b :: r))), ← hjoin]
      exact pyJoin_split (by intro he; exact List.noConfusion he) hnc

theorem list_take_succ_getD {α : Type} :
    ∀ (l : List α) (s : Nat), s < l.length → ∀ (d : α),
      l.take (s + 1) = l.take s ++ [l.getD s d] := by
  intro l
  induction l with
  | nil => intro s h; simp at h
  | cons x xs ih =>
    intro s h d
    cases s with
    | zero => simp [List.getD_cons_zero]
    | succ j =>
      rw [List.getD_cons_succ, List.take_succ_cons, List.take_succ_cons,
        ih j (by simpa using h) d]
      simp


theorem parseRows_datarows (name : Str) (cols : List (Str × List Str)) (n : Nat)
    (hb : benignSpec name cols n) :
    ∀ (m s k : Nat) (d : Doc) (restRows : List (Nat × List Str)),
      s + m = n →
      alistGet name d.tables = some (Table.mk []
        (cols.map (fun p => (p.1, Col.raws (p.2.take s))))) →
      parseRows (rowsFrom k ((List.range' s m).map
          (fun i => pyJoinChar ',' (cols.map (fun p => p.2.getD i [])))) ++ restRows)
        d (.normal (some name)) =
      parseRows restRows
        { d with tables := alistSet name (Table.mk []
            (cols.map (fun p => (p.1, Col.raws (p.2.take (s + m)))))) d.tables }
        (.normal (some name)) := by
  obtain ⟨hne, hnodup, hstripn, hnn, hchop, hhash, hsepn, hcomma, hfields, hn1, hlen,
    hcells, hfirst, hlast⟩ := hb
  obtain ⟨p0, ps, hps⟩ : ∃ p0 ps, cols = p0 :: ps := by
    cases cols with
    | nil => exact absurd rfl hne
    | cons a b => exact ⟨a, b, rfl⟩
  intro m
  induction m with
  | zero =>
    intro s k d restRows hsum hget
    rw [show List.range' s 0 = [] from rfl, List.map_nil]
    rw [show rowsFrom k [] = [] from rfl, List.nil_append]
    rw [Nat.add_zero, alistSet_get_self hget]
  | succ m ih =>
    intro s k d restRows hsum hget
    have hs_lt : s < n := by omega
    have hp0len : p0.2.length = n := hlen p0 (by rw [hps]; exact List.mem_cons_self p0 ps)
    have hcell0mem : p0.2.getD s [] ∈ p0.2 := list_getD_mem p0.2 s (by omega) []
    have hfirst0 := hfirst p0 (by rw [hps]; rfl) (p0.2.getD s []) hcell0mem
    have hrowcells : ∀ c ∈ cols.map (fun p => p.2.getD s []), pyStrip c = c ∧ ',' ∉ c := by
      intro c hc
      obtain ⟨q, hq, hqe⟩ := List.mem_map.mp hc
      have hqlen : q.2.length = n := hlen q hq
      have : q.2.getD s [] ∈ q.2 := list_getD_mem q.2 s (by omega) []
      rw [← hqe]
      exact hcells q hq (q.2.getD s []) this
    have hheadrow : (cols.map (fun p => p.2.getD s [])).headD [] = p0.2.getD s [] := by
      rw [hps, List.map_cons, List.headD_cons]
    have hsplit : csvSplitLine (pyJoinChar ',' (cols.map (fun p => p.2.getD s []))) =
        cols.map (fun p => p.2.getD s []) := by
      apply csvSplit_join
      · rw [hps]; simp
      · intro c hc; exact (hrowcells c hc).2
      · intro hlen1
        rw [hheadrow]
        rw [List.length_map, hps] at hlen1
        exact hfirst0.2.2.2 (by rw [hps]; exact hlen1)
    rw [List.range'_succ s m 1, List.map_cons, rowsFrom, List.cons_append, hsplit]
    have hfx : fixRowSeps (cols.map (fun p => p.2.getD s [])) d.rstate =
        .ok (cols.map (fun p => p.2.getD s []), d.rstate) := by
      apply fixRowSeps_noop
      intro sep hsep
      rw [hheadrow]
      exact hfirst0.2.2.1 sep hsep
    have hmark : ¬ ((cols.map (fun p => p.2.getD s [])).length = 1 ∧
        startsWithHash ((cols.map (fun p => p.2.getD s [])).headD []) = true) := by
      rintro ⟨-, h2⟩
      rw [hheadrow] at h2
      simp only [startsWithHash, decide_eq_true_eq] at h2
      exact hfirst0.1 h2
    have hstar : ¬ ((cols.map (fun p => p.2.getD s [])).length > 0 ∧
        startsWithStar ((cols.map (fun p => p.2.getD s [])).headD []) = true) := by
      rintro ⟨-, h2⟩
      rw [hheadrow] at h2
      simp only [startsWithStar, decide_eq_true_eq] at h2
      exact hfirst0.2.1 h2
    have hncl : ¬ (nonContentLine (cols.map (fun p => p.2.getD s [])) = true) := by
      intro h2
      rw [hps, List.map_cons] at h2
      have hstrip0 : pyStrip (p0.2.getD s []) = p0.2.getD s [] :=
        (hcells p0 (by rw [hps]; exact List.mem_cons_self p0 ps) (p0.2.getD s [])
          hcell0mem).1
      cases hmm : ps.map (fun p => p.2.getD s []) with
      | nil =>
        rw [hmm] at h2
        rw [nonContentLine, hstrip0] at h2
        have hpsnil : ps = [] := List.map_eq_nil_iff.mp hmm
        have hps1 : cols.length = 1 := by rw [hps, hpsnil]; rfl
        have hne0 : p0.2.getD s [] ≠ [] := hfirst0.2.2.2 hps1
        have h4 : (p0.2.getD s []).length = 0 ∨ startsWithStar (p0.2.getD s []) = true := by
          simpa using h2
        rcases h4 with h3 | h3
        · exact hne0 (List.length_eq_zero.mp h3)
        · simp only [startsWithStar, decide_eq_true_eq] at h3
          exact hfirst0.2.1 h3
      | cons x xs =>
        rw [hmm] at h2
        rw [nonContentLine, hstrip0] at h2
        simp only [startsWithStar, decide_eq_true_eq] at h2
        exact hfirst0.2.1 h2
    have hav := addValues_exact d name []
      (cols.map (fun p => (p.1, Col.raws (p.2.take s))))
      (cols.map (fun p => p.2.getD s [])) k hget
      (by rw [List.map_map]; simpa using hnodup)
      (by
        rw [List.map_map]
        intro hmem
        obtain ⟨q, hq, hqe⟩ := List.mem_map.mp hmem
        exact (hfields q.1 (List.mem_map_of_mem _ hq)).2.2.2.1 hqe)
      (by
        intro p hp
        obtain ⟨q, hq, hqe⟩ := List.mem_map.mp hp
        exact ⟨q.2.take s, by rw [← hqe]⟩)
      (by simp)
    have hmapstep : ((cols.map (fun p => (p.1, Col.raws (p.2.take s)))).zip
        (cols.map (fun p => p.2.getD s []))).map
          (fun pv => (pv.1.1, colAppendRaw pv.1.2 (pyStrip pv.2))) =
        cols.map (fun p => (p.1, Col.raws (p.2.take (s + 1)))) := by
      rw [List.zip_map' (fun p => (p.1, Col.raws (p.2.take s)))
        (fun p => p.2.getD s []) cols]
      rw [List.map_map]
      apply List.map_congr_left
      intro p hp
      have hplen : p.2.length = n := hlen p hp
      have hcellmem : p.2.getD s [] ∈ p.2 := list_getD_mem p.2 s (by omega) []
      have hstripc : pyStrip (p.2.getD s []) = p.2.getD s [] :=
        (hcells p hp (p.2.getD s []) hcellmem).1
      show (p.1, colAppendRaw (Col.raws (p.2.take s)) (pyStrip (p.2.getD s []))) =
        (p.1, Col.raws (p.2.take (s + 1)))
      rw [hstripc]
      show (p.1, Col.raws (p.2.take s ++ [p.2.getD s []])) = _
      rw [← list_take_succ_getD p.2 s (by omega) []]
    rw [parseRows.eq_def]
    dsimp only
    rw [hfx]
    dsimp only
    rw [if_neg hmark, if_neg hstar, if_neg hncl]
    have hdd : ({ d with rstate := d.rstate } : Doc) = d := rfl
    rw [hdd, hav, hmapstep]
    dsimp only
    have hih := ih (s + 1) (k + 1)
      (Doc.mk
        (alistSet name
          (Table.mk [] (cols.map (fun p => (p.1, Col.raws (p.2.take (s + 1))))))
          d.tables)
        d.tableCount d.lineNums d.fileComments d.rstate)
      restRows (by omega) (alistGet_set_self _ _ _)
    rw [hih]
    dsimp only
    rw [alistSet_set]
    have harith : s + 1 + m = s + (m + 1) := by omega
    rw [harith]


theorem parseRows_block (name : Str) (cols : List (Str × List Str)) (n : Nat)
    (hb : benignSpec name cols n) :
    ∀ (k : Nat) (d : Doc) (parent : Option Str) (restRows : List (Nat × List Str)),
      alistGet name d.tableCount = none →
      parseRows (rowsFrom k (TSpec.lines ⟨name, cols, n⟩) ++ restRows)
        d (.normal parent) =
      parseRows restRows
        (Doc.mk (alistSet name (tableOfSpec cols) d.tables)
          (alistSet name 1 d.tableCount)
          (alistSet name k d.lineNums)
          d.fileComments d.rstate)
        (.normal (some name)) := by
  obtain ⟨hne, hnodup, hstripn, hnn, hchop, hhash, hsepn, hcomma, hfields, hn1, hlen,
    hcells, hfirst, hlast⟩ := hb
  obtain ⟨p0, ps, hps⟩ : ∃ p0 ps, cols = p0 :: ps := by
    cases cols with
    | nil => exact absurd rfl hne
    | cons a b => exact ⟨a, b, rfl⟩
  intro k d parent restRows hfresh
  rw [TSpec.lines]
  dsimp only
  rw [rowsFrom, rowsFrom, List.cons_append, List.cons_append]
  have hsplitm : csvSplitLine ('#' :: name) = [('#' :: name)] := by
    unfold csvSplitLine
    rw [if_neg (by intro he; exact List.noConfusion he)]
    apply pySplitChar_no_sep
    intro hm
    rcases List.mem_cons.mp hm with h | h
    · exact absurd h (by decide)
    · exact hcomma h
  rw [hsplitm]
  rw [parseRows.eq_def]
  dsimp only
  have hfx : fixRowSeps [('#' :: name)] d.rstate = .ok ([('#' :: name)], d.rstate) := by
    apply fixRowSeps_noop
    intro sep hsep
    rw [List.headD_cons]
    exact hsepn sep hsep
  rw [hfx]
  dsimp only
  have hmarkpos : ([('#' :: name)] : List Str).length = 1 ∧
      startsWithHash (([('#' :: name)] : List Str).headD []) = true := by
    refine ⟨rfl, ?_⟩
    rw [List.headD_cons]
    simp [startsWithHash]
  rw [if_pos hmarkpos]
  have hparent0 : pyStrip (pyLstripChar '#' ([('#' :: name)].headD [])) = name := by
    rw [List.headD_cons, pyLstripChar_cons_self, pyLstripChar_noop hhash, hstripn]
  have hdd : ({ d with rstate := d.rstate } : Doc) = d := rfl
  rw [hparent0, hdd]
  -- the header line
  have hfieldsne : cols.map (fun p => p.1) ≠ [] := by rw [hps]; simp
  have hsplith : csvSplitLine (pyJoinChar ',' (cols.map (fun p => p.1))) =
      cols.map (fun p => p.1) := by
    apply csvSplit_join _ hfieldsne
    · intro f hf
      exact (hfields f hf).2.2.1
    · intro _
      rw [hps, List.map_cons, List.headD_cons]
      have hmem0 : p0.1 ∈ cols.map (fun p => p.1) := by
        rw [hps]
        exact List.mem_map_of_mem _ (List.mem_cons_self p0 ps)
      exact (hfields p0.1 hmem0).2.1
  rw [hsplith]
  rw [parseRows]
  have hncf : ¬ (nonContentLine (cols.map (fun p => p.1)) = true) := by
    intro h2
    rw [hps, List.map_cons] at h2
    have hmem0 : p0.1 ∈ cols.map (fun p => p.1) := by
      rw [hps]
      exact List.mem_map_of_mem _ (List.mem_cons_self p0 ps)
    obtain ⟨hf1, hf2, hf3, hf4, hf5⟩ := hfields p0.1 hmem0
    cases hmm : ps.map (fun p => p.1) with
    | nil =>
      rw [hmm, nonContentLine, hf1] at h2
      have h4 : p0.1.length = 0 ∨ startsWithStar p0.1 = true := by simpa using h2
      rcases h4 with h3 | h3
      · exact hf2 (List.length_eq_zero.mp h3)
      · simp only [startsWithStar, decide_eq_true_eq] at h3
        exact hf5 h3
    | cons x xs =>
      rw [hmm, nonContentLine, hf1] at h2
      simp only [startsWithStar, decide_eq_true_eq] at h2
      exact hf5 h2
  rw [if_neg hncf]
  rw [initTable_fresh d name (cols.map (fun p => p.1)) k hfresh]
  have hbody : (cols.map (fun p => p.1)).foldl initTableStep (Table.mk [] []) =
      Table.mk [] (cols.map (fun p => (p.1, Col.raws (p.2.take 0)))) := by
    rw [foldl_initTableStep_append (cols.map (fun p => p.1)) []
      (by
        intro f hf
        obtain ⟨h1, h2, h3, h4, h5⟩ := hfields f hf
        exact ⟨h1, h4, by simp⟩)
      hnodup]
    show Table.mk [] ([] ++ (cols.map (fun p => p.1)).map (fun f => (f, Col.raws []))) = _
    rw [List.nil_append, List.map_map]
    rfl
  rw [hbody]
  dsimp only
  have hdata := parseRows_datarows name cols n
    ⟨hne, hnodup, hstripn, hnn, hchop, hhash, hsepn, hcomma, hfields, hn1, hlen,
      hcells, hfirst, hlast⟩
    n 0 (k + 1 + 1)
    (Doc.mk
      (alistSet name (Table.mk [] (cols.map (fun p => (p.1, Col.raws (p.2.take 0)))))
        d.tables)
      (alistSet name 1 d.tableCount)
      (alistSet name k d.lineNums)
      d.fileComments d.rstate)
    restRows (by omega) (alistGet_set_self _ _ _)
  rw [List.range_eq_range' n, hdata]
  dsimp only
  rw [alistSet_set]
  have hfull : cols.map (fun p => (p.1, Col.raws (p.2.take (0 + n)))) =
      cols.map (fun p => (p.1, Col.raws p.2)) := by
    apply List.map_congr_left
    intro p hp
    rw [Nat.zero_add, ← hlen p hp, List.take_length]
  rw [hfull]
  rfl


theorem parseRows_blank (k : Nat) (rest : List (Nat × List Str)) (d : Doc)
    (parent : Option Str) :
    parseRows ((k, ([] : List Str)) :: rest) d (.normal parent) =
      parseRows rest d (.normal parent) := by
  rw [parseRows.eq_def]
  dsimp only
  have hfx : fixRowSeps ([] : List Str) d.rstate = .ok (([] : List Str), d.rstate) := by
    apply fixRowSeps_noop
    intro sep hsep
    fin_cases hsep <;> rfl
  rw [hfx]
  dsimp only
  rw [if_neg (by
    rintro ⟨h1, -⟩
    simp at h1)]
  rw [if_neg (by
    rintro ⟨h1, -⟩
    simp at h1)]
  rw [if_pos (by rfl)]

theorem parseRows_block2 (t : TSpec) (hb : t.benign) :
    ∀ (k : Nat) (d : Doc) (parent : Option Str) (restRows : List (Nat × List Str)),
      alistGet t.name d.tableCount = none →
      parseRows (rowsFrom k t.lines ++ restRows) d (.normal parent) =
      parseRows restRows
        (Doc.mk (alistSet t.name (tableOfSpec t.cols) d.tables)
          (alistSet t.name 1 d.tableCount)
          (alistSet t.name k d.lineNums)
          d.fileComments d.rstate)
        (.normal (some t.name)) := by
  obtain ⟨name, cols, n⟩ := t
  exact parseRows_block name cols n hb

theorem parseRows_blocks :
    ∀ (ts : List TSpec) (k : Nat) (d : Doc) (parent : Option Str),
      (∀ t ∈ ts, t.benign) →
      (∀ t ∈ ts, alistGet t.name d.tableCount = none) →
      (∀ t ∈ ts, t.name ∉ d.tables.map (fun p => p.1)) →
      ((ts.map (fun t => t.name)).Nodup) →
      ∃ tc lnm,
        parseRows (rowsFrom k (joinBlocks (ts.map (fun t => t.lines)))) d
            (.normal parent) =
          .ok (Doc.mk (d.tables ++ ts.map (fun t => (t.name, t.table))) tc lnm
            d.fileComments d.rstate) := by
  intro ts
  induction ts with
  | nil =>
    intro k d parent _ _ _ _
    refine ⟨d.tableCount, d.lineNums, ?_⟩
    rw [show joinBlocks ([].map (fun t => TSpec.lines t)) = [] from rfl]
    rw [show rowsFrom k [] = [] from rfl]
    rw [parseRows.eq_def]
    dsimp only
    rw [List.map_nil, List.append_nil]
  | cons t rest ih =>
    intro k d parent hben hfresh htfresh hnodup
    have hb1 : t.benign := hben t (List.mem_cons_self t rest)
    have hfr1 : alistGet t.name d.tableCount = none :=
      hfresh t (List.mem_cons_self t rest)
    have htf1 : t.name ∉ d.tables.map (fun p => p.1) :=
      htfresh t (List.mem_cons_self t rest)
    have hnames : t.name ∉ rest.map (fun t2 => t2.name) := by
      rw [List.map_cons] at hnodup
      exact (List.nodup_cons.mp hnodup).1
    have htab : alistSet t.name (tableOfSpec t.cols) d.tables =
        d.tables ++ [(t.name, TSpec.table t)] := alistSet_append_missing htf1
    cases rest with
    | nil =>
      rw [show (([t] : List TSpec).map (fun t2 => t2.lines)) = [t.lines] from rfl]
      rw [show joinBlocks [t.lines] = t.lines from rfl]
      rw [← List.append_nil (rowsFrom k t.lines)]
      rw [parseRows_block2 t hb1 k d parent [] hfr1]
      refine ⟨alistSet t.name 1 d.tableCount, alistSet t.name k d.lineNums, ?_⟩
      rw [parseRows.eq_def]
      dsimp only
      rw [htab]
      rfl
    | cons t2 rest2 =>
      rw [List.map_cons]
      rw [show joinBlocks (t.lines :: (t2 :: rest2).map (fun t3 => t3.lines)) =
        t.lines ++ ([] :: joinBlocks ((t2 :: rest2).map (fun t3 => t3.lines))) from rfl]
      rw [rowsFrom_append]
      rw [parseRows_block2 t hb1 k d parent _ hfr1]
      rw [rowsFrom]
      rw [show csvSplitLine [] = ([] : List Str) from rfl]
      rw [parseRows_blank]
      have hmemrest : ∀ t3 ∈ t2 :: rest2, t3 ∈ t :: t2 :: rest2 :=
        fun t3 h3 => List.mem_cons_of_mem t h3
      have hih := ih (k + t.lines.length + 1)
        (Doc.mk (alistSet t.name (tableOfSpec t.cols) d.tables)
          (alistSet t.name 1 d.tableCount)
          (alistSet t.name k d.lineNums)
          d.fileComments d.rstate)
        (some t.name)
        (fun t3 h3 => hben t3 (hmemrest t3 h3))
        (by
          intro t3 h3
          dsimp only
          have hne3 : t3.name ≠ t.name := by
            intro he
            exact hnames (he ▸ List.mem_map_of_mem _ h3)
          rw [alistGet_set_ne 1 hne3]
          exact hfresh t3 (hmemrest t3 h3))
        (by
          intro t3 h3
          dsimp only
          rw [htab, List.map_append]
          intro hmem
          rcases List.mem_append.mp hmem with hm | hm
          · exact htfresh t3 (hmemrest t3 h3) hm
          · have : t3.name = t.name := by simpa using hm
            exact hnames (this ▸ List.mem_map_of_mem _ h3))
        ((List.nodup_cons.mp (by rw [List.map_cons] at hnodup; exact hnodup)).2)
      obtain ⟨tc, lnm, hih2⟩ := hih
      refine ⟨tc, lnm, ?_⟩
      rw [hih2]
      dsimp only
      rw [htab, List.map_cons, List.append_assoc]
      rfl


theorem mapM_serialize_spec :
    ∀ (ts : List TSpec), (∀ t ∈ ts, t.benign) →
      (ts.map (fun t => (t.name, t.table))).mapM (fun nt => serializeTable nt.1 nt.2) =
        some (ts.map (fun t => t.lines)) := by
  intro ts
  induction ts with
  | nil => intro _; rfl
  | cons t rest ih =>
    intro hben
    rw [List.map_cons, List.map_cons, List.mapM_cons]
    have h1 : serializeTable t.name t.table = some t.lines := by
      obtain ⟨name, cols, n⟩ := t
      exact serializeTable_eval name cols n
        (hben ⟨name, cols, n⟩ (List.mem_cons_self _ _))
    rw [h1, ih (fun t2 h2 => hben t2 (List.mem_cons_of_mem t h2))]
    rfl

theorem serializeLines_spec (ts : List TSpec) (hben : ∀ t ∈ ts, t.benign) :
    serializeLines (docOf (ts.map (fun t => (t.name, t.table)))) =
      some (joinBlocks (ts.map (fun t => t.lines))) := by
  unfold serializeLines
  rw [show (docOf (ts.map (fun t => (t.name, t.table)))).tables =
    ts.map (fun t => (t.name, t.table)) from rfl]
  rw [mapM_serialize_spec ts hben]
  rw [show (docOf (ts.map (fun t => (t.name, t.table)))).fileComments =
    ([] : List (List Str)) from rfl]
  rw [if_pos rfl]
  rfl

theorem serializeLines_congr (d1 d2 : Doc) (h1 : d1.tables = d2.tables)
    (h2 : d1.fileComments = d2.fileComments) :
    serializeLines d1 = serializeLines d2 := by
  unfold serializeLines
  rw [h1, h2]

theorem serialize_scalar_unwrap (name : Str) (scols : List (Str × Str))
    (h : scols ≠ []) :
    serializeTable name
      (Table.mk [] (scols.map (fun p => (p.1, Col.scalar (Value.vStr p.2))))) =
    serializeTable name
      (Table.mk [] (scols.map (fun p => (p.1, Col.raws [p.2]))))  := by
  obtain ⟨q0, qs, hqs⟩ : ∃ q0 qs, scols = q0 :: qs := by
    cases scols with
    | nil => exact absurd rfl h
    | cons a b => exact ⟨a, b, rfl⟩
  subst hqs
  have hmaxL : maxLenOf ((Table.mk []
      ((q0 :: qs).map (fun p => (p.1, Col.scalar (Value.vStr p.2))))).cols.map
        (fun p => p.2)) = some 1 := by
    rw [show (Table.mk [] ((q0 :: qs).map (fun p =>
      (p.1, Col.scalar (Value.vStr p.2))))).cols.map (fun p => p.2) =
      Col.scalar (Value.vStr q0.2) :: (qs.map (fun p =>
        Col.scalar (Value.vStr p.2))) from by simp]
    rw [maxLenOf]
    rfl
  have hmaxR : maxLenOf ((Table.mk []
      ((q0 :: qs).map (fun p => (p.1, Col.raws [p.2])))).cols.map
        (fun p => p.2)) = some 1 := by
    rw [show (Table.mk [] ((q0 :: qs).map (fun p =>
      (p.1, Col.raws [p.2])))).cols.map (fun p => p.2) =
      Col.raws [q0.2] :: (qs.map (fun p => Col.raws [p.2])) from by simp]
    rw [maxLenOf]
    rw [show isScalarCol (Col.raws [q0.2]) = false from rfl]
    rw [if_neg Bool.false_ne_true]
    have hall : ((Col.raws [q0.2] :: qs.map (fun p => Col.raws [p.2])).all
        (fun c => (colPyLen c).isSome)) = true := by
      rw [List.all_eq_true]
      intro c hc
      rcases List.mem_cons.mp hc with h2 | h2
      · rw [h2]; rfl
      · obtain ⟨q, hq, hqe⟩ := List.mem_map.mp h2
        rw [← hqe]; rfl
    rw [if_pos hall]
    have hlens : ((Col.raws [q0.2] :: qs.map (fun p => Col.raws [p.2])).map
        (fun c => (colPyLen c).getD 0)) = 1 :: qs.map (fun _ => 1) := by
      rw [List.map_cons, List.map_map]
      rfl
    rw [hlens, List.foldl_cons]
    rw [show max 0 1 = 1 from rfl]
    rw [foldl_max_const _ 1 (by
      intro x hx
      obtain ⟨q, hq, hqe⟩ := List.mem_map.mp hx
      exact hqe.symm)]
  have hrowsL : (List.range 1).mapM (fun i => (Table.mk []
      ((q0 :: qs).map (fun p => (p.1, Col.scalar (Value.vStr p.2))))).cols.mapM
        (fun p => cellAt p.2 i)) =
      some [(q0 :: qs).map (fun p => p.2)] := by
    rw [show List.range 1 = [0] from rfl]
    rw [List.mapM_cons]
    have hin : ((q0 :: qs).map (fun p => (p.1, Col.scalar (Value.vStr p.2)))).mapM
        (fun p => cellAt p.2 0) =
        some (((q0 :: qs).map (fun p => (p.1, Col.scalar (Value.vStr p.2)))).map
          (fun q => match q.2 with
            | Col.scalar (Value.vStr s) => s
            | Col.raws l => l.getD 0 []
            | _ => [])) := by
      apply mapM_option_some
      intro q hq
      obtain ⟨p, hp, hpe⟩ := List.mem_map.mp hq
      rw [← hpe]
      rfl
    rw [hin, List.map_map]
    rfl
  have hrowsR : (List.range 1).mapM (fun i => (Table.mk []
      ((q0 :: qs).map (fun p => (p.1, Col.raws [p.2])))).cols.mapM
        (fun p => cellAt p.2 i)) =
      some [(q0 :: qs).map (fun p => p.2)] := by
    rw [show List.range 1 = [0] from rfl]
    rw [List.mapM_cons]
    have hin : ((q0 :: qs).map (fun p => (p.1, Col.raws [p.2]))).mapM
        (fun p => cellAt p.2 0) =
        some (((q0 :: qs).map (fun p => (p.1, Col.raws [p.2]))).map
          (fun q => match q.2 with
            | Col.scalar (Value.vStr s) => s
            | Col.raws l => l.getD 0 []
            | _ => [])) := by
      apply mapM_option_some
      intro q hq
      obtain ⟨p, hp, hpe⟩ := List.mem_map.mp hq
      rw [← hpe]
      rfl
    rw [hin, List.map_map]
    rfl
  rw [serializeTable, serializeTable, hmaxL, hmaxR]
  dsimp only
  rw [hrowsL, hrowsR]
  dsimp only
  have hL : List.map ((fun p => p.1) ∘ fun p : Str × Str =>
      (p.1, Col.scalar (Value.vStr p.2))) (q0 :: qs) =
      List.map (fun p => p.1) (q0 :: qs) := by
    apply List.map_congr_left
    intro p _
    rfl
  have hR : List.map ((fun p => p.1) ∘ fun p : Str × Str =>
      (p.1, Col.raws [p.2])) (q0 :: qs) =
      List.map (fun p => p.1) (q0 :: qs) := by
    apply List.map_congr_left
    intro p _
    rfl
  rw [List.map_map, List.map_map, hL, hR]

/-- C1 (amended): the round trip holds on the hygienic family and the
scalar unwrapping is invisible to the serializer, but not in general:
parsing strips cell whitespace (see the counterexample), the
serializer chops table names at their first digit, trims trailing
empty cells and cannot render float scalars.  For documents whose
tables satisfy `benignSpec`, serializing, re-parsing and serializing
again is the identity: the parsed document has exactly the same table
names, field lists and cell values, no diagnostics, and serializes to
the same text.  A collimated one-row table of string scalars
serializes identically to its single-element-list form, which is what
the re-parse rebuilds (the claimed scalar/list wrapping). -/
theorem c1_amended_roundtrip (ts : List TSpec)
    (hben : ∀ t ∈ ts, t.benign)
    (hnodup : (ts.map (fun t => t.name)).Nodup) :
    (∀ (nm : Str) (scols : List (Str × Str)), scols ≠ [] →
      serializeTable nm
        (Table.mk [] (scols.map (fun p => (p.1, Col.scalar (Value.vStr p.2))))) =
      serializeTable nm
        (Table.mk [] (scols.map (fun p => (p.1, Col.raws [p.2]))))) ∧
    ∃ lines d2,
      serializeLines (docOf (ts.map (fun t => (t.name, t.table)))) = some lines ∧
      parseECSV lines = .ok d2 ∧
      d2.tables = ts.map (fun t => (t.name, t.table)) ∧
      d2.fileComments = [] ∧
      d2.rstate = RState.initial ∧
      serializeLines d2 = some lines := by
  refine ⟨fun nm scols h => serialize_scalar_unwrap nm scols h, ?_⟩
  obtain ⟨tc, lnm, hp⟩ := parseRows_blocks ts 1 Doc.empty none hben
    (fun t _ => rfl) (fun t _ => by simp [Doc.empty]) hnodup
  refine ⟨joinBlocks (ts.map (fun t => t.lines)),
    Doc.mk (Doc.empty.tables ++ ts.map (fun t => (t.name, t.table))) tc lnm
      Doc.empty.fileComments Doc.empty.rstate,
    serializeLines_spec ts hben, ?_, rfl, rfl, rfl, ?_⟩
  · simp only [parseECSV]
    have hrows : ((joinBlocks (ts.map (fun t => t.lines))).map csvSplitLine).enum.map
        (fun p => (p.1 + 1, p.2)) =
        rowsFrom 1 (joinBlocks (ts.map (fun t => t.lines))) :=
      enumFrom_rowsFrom _ 0
    rw [hrows, hp]
    dsimp only
    rw [if_neg (by intro hc; exact hc rfl)]
  · exact (serializeLines_congr _ _ rfl rfl).trans (serializeLines_spec ts hben)


/-- A one-row metadata-style table. -/
def c1T1 : TSpec :=
  ⟨"CONTENT".toList,
   [("Class".toList, ["WOUDC".toList]), ("Category".toList, ["Spectral".toList])], 1⟩

/-- A two-row data table. -/
def c1T2 : TSpec :=
  ⟨"DATA".toList,
   [("A".toList, ["1".toList, "2".toList]), ("B".toList, ["x".toList, "y".toList])], 2⟩

/-- The two-table round-trip witness document. -/
def c1Ts : List TSpec := [c1T1, c1T2]

/-- Witness for the amended C1: the two-table document satisfies the
hygiene conditions, the round-trip conclusion holds, and concretely it
serializes to the eight expected lines, which re-parse to exactly the
same tables. -/
theorem c1_amended_roundtrip_witness :
    (∀ t ∈ c1Ts, t.benign) ∧
    ((c1Ts.map (fun t => t.name)).Nodup) ∧
    ((∀ (nm : Str) (scols : List (Str × Str)), scols ≠ [] →
      serializeTable nm
        (Table.mk [] (scols.map (fun p => (p.1, Col.scalar (Value.vStr p.2))))) =
      serializeTable nm
        (Table.mk [] (scols.map (fun p => (p.1, Col.raws [p.2]))))) ∧
    (∃ lines d2,
      serializeLines (docOf (c1Ts.map (fun t => (t.name, t.table)))) = some lines ∧
      parseECSV lines = .ok d2 ∧
      d2.tables = c1Ts.map (fun t => (t.name, t.table)) ∧
      d2.fileComments = [] ∧
      d2.rstate = RState.initial ∧
      serializeLines d2 = some lines)) ∧
    (serializeLines (docOf (c1Ts.map (fun t => (t.name, t.table)))) =
      some ["#CONTENT".toList, "Class,Category".toList, "WOUDC,Spectral".toList,
            "".toList, "#DATA".toList, "A,B".toList, "1,x".toList, "2,y".toList]) ∧
    ((parseECSV ["#CONTENT".toList, "Class,Category".toList, "WOUDC,Spectral".toList,
            "".toList, "#DATA".toList, "A,B".toList, "1,x".toList, "2,y".toList]).map
        (fun d2 => d2.tables) =
      .ok (c1Ts.map (fun t => (t.name, t.table)))) := by
  have hb1 : TSpec.benign c1T1 := by
    refine ⟨by decide, by decide, by decide, by decide, by decide, by decide, by decide,
      by decide, by decide, by decide, by decide, by decide, ?_, ?_⟩
    · intro p hp
      have hp2 : some (("Class".toList, ["WOUDC".toList]) : Str × List Str) = some p := hp
      injection hp2 with h2
      subst h2
      decide
    · intro p hp
      have hp2 : some (("Category".toList, ["Spectral".toList]) : Str × List Str) =
        some p := hp
      injection hp2 with h2
      subst h2
      decide
  have hb2 : TSpec.benign c1T2 := by
    refine ⟨by decide, by decide, by decide, by decide, by decide, by decide, by decide,
      by decide, by decide, by decide, by decide, by decide, ?_, ?_⟩
    · intro p hp
      have hp2 : some (("A".toList, ["1".toList, "2".toList]) : Str × List Str) =
        some p := hp
      injection hp2 with h2
      subst h2
      decide
    · intro p hp
      have hp2 : some (("B".toList, ["x".toList, "y".toList]) : Str × List Str) =
        some p := hp
      injection hp2 with h2
      subst h2
      decide
  have hben : ∀ t ∈ c1Ts, t.benign := by
    intro t ht
    simp only [c1Ts, List.mem_cons, List.not_mem_nil, or_false] at ht
    rcases ht with h2 | h2 <;> subst h2
    · exact hb1
    · exact hb2
  have h := c1_amended_roundtrip c1Ts hben (by decide)
  exact ⟨hben, by decide, h, by decide, by decide⟩

end Woudc
